import Mathlib

/-!
# Verification of the diagnosis-exchange protocol layer

A shallow embedding, in Lean 4, of the string-processing core of the
`E6data_hackathon` repository: the request encoder `create_input_xml` and
response decoder `parse_diagnosis_xml` (`xml_utils.py`), the
`analyze_performance` / `improve_query` / `chat_respond` drivers
(`gemini_client.py`), the iteration tracker and comparison handlers
(`streamlit_app.py`), and the SQLite collector
(`collectors/sqlite_collector.py`).

Python strings are modelled as `List Char` (`Str`); Python dictionaries with
a known key universe are modelled as structures whose fields are `Option`s
(`none` = key absent), and open-keyed string dictionaries as association
lists.  Fallible steps (XML parsing, network transport, database calls) run
in `Except Str`; a Python `try/except` becomes a `match` on that `Except`.
External transports (the LLM, the database driver) are oracle parameters.
Behaviour of Python / stdlib primitives (`str.find`, `str.strip`,
`str.replace`, `xml.etree.ElementTree`, `re`) is modelled by executable Lean
functions that follow their documented semantics on the inputs this code
feeds them; each model notes its scope where it is defined.
-/

set_option maxHeartbeats 1000000

namespace DbDiag

/-- Python strings, modelled as lists of characters. -/
abbrev Str := List Char

/-- Coerce a Lean string literal to the `Str` model. -/
def strOf (s : String) : Str := s.data

/-- The ASCII whitespace characters recognised by Python's `str.strip()`
(space, tab, newline, carriage return, vertical tab, form feed). -/
def isPyWs (c : Char) : Bool :=
  c = ' ' || c = '\t' || c = '\n' || c = '\r' || c.toNat = 11 || c.toNat = 12

/-- Model of Python `str.lstrip()`. -/
def pyLStrip (s : Str) : Str := s.dropWhile isPyWs

/-- Model of Python `str.strip()`. -/
def pyStrip (s : Str) : Str := ((s.dropWhile isPyWs).reverse.dropWhile isPyWs).reverse

/-- Model of Python `str.lower()` (ASCII case folding; the repository only
lower-cases ASCII SQL text). -/
def pyLower (s : Str) : Str := s.map Char.toLower

/-- `s[a:b]` for nonnegative indices: Python slicing clamps out-of-range
bounds and yields `""` when `a ≥ b`. -/
def pySlice (s : Str) (a b : Nat) : Str := (s.take b).drop a

/-- `s[a:]` for a nonnegative index. -/
def pySliceFrom (s : Str) (a : Nat) : Str := s.drop a

/-- Leftmost occurrence of `pat` in `s` at or after position `i`
(helper for `pyFind`). -/
def findSubAux (pat : Str) : Str → Nat → Option Nat
  | s, i =>
    if pat.isPrefixOf s then some i
    else
      match s with
      | [] => none
      | _ :: rest => findSubAux pat rest (i + 1)

/-- Model of Python `str.find`: index of the leftmost occurrence of `pat`
in `s`, `none` standing for Python's `-1`. -/
def pyFind (s pat : Str) : Option Nat := findSubAux pat s 0

/-- Model of Python `str.find` with a start position. -/
def pyFindFrom (s pat : Str) (start : Nat) : Option Nat :=
  (pyFind (s.drop start) pat).map (· + start)

/-- Model of Python's `in` operator on strings. -/
def hasSub (s pat : Str) : Bool := (pyFind s pat).isSome

/-- Longest prefix of characters satisfying `p`, together with the rest
(used to model regex character-class scans, which are deterministic here). -/
def cspan (p : Char → Bool) : Str → Str × Str
  | [] => ([], [])
  | c :: cs =>
    if p c then
      let r := cspan p cs
      (c :: r.1, r.2)
    else ([], c :: cs)

/-- ASCII word characters, the `\w` class of Python `re`. -/
def isWordChar (c : Char) : Bool :=
  ('a' ≤ c && c ≤ 'z') || ('A' ≤ c && c ≤ 'Z') || ('0' ≤ c && c ≤ '9') || c = '_'

/-- Case-insensitive prefix test (models matching a literal under
`re.IGNORECASE`, and `str.startswith` after `lower()`). -/
def ciIsPrefix (pat s : Str) : Bool := pat.isPrefixOf (pyLower s)

section UtilLemmas

/-- A span over a satisfying prefix consumes exactly that prefix when the
next character refutes `p`. -/
theorem cspan_append (p : Char → Bool) (t r : Str)
    (ht : ∀ c ∈ t, p c = true) (hr : ∀ c, r.head? = some c → p c = false) :
    cspan p (t ++ r) = (t, r) := by
  induction t with
  | nil =>
      cases r with
      | nil => rfl
      | cons c cs =>
          have := hr c rfl
          simp [cspan, this]
  | cons c cs ih =>
      have hc : p c = true := ht c (by simp)
      have ihr := ih (fun d hd => ht d (by simp [hd]))
      simp [cspan, hc, ihr]

/-- Characters of the span output. -/
theorem cspan_fst_all (p : Char → Bool) (s : Str) : ∀ c ∈ (cspan p s).1, p c = true := by
  induction s with
  | nil => intro c hc; simp [cspan] at hc
  | cons d ds ih =>
      intro c hc
      by_cases hd : p d
      · simp [cspan, hd] at hc
        rcases hc with h | h
        · simpa [h] using hd
        · exact ih c h
      · simp [cspan, hd] at hc

theorem cspan_append_eq (p : Char → Bool) (s : Str) : (cspan p s).1 ++ (cspan p s).2 = s := by
  induction s with
  | nil => rfl
  | cons d ds ih =>
      by_cases hd : p d <;> simp [cspan, hd, ih]

end UtilLemmas

/-! ## Python dictionaries with string keys and values -/

/-- An open-keyed Python `Dict[str, str]` (e.g. the diagnostic-bundle data
passed to `create_input_xml`), modelled as an association list; Python dicts
have unique keys, which lookup-first semantics subsumes. -/
abbrev PyDict := List (Str × Str)

/-- `k in d` for a Python dict. -/
def pyDictContains (d : PyDict) (k : Str) : Bool := d.any (fun p => p.1 == k)

/-- `d.get(k)`: `none` models Python `None`. -/
def pyDictGetOpt (d : PyDict) (k : Str) : Option Str :=
  (d.find? (fun p => p.1 == k)).map Prod.snd

/-- `d.get(k, dflt)`. -/
def pyDictGet (d : PyDict) (k : Str) (dflt : Str) : Str := (pyDictGetOpt d k).getD dflt

/-! ## `create_input_xml` (`xml_utils.py`, lines 11-47)

`xml.etree.ElementTree` is modelled at the level the encoder uses it: a text
child's serialization is `<tag>escaped text</tag>`, or the short form
`<tag />` when the text is empty (ElementTree writes the short form for
falsy text), and character data is escaped per `_escape_cdata`
(`&` → `&amp;`, `<` → `&lt;`, `>` → `&gt;`). -/

/-- ElementTree's character-data escaping (`_escape_cdata`). -/
def escapeXmlText (s : Str) : Str :=
  s.flatMap fun c =>
    if c = '&' then strOf "&amp;"
    else if c = '<' then strOf "&lt;"
    else if c = '>' then strOf "&gt;"
    else [c]

/-- Serialization of one child element of `database_info` by
`ET.tostring(root, encoding='unicode')`. -/
def etSerializeField (tag : Str) (text : Str) : Str :=
  if text = [] then strOf "<" ++ tag ++ strOf " />"
  else strOf "<" ++ tag ++ strOf ">" ++ escapeXmlText text ++ strOf "</" ++ tag ++ strOf ">"

/-- The fixed tag list `input_tags` of `create_input_xml`. -/
def inputTags : List Str :=
  [strOf "query", strOf "explain", strOf "logs", strOf "schema",
   strOf "stats", strOf "config", strOf "system"]

/-- The text assigned to a tag's element: `data[tag].strip()` when the key is
present and truthy, else `""`. -/
def fieldText (d : PyDict) (tag : Str) : Str :=
  match pyDictGetOpt d tag with
  | some v => if v = [] then [] else pyStrip v
  | none => []

/-- `ET.tostring(root, encoding='unicode')` for the assembled tree. -/
def xmlSerial (d : PyDict) : Str :=
  strOf "<database_info>" ++
    (inputTags.map (fun t => etSerializeField t (fieldText d t))).flatten ++
    strOf "</database_info>"

/-- Python `xml_str.replace('><', '>\n<')`: left-to-right, non-overlapping;
on finding the two-character pattern the scan resumes after it. -/
def replGtLt : Str → Str
  | [] => []
  | [c] => [c]
  | c :: d :: rest =>
    if c = '>' ∧ d = '<' then '>' :: '\n' :: '<' :: replGtLt rest
    else c :: replGtLt (d :: rest)

/-- `create_input_xml(data)`. -/
def create_input_xml (d : PyDict) : Str :=
  strOf "<?xml version=\"1.0\" encoding=\"UTF-8\"?>\n" ++ replGtLt (xmlSerial d)

/-! Lemmas about the `replace('><', '>\n<')` step. -/

/-- Whether a string contains the two-character pattern `><`. -/
def hasGtLt : Str → Bool
  | [] => false
  | [_] => false
  | c :: d :: rest => (c = '>' && d = '<') || hasGtLt (d :: rest)

/-- A string without the pattern is left unchanged by the replacement. -/
theorem replGtLt_of_not_hasGtLt : ∀ s : Str, hasGtLt s = false → replGtLt s = s
  | [], _ => rfl
  | [c], _ => rfl
  | c :: d :: rest, h => by
      have h' : ¬(c = '>' ∧ d = '<') := by
        intro ⟨h1, h2⟩
        simp [hasGtLt, h1, h2] at h
      have ht : hasGtLt (d :: rest) = false := by
        simp [hasGtLt] at h
        exact h.2
      simp [replGtLt, h', replGtLt_of_not_hasGtLt (d :: rest) ht]

/-- Scanning across a pattern-free block `a` followed by a `><` boundary
replaces exactly the boundary and resumes after it. -/
theorem replGtLt_boundary : ∀ a rest : Str, hasGtLt (a ++ ['>']) = false →
    replGtLt (a ++ '>' :: '<' :: rest) = a ++ '>' :: '\n' :: '<' :: replGtLt rest
  | [], rest, _ => by simp [replGtLt]
  | [c], rest, _ => by
      simp [replGtLt]
  | c :: d :: a, rest, h => by
      have h1 : ¬(c = '>' ∧ d = '<') := by
        intro ⟨h1, h2⟩
        simp [hasGtLt, h1, h2] at h
      have h2 : hasGtLt ((d :: a) ++ ['>']) = false := by
        simp only [List.cons_append, hasGtLt, Bool.or_eq_false_iff] at h ⊢
        exact h.2
      have ih := replGtLt_boundary (d :: a) rest h2
      simp only [List.cons_append] at ih ⊢
      rw [replGtLt, if_neg h1, ih]

/-- An occurrence of `><` in a prefix is an occurrence in the whole. -/
theorem hasGtLt_of_append_false : ∀ a b : Str, hasGtLt (a ++ b) = false → hasGtLt a = false
  | [], _, _ => rfl
  | [c], _, _ => rfl
  | c :: d :: a, b, h => by
      simp only [List.cons_append, hasGtLt, Bool.or_eq_false_iff] at h ⊢
      exact ⟨h.1, hasGtLt_of_append_false (d :: a) b h.2⟩

/-- Concatenation without a `><` boundary has no `><` occurrence. -/
theorem hasGtLt_append_false : ∀ a b : Str, hasGtLt a = false → hasGtLt b = false →
    ¬(a.getLast? = some '>' ∧ b.head? = some '<') → hasGtLt (a ++ b) = false
  | [], b, _, hb, _ => hb
  | [c], b, _, hb, hbd => by
      cases b with
      | nil => rfl
      | cons d bs =>
          have hcd : ¬(c = '>' ∧ d = '<') := by
            intro ⟨h1, h2⟩
            exact hbd ⟨by simp [h1], by simp [h2]⟩
          show hasGtLt (c :: d :: bs) = false
          simp only [hasGtLt, Bool.or_eq_false_iff]
          constructor
          · by_cases h1 : c = '>'
            · by_cases h2 : d = '<'
              · exact absurd ⟨h1, h2⟩ hcd
              · simp [h2]
            · simp [h1]
          · exact hb
  | c :: e :: a, b, ha, hb, hbd => by
      simp only [hasGtLt, Bool.or_eq_false_iff] at ha
      have hbd' : ¬((e :: a).getLast? = some '>' ∧ b.head? = some '<') := by
        intro ⟨h1, h2⟩
        exact hbd ⟨by rw [List.getLast?_cons_cons]; exact h1, h2⟩
      have := hasGtLt_append_false (e :: a) b ha.2 hb hbd'
      simp only [List.cons_append] at this ⊢
      simp only [hasGtLt, Bool.or_eq_false_iff]
      exact ⟨ha.1, by simpa using this⟩

/-- A string with no `>` character has no `><` occurrence. -/
theorem hasGtLt_of_no_gt : ∀ s : Str, (∀ c ∈ s, c ≠ '>') → hasGtLt s = false
  | [], _ => rfl
  | [_], _ => rfl
  | c :: d :: rest, h => by
      have hc : c ≠ '>' := h c (by simp)
      simp only [hasGtLt, Bool.or_eq_false_iff]
      refine ⟨by simp [hc], hasGtLt_of_no_gt (d :: rest) ?_⟩
      intro x hx
      exact h x (List.mem_cons_of_mem c hx)

/-- Appending a final `>` creates no `><` occurrence. -/
theorem hasGtLt_append_gt (a : Str) (ha : hasGtLt a = false) :
    hasGtLt (a ++ ['>']) = false := by
  refine hasGtLt_append_false a ['>'] ha rfl ?_
  intro ⟨_, h2⟩
  simp at h2

/-- The last element of a list is a member. -/
theorem mem_of_getLast_eq {l : Str} {c : Char} (h : l.getLast? = some c) : c ∈ l := by
  obtain ⟨hne, hEq⟩ := List.mem_getLast?_eq_getLast (show c ∈ l.getLast? by simp [Option.mem_def, h])
  rw [hEq]
  exact List.getLast_mem hne

/-- Escaped character data contains neither `<` nor `>`. -/
theorem escapeXmlText_safe (s : Str) : ∀ c ∈ escapeXmlText s, c ≠ '<' ∧ c ≠ '>' := by
  intro c hc
  simp only [escapeXmlText, List.mem_flatMap] at hc
  obtain ⟨a, _, hmem⟩ := hc
  by_cases h1 : a = '&'
  · simp [h1, strOf] at hmem
    rcases hmem with h | h | h | h | h <;> simp [h]
  · by_cases h2 : a = '<'
    · simp [h1, h2, strOf] at hmem
      rcases hmem with h | h | h | h <;> simp [h]
    · by_cases h3 : a = '>'
      · simp [h1, h2, h3, strOf] at hmem
        rcases hmem with h | h | h | h <;> simp [h]
      · simp [h1, h2, h3] at hmem
        simp [hmem]
        exact ⟨h2, h3⟩

/-- Escaping a nonempty string yields a nonempty string. -/
theorem escapeXmlText_ne_nil (s : Str) (h : s ≠ []) : escapeXmlText s ≠ [] := by
  cases s with
  | nil => exact absurd rfl h
  | cons c cs =>
      simp only [escapeXmlText, List.flatMap_cons]
      by_cases h1 : c = '&' <;> by_cases h2 : c = '<' <;> by_cases h3 : c = '>' <;>
        simp [h1, h2, h3, strOf]

/-- The body of a serialized section, without its outer angle brackets. -/
def innerOf (tag text : Str) : Str :=
  if text = [] then tag ++ strOf " /"
  else tag ++ '>' :: escapeXmlText text ++ strOf "</" ++ tag

theorem etSerializeField_inner (tag text : Str) :
    etSerializeField tag text = '<' :: innerOf tag text ++ ['>'] := by
  by_cases h : text = [] <;>
    simp [etSerializeField, innerOf, h, strOf, List.append_assoc]

/-- Section bodies contain no `><` pattern (tag names contain no angle
brackets; escaped text contains no angle brackets). -/
theorem hasGtLt_innerOf (tag text : Str) (htag : ∀ c ∈ tag, c ≠ '<' ∧ c ≠ '>') :
    hasGtLt (innerOf tag text) = false := by
  by_cases h : text = []
  · simp only [innerOf, if_pos h]
    refine hasGtLt_of_no_gt _ ?_
    intro c hc
    rcases List.mem_append.1 hc with h1 | h1
    · exact (htag c h1).2
    · simp [strOf] at h1
      rcases h1 with h1 | h1 <;> simp [h1]
  · simp only [innerOf, if_neg h]
    have hesc := escapeXmlText_safe text
    have hne := escapeXmlText_ne_nil text h
    have hA : hasGtLt tag = false := hasGtLt_of_no_gt _ (fun c hc => (htag c hc).2)
    have hB : hasGtLt ('>' :: (escapeXmlText text ++ strOf "</" ++ tag)) = false := by
      cases hx : escapeXmlText text with
      | nil => exact absurd hx hne
      | cons e es =>
          have he : e ≠ '<' ∧ e ≠ '>' := hesc e (by simp [hx])
          show hasGtLt ('>' :: (e :: es ++ strOf "</" ++ tag)) = false
          simp only [hasGtLt, List.cons_append, Bool.or_eq_false_iff]
          refine ⟨by simp [he.1], ?_⟩
          have h1 : hasGtLt (e :: es) = false := by
            refine hasGtLt_of_no_gt _ ?_
            intro c hc
            exact (hesc c (by rw [hx]; exact hc)).2
          have h2 : hasGtLt ('<' :: '/' :: tag) = false := by
            simp only [hasGtLt, Bool.or_eq_false_iff]
            refine ⟨by decide, hasGtLt_of_no_gt _ ?_⟩
            intro c hc
            rcases List.mem_cons.1 hc with h | h
            · simp [h]
            · exact (htag c h).2
          have hbd : ¬((e :: es).getLast? = some '>' ∧ ('<' :: '/' :: tag).head? = some '<') := by
            intro ⟨hl, _⟩
            have : '>' ∈ e :: es := by
              have := mem_of_getLast_eq hl
              simpa using this
            exact (hesc '>' (by rw [hx]; exact this)).2 rfl
          have := hasGtLt_append_false (e :: es) ('<' :: '/' :: tag) h1 h2 hbd
          simpa [strOf, List.append_assoc] using this
    have hC : ¬(tag.getLast? = some '>' ∧
        ('>' :: (escapeXmlText text ++ strOf "</" ++ tag)).head? = some '<') := by
      intro ⟨h1, _⟩
      have : '>' ∈ tag := mem_of_getLast_eq h1
      exact (htag '>' this).2 rfl
    have main := hasGtLt_append_false tag ('>' :: (escapeXmlText text ++ strOf "</" ++ tag)) hA hB hC
    simpa [List.append_assoc] using main

/-- The serialized envelope as alternating `><`-free blocks joined by `><`
boundaries. -/
def seps : List Str → Str
  | [] => []
  | [p] => p
  | p :: q :: ps => p ++ '>' :: '<' :: seps (q :: ps)

/-- The same blocks joined by `>`, newline, `<`. -/
def sepsN : List Str → Str
  | [] => []
  | [p] => p
  | p :: q :: ps => p ++ '>' :: '\n' :: '<' :: sepsN (q :: ps)

theorem replGtLt_seps : ∀ ps : List Str, (∀ p ∈ ps, hasGtLt p = false) →
    replGtLt (seps ps) = sepsN ps
  | [], _ => rfl
  | [p], h => replGtLt_of_not_hasGtLt p (h p (by simp))
  | p :: q :: ps, h => by
      show replGtLt (p ++ '>' :: '<' :: seps (q :: ps)) = p ++ '>' :: '\n' :: '<' :: sepsN (q :: ps)
      rw [replGtLt_boundary p _ (hasGtLt_append_gt p (h p (by simp))),
        replGtLt_seps (q :: ps) (fun x hx => h x (by simp [hx]))]

/-- The `><`-free blocks whose `><`-joined concatenation is the serialized
envelope: opening block, seven section bodies, closing block. -/
def envelopePieces (d : PyDict) : List Str :=
  strOf "<database_info" ::
    (inputTags.map (fun t => innerOf t (fieldText d t)) ++ [strOf "/database_info>"])

theorem xmlSerial_eq_seps (d : PyDict) : xmlSerial d = seps (envelopePieces d) := by
  have h1 : strOf "<database_info>" = strOf "<database_info" ++ ['>'] := by decide
  have h2 : strOf "</database_info>" = '<' :: strOf "/database_info>" := by decide
  simp only [xmlSerial, inputTags, envelopePieces, List.map_cons, List.map_nil,
    List.flatten_cons, List.flatten_nil, etSerializeField_inner, seps, h1, h2,
    List.cons_append, List.nil_append, List.append_nil, List.append_assoc]

theorem envelopePieces_no_pattern (d : PyDict) :
    ∀ p ∈ envelopePieces d, hasGtLt p = false := by
  intro p hp
  simp only [envelopePieces, inputTags, List.map_cons, List.map_nil, List.mem_cons,
    List.cons_append, List.nil_append, List.mem_singleton] at hp
  have htag : ∀ t : Str, (∀ c ∈ t, c ≠ '<' ∧ c ≠ '>') →
      ∀ x : Str, p = innerOf t x → hasGtLt p = false := by
    intro t ht x hx
    rw [hx]
    exact hasGtLt_innerOf t x ht
  rcases hp with h | h | h | h | h | h | h | h | h
  · rw [h]; decide
  · exact htag _ (by decide) _ h
  · exact htag _ (by decide) _ h
  · exact htag _ (by decide) _ h
  · exact htag _ (by decide) _ h
  · exact htag _ (by decide) _ h
  · exact htag _ (by decide) _ h
  · exact htag _ (by decide) _ h
  · rcases h with h | h
    · rw [h]; decide
    · simp at h

/-- The spec-side form of the encoder output (spec §4.1/§8): one envelope,
exactly the seven named sections in the fixed order
query, explain, logs, schema, stats, config, system — each section present
(rendered from the corresponding bundle field, possibly empty) — one section
per line. -/
def envelopeSpec (d : PyDict) : Str :=
  strOf "<?xml version=\"1.0\" encoding=\"UTF-8\"?>\n" ++
  strOf "<database_info>\n" ++
  (inputTags.map (fun t => etSerializeField t (fieldText d t) ++ ['\n'])).flatten ++
  strOf "</database_info>"

/-- Claim C2: for every input dictionary, with any subset of the seven fields
missing or empty, `create_input_xml` emits exactly seven named sections in
the fixed order query, explain, logs, schema, stats, config, system inside
a single `database_info` envelope, each section present (possibly empty)
even when the corresponding field is absent from the input. -/
theorem C2_create_input_xml_seven_sections (d : PyDict) :
    create_input_xml d = envelopeSpec d := by
  unfold create_input_xml envelopeSpec
  rw [xmlSerial_eq_seps, replGtLt_seps _ (envelopePieces_no_pattern d)]
  have h1 : strOf "<database_info>\n" = strOf "<database_info" ++ '>' :: '\n' :: [] := by decide
  have h2 : strOf "</database_info>" = '<' :: strOf "/database_info>" := by decide
  simp only [envelopePieces, inputTags, List.map_cons, List.map_nil,
    List.flatten_cons, List.flatten_nil, etSerializeField_inner, sepsN, h1, h2,
    List.cons_append, List.nil_append, List.append_nil, List.append_assoc]

/-! ## Model of `xml.etree.ElementTree.fromstring`

The decoder hands `ET.fromstring` a slice that starts at `<diagnosis>`, and
reads back only element tags, attributes, pre-first-child text (with CDATA
merged in, as expat does) and child lists.  The model below is a recursive
descent parser over exactly that vocabulary: elements with double-quoted
attributes, self-closing tags, character data with the five named entities,
and CDATA sections.  Inputs outside this vocabulary (processing
instructions, comments, numeric entities) are parse errors; real `ET`
accepts a few of those, which only enlarges the decoder's fallback set and
touches no claim below.  Recursion is fuelled by the input length; every
step consumes at least one character, so the fuel never runs out on
accepted inputs. -/

/-- XML whitespace. -/
def isXmlWs (c : Char) : Bool := c = ' ' || c = '\t' || c = '\n' || c = '\r'

/-- Skip XML whitespace. -/
def skipWs (s : Str) : Str := (cspan isXmlWs s).2

/-- Tag / attribute name characters (ASCII subset used by the protocol). -/
def isNameChar (c : Char) : Bool := isWordChar c || c = '-' || c = ':' || c = '.'

/-- Characters allowed to continue a raw text run. -/
def isTextChar (c : Char) : Bool := !(c = '<' || c = '&')

/-- Characters allowed inside a double-quoted attribute value. -/
def isAttrChar (c : Char) : Bool := !(c = '"' || c = '<' || c = '&')

/-- The five named XML entities (expat rejects undefined entities). -/
def decodeEntity (s : Str) : Except Str (Char × Str) :=
  if (strOf "amp;").isPrefixOf s then .ok ('&', s.drop 4)
  else if (strOf "lt;").isPrefixOf s then .ok ('<', s.drop 3)
  else if (strOf "gt;").isPrefixOf s then .ok ('>', s.drop 3)
  else if (strOf "quot;").isPrefixOf s then .ok ('"', s.drop 5)
  else if (strOf "apos;").isPrefixOf s then .ok (Char.ofNat 39, s.drop 5)
  else .error (strOf "undefined entity")

/-- Split a CDATA body at its terminator. -/
def splitCData (s : Str) : Option (Str × Str) :=
  match pyFind s (strOf "]]>") with
  | some i => some (s.take i, s.drop (i + 3))
  | none => none

/-- A parsed element: tag, attributes in document order, the character data
preceding the first child (as `Element.text`; `[]` plays Python's `None`),
and the child elements in document order. -/
structure XNode where
  tag : Str
  attrs : List (Str × Str)
  text : Str
  children : List XNode

mutual

/-- Parse one element starting at `<`. -/
def parseXNode (fuel : Nat) (s : Str) : Except Str (XNode × Str) :=
  match fuel with
  | 0 => .error (strOf "parser fuel exhausted")
  | fuel + 1 =>
    match s with
    | '<' :: rest =>
      match cspan isNameChar rest with
      | ([], _) => .error (strOf "malformed tag name")
      | (name, r1) =>
        match parseXAttrs fuel r1 with
        | .error e => .error e
        | .ok (attrs, r2, true) => .ok (⟨name, attrs, [], []⟩, r2)
        | .ok (attrs, r2, false) => parseXContent fuel name attrs [] [] false r2
    | _ => .error (strOf "expected element start")

/-- Parse the attribute list of an open tag, up to `>` or `/>`. -/
def parseXAttrs (fuel : Nat) (s : Str) : Except Str (List (Str × Str) × Str × Bool) :=
  match fuel with
  | 0 => .error (strOf "parser fuel exhausted")
  | fuel + 1 =>
    match skipWs s with
    | '>' :: r => .ok ([], r, false)
    | '/' :: '>' :: r => .ok ([], r, true)
    | c :: r =>
      if isNameChar c then
        match cspan isNameChar (c :: r) with
        | (an, '=' :: '"' :: r2) =>
          match cspan isAttrChar r2 with
          | (av, '"' :: r3) =>
            match parseXAttrs fuel r3 with
            | .ok (restAttrs, r4, sc) => .ok ((an, av) :: restAttrs, r4, sc)
            | .error e => .error e
          | _ => .error (strOf "malformed attribute value")
        | _ => .error (strOf "malformed attribute")
      else .error (strOf "malformed tag")
    | [] => .error (strOf "unexpected end of input in tag")

/-- Parse element content up to the matching closing tag, accumulating
pre-first-child text and children. -/
def parseXContent (fuel : Nat) (tag : Str) (attrs : List (Str × Str)) (text : Str)
    (children : List XNode) (seenChild : Bool) (s : Str) : Except Str (XNode × Str) :=
  match fuel with
  | 0 => .error (strOf "parser fuel exhausted")
  | fuel + 1 =>
    match s with
    | [] => .error (strOf "unexpected end of input")
    | '<' :: '/' :: r =>
      match cspan isNameChar r with
      | (cname, r1) =>
        match skipWs r1 with
        | '>' :: r2 =>
          if cname = tag then .ok (⟨tag, attrs, text, children.reverse⟩, r2)
          else .error (strOf "mismatched tag")
        | _ => .error (strOf "malformed closing tag")
    | '<' :: '!' :: r =>
      if (strOf "[CDATA[").isPrefixOf r then
        match splitCData (r.drop 7) with
        | some (dat, r2) =>
          parseXContent fuel tag attrs (if seenChild then text else text ++ dat)
            children seenChild r2
        | none => .error (strOf "unterminated CDATA section")
      else .error (strOf "unsupported markup")
    | '<' :: rest =>
      match parseXNode fuel ('<' :: rest) with
      | .ok (child, r2) => parseXContent fuel tag attrs text (child :: children) true r2
      | .error e => .error e
    | '&' :: r =>
      match decodeEntity r with
      | .ok (c, r2) =>
        parseXContent fuel tag attrs (if seenChild then text else text ++ [c])
          children seenChild r2
      | .error e => .error e
    | c :: cs =>
      match cspan isTextChar (c :: cs) with
      | (t, r2) =>
        parseXContent fuel tag attrs (if seenChild then text else text ++ t)
          children seenChild r2

end

/-- `ET.fromstring`: parse a whole document — one root element, possibly
surrounded by whitespace, nothing else. -/
def fromstring (s : Str) : Except Str XNode :=
  match parseXNode (s.length + 1) (skipWs s) with
  | .error e => .error e
  | .ok (n, r) => if skipWs r = [] then .ok n else .error (strOf "junk after document element")

/-- `Element.find`: first child with the given tag. -/
def xfind (n : XNode) (tag : Str) : Option XNode := n.children.find? (fun c => c.tag == tag)

/-- `Element.findall`: all children with the given tag, in document order. -/
def xfindall (n : XNode) (tag : Str) : List XNode := n.children.filter (fun c => c.tag == tag)

/-- `Element.get(key, default)`. -/
def xget (n : XNode) (key dflt : Str) : Str :=
  match n.attrs.find? (fun p => p.1 == key) with
  | some p => p.2
  | none => dflt

/-! ## `parse_diagnosis_xml` (`xml_utils.py`, lines 50-153) -/

/-- A parsed bottleneck entry (dict with keys type, severity, description). -/
structure Bottleneck where
  btype : Str
  severity : Str
  description : Str
deriving DecidableEq

/-- A parsed root-cause entry (dict with keys type, description). -/
structure RootCause where
  ctype : Str
  description : Str
deriving DecidableEq

/-- A parsed recommendation entry (dict with keys type, priority, description). -/
structure Recommendation where
  rtype : Str
  priority : Str
  description : Str
deriving DecidableEq

/-- The decoder / diagnostician result dictionary.  Fields are `Option`s with
`none` meaning the key is absent from the Python dict; `reasoning` is always
present.  `raw_input` holds either the encoded XML (success path of
`analyze_performance`) or the raw bundle dict (its error path). -/
structure DiagDict where
  reasoning : Str
  bottlenecks : Option (List Bottleneck)
  root_causes : Option (List RootCause)
  recommendations : Option (List Recommendation)
  comments : Option (List Str)
  parse_error : Option Str
  error : Option Str
  raw_input : Option (Str ⊕ PyDict)
  raw_response : Option Str
deriving DecidableEq

/-- `Element.text` guarded by Python truthiness then stripped:
`el.text.strip() if el.text else ""`. -/
def textOrEmpty (el : XNode) : Str := if el.text = [] then [] else pyStrip el.text

/-- The five fields extracted by the decoder's `try` body. -/
structure DiagCore where
  reasoning : Str
  bottlenecks : List Bottleneck
  root_causes : List RootCause
  recommendations : List Recommendation
  comments : List Str
deriving DecidableEq

/-- The `try` body of `parse_diagnosis_xml`: locate the `<diagnosis>`
envelope, parse it, and extract the five result fields; any failure is the
raised exception's message. -/
def parseDiagnosisTry (xml_response : Str) :
    Except Str DiagCore :=
  match pyFind xml_response (strOf "<diagnosis>"), pyFind xml_response (strOf "</diagnosis>") with
  | some start_idx, some end_idx =>
    let diagnosis_xml := pySlice xml_response start_idx (end_idx + 12)
    match fromstring diagnosis_xml with
    | .error e => .error e
    | .ok root =>
      let reasoning := match xfind root (strOf "reasoning") with
        | some el => textOrEmpty el
        | none => []
      let bottlenecks := match xfind root (strOf "bottlenecks") with
        | some be => (xfindall be (strOf "bottleneck")).map (fun el =>
            { btype := xget el (strOf "type") (strOf "Unknown"),
              severity := xget el (strOf "severity") (strOf "Medium"),
              description := textOrEmpty el })
        | none => []
      let root_causes := match xfind root (strOf "root_causes") with
        | some ce => (xfindall ce (strOf "root_cause")).map (fun el =>
            { ctype := xget el (strOf "type") (strOf "Unknown"),
              description := textOrEmpty el })
        | none => []
      let recommendations := match xfind root (strOf "recommendations") with
        | some re => (xfindall re (strOf "recommendation")).map (fun el =>
            { rtype := xget el (strOf "type") (strOf "Unknown"),
              priority := xget el (strOf "priority") (strOf "Medium"),
              description := textOrEmpty el })
        | none => []
      let comments := match xfind root (strOf "comments") with
        | some ce => ((xfindall ce (strOf "comment")).map textOrEmpty).filter (fun t => t ≠ [])
        | none => []
      .ok ⟨reasoning, bottlenecks, root_causes, recommendations, comments⟩
  | _, _ => .error (strOf "Could not find <diagnosis> tags in response")

/-- The `except` branch's best-effort reasoning extraction: text between the
bare reasoning markers, with a literal CDATA wrapper stripped. -/
def diagFallbackReasoning (xml_response : Str) : Str :=
  match pyFind xml_response (strOf "<reasoning>"), pyFind xml_response (strOf "</reasoning>") with
  | some rs, some re2 =>
    let rtext := pyStrip (pySlice xml_response (rs + 11) re2)
    if (strOf "<![CDATA[").isPrefixOf rtext ∧ (strOf "]]>").isSuffixOf rtext then
      pyStrip (pySlice rtext 9 (rtext.length - 3))
    else rtext
  | _, _ => []

/-- `parse_diagnosis_xml(xml_response)`. -/
def parse_diagnosis_xml (xml_response : Str) : DiagDict :=
  match parseDiagnosisTry xml_response with
  | .ok c =>
    { reasoning := c.reasoning, bottlenecks := some c.bottlenecks,
      root_causes := some c.root_causes,
      recommendations := some c.recommendations, comments := some c.comments,
      parse_error := none, error := none, raw_input := none, raw_response := none }
  | .error e =>
    { reasoning := diagFallbackReasoning xml_response,
      bottlenecks := some [], root_causes := some [],
      recommendations := some [], comments := some [],
      parse_error := some e, error := none, raw_input := none,
      raw_response := some xml_response }

deriving instance DecidableEq for Except

/-- Structural validity per the spec's Diagnosis data model: the reasoning
string plus all four sequences present. -/
def structurallyValidDiagnosis (d : DiagDict) : Prop :=
  d.bottlenecks.isSome ∧ d.root_causes.isSome ∧
    d.recommendations.isSome ∧ d.comments.isSome

/-- Claim C1: for every input text (including the empty string, truncated
envelopes, and envelopes with swapped tags), `parse_diagnosis_xml` returns a
structurally valid Diagnosis value — a reasoning string plus bottlenecks,
root_causes, recommendations and comments sequences — and never raises: the
fallible try-body `parseDiagnosisTry` is totally handled, and both branches
populate all sequences. -/
theorem C1_parse_diagnosis_total (s : Str) :
    structurallyValidDiagnosis (parse_diagnosis_xml s) := by
  unfold parse_diagnosis_xml structurallyValidDiagnosis
  cases parseDiagnosisTry s <;> simp

/-- Claim C8: whenever the try body fails (the diagnosis envelope is absent
or its slice cannot be parsed as XML), `parse_diagnosis_xml` returns the
full input as `raw_response`, sets `parse_error` to the error text, and sets
`reasoning` to the best-effort text between the reasoning markers with any
CDATA wrapper stripped — empty when those markers are absent. -/
theorem C8_parse_diagnosis_error_fallback (s e : Str)
    (h : parseDiagnosisTry s = .error e) :
    (parse_diagnosis_xml s).raw_response = some s ∧
    (parse_diagnosis_xml s).parse_error = some e ∧
    (parse_diagnosis_xml s).reasoning =
      (match pyFind s (strOf "<reasoning>"), pyFind s (strOf "</reasoning>") with
       | some rs, some re2 =>
         let rtext := pyStrip (pySlice s (rs + 11) re2)
         if (strOf "<![CDATA[").isPrefixOf rtext ∧ (strOf "]]>").isSuffixOf rtext then
           pyStrip (pySlice rtext 9 (rtext.length - 3))
         else rtext
       | _, _ => []) := by
  unfold parse_diagnosis_xml
  rw [h]
  exact ⟨rfl, rfl, rfl⟩

/-- Witness for C8 at a concrete failing input: no envelope, but a bare
CDATA-wrapped reasoning section that the fallback recovers. -/
theorem C8_witness :
    (parse_diagnosis_xml (strOf "<reasoning> <![CDATA[ scan cost dominates ]]> </reasoning>")).raw_response
        = some (strOf "<reasoning> <![CDATA[ scan cost dominates ]]> </reasoning>") ∧
    (parse_diagnosis_xml (strOf "<reasoning> <![CDATA[ scan cost dominates ]]> </reasoning>")).parse_error
        = some (strOf "Could not find <diagnosis> tags in response") ∧
    (parse_diagnosis_xml (strOf "<reasoning> <![CDATA[ scan cost dominates ]]> </reasoning>")).reasoning
        = strOf "scan cost dominates" := by
  have h := C8_parse_diagnosis_error_fallback
    (strOf "<reasoning> <![CDATA[ scan cost dominates ]]> </reasoning>")
    (strOf "Could not find <diagnosis> tags in response") (by decide)
  refine ⟨h.1, h.2.1, ?_⟩
  rw [h.2.2]
  decide

/-! ## `DatabaseDiagnostician.analyze_performance` (`gemini_client.py`, lines 71-113)

The network transport (`self.analysis_chat.send_message(...).text`) is an
oracle `send : Str → Except Str Str`; `.error e` models any exception raised
while sending or reading the reply (transport failure, model failure), with
`e` the exception text `str(e)`. -/

/-- `analyze_performance(db_data)` for a given transport oracle. -/
def analyze_performance (send : Str → Except Str Str) (db_data : PyDict) : DiagDict :=
  match send (create_input_xml db_data) with
  | .ok raw_response =>
    let diagnosis := parse_diagnosis_xml raw_response
    { diagnosis with
        raw_input := some (.inl (create_input_xml db_data)),
        raw_response := some raw_response }
  | .error e =>
    { reasoning := strOf "Error occurred during analysis: " ++ e,
      bottlenecks := none,
      root_causes := some [], recommendations := some [], comments := some [],
      parse_error := none, error := some e,
      raw_input := some (.inr db_data), raw_response := some [] }

/-- Counterexample to claim C3 as stated: with a failing transport, the
returned dictionary has no `bottlenecks` key at all (the error branch of
`analyze_performance` builds its dict without one), so the claim that all
four sequences are present and empty is false. -/
theorem C3_counterexample :
    (analyze_performance (fun _ => .error (strOf "boom"))
        [(strOf "query", strOf "SELECT 1")]).bottlenecks = none ∧
    (analyze_performance (fun _ => .error (strOf "boom"))
        [(strOf "query", strOf "SELECT 1")]).bottlenecks ≠ some [] := by
  constructor
  · rfl
  · intro h
    simp [analyze_performance] at h

/-- Claim C3 (amended): for every input and every transport failure,
`analyze_performance` returns normally with a dictionary whose `reasoning`
explains the error, whose `root_causes`, `recommendations` and `comments`
are present and empty, whose `bottlenecks` key is absent, whose `error`
carries the exception text, and whose `raw_response` is the empty string. -/
theorem C3_analyze_failure_amended (send : Str → Except Str Str) (db_data : PyDict) (e : Str)
    (h : send (create_input_xml db_data) = .error e) :
    (analyze_performance send db_data).reasoning = strOf "Error occurred during analysis: " ++ e ∧
    (analyze_performance send db_data).root_causes = some [] ∧
    (analyze_performance send db_data).recommendations = some [] ∧
    (analyze_performance send db_data).comments = some [] ∧
    (analyze_performance send db_data).bottlenecks = none ∧
    (analyze_performance send db_data).error = some e ∧
    (analyze_performance send db_data).raw_response = some [] := by
  unfold analyze_performance
  rw [h]
  exact ⟨rfl, rfl, rfl, rfl, rfl, rfl, rfl⟩

/-- Witness for the amended C3 at a concrete bundle and failing transport. -/
theorem C3_witness :
    (analyze_performance (fun _ => .error (strOf "503 model unavailable"))
        [(strOf "query", strOf "SELECT 1")]).reasoning
      = strOf "Error occurred during analysis: 503 model unavailable" ∧
    (analyze_performance (fun _ => .error (strOf "503 model unavailable"))
        [(strOf "query", strOf "SELECT 1")]).root_causes = some [] ∧
    (analyze_performance (fun _ => .error (strOf "503 model unavailable"))
        [(strOf "query", strOf "SELECT 1")]).raw_response = some [] := by
  have h := C3_analyze_failure_amended (fun _ => .error (strOf "503 model unavailable"))
    [(strOf "query", strOf "SELECT 1")] (strOf "503 model unavailable") rfl
  refine ⟨?_, h.2.1, h.2.2.2.2.2.2⟩
  rw [h.1]
  decide

/-! ## `chat_respond` (`gemini_client.py`, lines 292-306)

`chat_respond` is in the sources, but the three helpers it imports from
`xml_utils` — `build_chat_prompt`, `extract_response_from_text`,
`clean_response_from_xml_tags` — are not defined under the sources (the
shipped `xml_utils.py` stops before them).  They are modelled from the
spec below. -/

/-- Tag-span remover used by the chat cleaners (fuel = input length). -/
def stripTagsAux : Nat → Str → Str
  | 0, s => s
  | _, [] => []
  | fuel + 1, '<' :: r =>
    match pyFind r (strOf ">") with
    | some i => stripTagsAux fuel (r.drop (i + 1))
    | none => '<' :: stripTagsAux fuel r
  | fuel + 1, c :: r => c :: stripTagsAux fuel r

/-- Modelled from the spec: `clean_response_from_xml_tags` is imported from
`xml_utils` by `gemini_client.py` and `streamlit_app.py` but its definition
is missing from the sources; per the spec ("the cleaned raw text") it
returns the reply with markup tag spans removed and whitespace stripped. -/
def clean_response_from_xml_tags (s : Str) : Str := pyStrip (stripTagsAux s.length s)

/-- Modelled from the spec: `build_chat_prompt` is imported from `xml_utils`
but its definition is missing from the sources; per spec §4.3 and the
construction comment in `gemini_client.py` it encodes the prior
(user, response) pairs plus the new message in the simplified
history/user/response tag protocol.  History entries are dicts with optional
keys, modelled as option pairs. -/
def build_chat_prompt (history : List (Option Str × Option Str)) (user_message : Str) : Str :=
  strOf "<history>\n" ++
  (history.map (fun p =>
    (match p.1 with
     | some u => strOf "<user>" ++ u ++ strOf "</user>\n"
     | none => []) ++
    (match p.2 with
     | some r => strOf "<response>" ++ r ++ strOf "</response>\n"
     | none => []))).flatten ++
  strOf "</history>\n<user>" ++ user_message ++ strOf "</user>"

/-- Modelled from the spec: `extract_response_from_text` is imported from
`xml_utils` but its definition is missing from the sources; per spec §4.3
(and mirroring the in-source subsequent-turn branch of
`_process_chat_response`) it returns the cleaned text between the
response markers, falling back to the cleaned raw text when the markers are
absent. -/
def extract_response_from_text (raw : Str) : Str :=
  match pyFind raw (strOf "<response>"), pyFind raw (strOf "</response>") with
  | some i, some j => clean_response_from_xml_tags (pyStrip (pySlice raw (i + 10) j))
  | _, _ => clean_response_from_xml_tags raw

/-- `chat_respond(history, user_message)`; the simplified-context transport
(`self.simple_chat.send_message(...).text`) is the oracle `send`, returning
`none` when `response.text` is `None` (`raw = response.text or ""`). -/
def chat_respond (send : Str → Option Str) (history : List (Option Str × Option Str))
    (user_message : Str) : Str :=
  let prompt := build_chat_prompt history user_message
  let raw := (send prompt).getD []
  extract_response_from_text raw

/-- Claim C9: for every history of (user, response) pairs and every new user
message, `chat_respond` sends the encoded prompt over the simplified chat
context and returns the text between the simplified response markers of the
model's reply, falling back to the cleaned raw reply text when those markers
are absent. -/
theorem C9_chat_respond_protocol (send : Str → Option Str)
    (history : List (Option Str × Option Str)) (user_message : Str) :
    chat_respond send history user_message =
      (let raw := (send (build_chat_prompt history user_message)).getD []
       match pyFind raw (strOf "<response>"), pyFind raw (strOf "</response>") with
       | some i, some j => clean_response_from_xml_tags (pyStrip (pySlice raw (i + 10) j))
       | _, _ => clean_response_from_xml_tags raw) := rfl

/-! ## `SqliteCollector.collect_for_query` (`collectors/sqlite_collector.py`, lines 35-109)

The sqlite3 driver and OS are an oracle `SqliteEnv`: each external call
either yields data or raises (`Except`).  Numeric values that the code
renders with f-strings from wall-clock floats or file sizes are provided by
the oracle already rendered (the clock is nondeterministic anyway); row and
plan cells are provided as the `str()` of the cell. -/

/-- One row of `PRAGMA table_info` (name, type, notnull, pk as used). -/
structure ColInfo where
  name : Str
  ctype : Str
  notnull : Bool
  pk : Bool
deriving DecidableEq

/-- One row of `PRAGMA index_list` (name, unique as used). -/
structure IdxInfo where
  name : Str
  unique : Bool
deriving DecidableEq

/-- The database / OS oracle for one `collect_for_query` call. -/
structure SqliteEnv where
  connectOk : Except Str Unit
  planRows : Str → Except Str (List (Str × Str × Str × Str))
  execResult : Str → Except Str (List Str × List (List Str))
  execElapsed : Str → Str
  tableInfo : Str → Except Str (List ColInfo)
  indexList : Str → Except Str (List IdxInfo)
  rowCount : Str → Except Str Nat
  hasStat1 : Str → Except Str Bool
  pragmaValue : Str → Except Str Str
  fileSizeMB : Except Str Str
  platformStr : Str

/-- Python `"sep".join(lines)` for newline separator. -/
def joinNl : List Str → Str
  | [] => []
  | [x] => x
  | x :: rest => x ++ '\n' :: joinNl rest

/-- `" | ".join(cells)`. -/
def joinPipe : List Str → Str
  | [] => []
  | [x] => x
  | x :: rest => x ++ strOf " | " ++ joinPipe rest

/-- Group digits by thousands from the right (`f"{count:,}"` helper). -/
def commaRev : Str → Str
  | a :: b :: c :: d :: rest => a :: b :: c :: ',' :: commaRev (d :: rest)
  | l => l

/-- `f"{count:,}"` for a row count. -/
def formatComma (n : Nat) : Str := (commaRev (strOf (toString n)).reverse).reverse

/-- `\b(?:FROM|JOIN)\s+([\w]+)` scan at one position: the keyword (with a
word boundary on its left, checked by the caller), whitespace, a word. -/
def tableMatchAt (s : Str) : Option (Str × Str) :=
  if ciIsPrefix (strOf "from") (s.take 4) ∨ ciIsPrefix (strOf "join") (s.take 4) then
    let afterKw := s.drop 4
    let r := cspan isPyWs afterKw
    if r.1 = [] then none
    else
      let w := cspan isWordChar r.2
      if w.1 = [] then none else some (w.1, w.2)
  else none

/-- `re.findall` driver for `_extract_table_identifiers` (fuel = positions
left to scan); `prevWord` tracks whether the previous character is a word
character, refuting the `\b` boundary. -/
def findTablesAux : Nat → Bool → Str → List Str
  | 0, _, _ => []
  | _, _, [] => []
  | fuel + 1, prevWord, c :: rest =>
    match if prevWord then none else tableMatchAt (c :: rest) with
    | some (w, after) => w :: findTablesAux fuel true after
    | none => findTablesAux fuel (isWordChar c) rest

/-- First-occurrence deduplication standing in for Python's `list(set(...))`
(whose iteration order is unspecified; no claim depends on the order). -/
def dedupe : List Str → List Str
  | [] => []
  | x :: rest => x :: (dedupe rest).filter (fun y => ¬ y == x)

/-- `_extract_table_identifiers(sql)`. -/
def extractTableIdentifiers (sql : Str) : List Str :=
  dedupe (findTablesAux (sql.length + 1) false sql)

/-- `_collect_schema_snapshot(conn, tables)` (total: each table has its own
`try/except`). -/
def collectSchemaSnapshot (env : SqliteEnv) (tables : List Str) : Str :=
  joinNl (tables.flatMap fun t =>
    match env.tableInfo t with
    | .error e => [strOf "Error getting schema for " ++ t ++ strOf ": " ++ e]
    | .ok cols =>
      let part1 :=
        if cols = [] then []
        else (strOf "Table: " ++ t) ::
          cols.map (fun c =>
            strOf "  " ++ c.name ++ strOf " " ++ c.ctype ++ strOf " " ++
            (if c.notnull then strOf "NOT NULL" else strOf "NULL") ++ strOf " " ++
            (if c.pk then strOf "PRIMARY KEY" else []))
      match env.indexList t with
      | .error e => part1 ++ [strOf "Error getting schema for " ++ t ++ strOf ": " ++ e]
      | .ok idxs =>
        part1 ++
          (if idxs = [] then []
           else (strOf "Indexes for " ++ t ++ strOf ":") ::
             idxs.map (fun i =>
               strOf "  " ++ i.name ++ strOf " " ++ (if i.unique then strOf "UNIQUE" else []))))

/-- `_collect_stats_snapshot(conn, tables)`. -/
def collectStatsSnapshot (env : SqliteEnv) (tables : List Str) : Str :=
  joinNl (tables.flatMap fun t =>
    match env.rowCount t with
    | .error e => [strOf "Error getting stats for " ++ t ++ strOf ": " ++ e]
    | .ok n =>
      (t ++ strOf ": " ++ formatComma n ++ strOf " rows") ::
      (match env.hasStat1 t with
       | .error e => [strOf "Error getting stats for " ++ t ++ strOf ": " ++ e]
       | .ok true => [strOf "  Statistics available for " ++ t]
       | .ok false => [strOf "  No statistics for " ++ t ++ strOf " (run ANALYZE)"]))

/-- The pragmas probed by `_collect_config_snapshot`. -/
def configPragmas : List Str :=
  [strOf "cache_size", strOf "page_size", strOf "journal_mode", strOf "synchronous",
   strOf "temp_store", strOf "mmap_size"]

/-- `_collect_config_snapshot(conn)` (per-pragma errors are passed over). -/
def collectConfigSnapshot (env : SqliteEnv) : Str :=
  joinNl (configPragmas.flatMap fun p =>
    match env.pragmaValue p with
    | .error _ => []
    | .ok v => [p ++ strOf ": " ++ v])

/-- `_collect_system_snapshot()`; `os.path.getsize` may raise, which escapes
to the outer handler. -/
def collectSystemSnapshot (env : SqliteEnv) (db_path : Str) : Except Str Str :=
  match env.fileSizeMB with
  | .error e => .error e
  | .ok size =>
    .ok (joinNl
      [strOf "Database: SQLite",
       strOf "Database file: " ++ db_path,
       strOf "File size: " ++ size ++ strOf " MB",
       strOf "Platform: " ++ env.platformStr])

/-- The query-plan section of `collect_for_query` (its own `try/except`):
returns (plan_text, log lines). -/
def planSection (env : SqliteEnv) (sql : Str) : Str × List Str :=
  match env.planRows (strOf "EXPLAIN QUERY PLAN " ++ sql) with
  | .ok rows =>
    (joinNl (rows.map fun r =>
       r.1 ++ strOf "|" ++ r.2.1 ++ strOf "|" ++ r.2.2.1 ++ strOf "|" ++ r.2.2.2),
     [strOf "Query plan collected successfully"])
  | .error e => ([], [strOf "Error getting query plan: " ++ e])

/-- The timed-execution section (its own `try/except`): returns
(log lines, result_preview). -/
def execSection (env : SqliteEnv) (sql : Str) : List Str × Str :=
  let pre := strOf "Executing query with timing..."
  match env.execResult sql with
  | .ok (headers, rows) =>
    let preview_rows := rows.take 50
    let dashCount :=
      min 120 ((headers.map List.length).sum + 3 * (headers.length - 1))
    let lines :=
      (if headers = [] then []
       else [joinPipe headers, List.replicate dashCount '-']) ++
      preview_rows.map (fun row => joinPipe ((headers.zip row).map Prod.snd))
    ([pre,
      strOf "Execution elapsed: " ++ env.execElapsed sql ++ strOf " ms",
      strOf "Rows previewed: " ++ strOf (toString preview_rows.length)],
     joinNl lines)
  | .error e =>
    ([pre,
      strOf "Query failed after " ++ env.execElapsed sql ++ strOf " ms: " ++ e],
     [])

/-- `collect_for_query(sql, estimated_plan_only)`.  The outer `try/except`
catches connection and system-snapshot failures; the returned dict always
carries the eight fixed keys. -/
def collect_for_query (env : SqliteEnv) (db_path sql : Str) (estimated_plan_only : Bool) :
    PyDict :=
  let tables := extractTableIdentifiers sql
  let r :=
    match env.connectOk with
    | .error e =>
      (([] : Str), [strOf "Collector error: " ++ e], ([] : Str),
       ([] : Str), ([] : Str), ([] : Str), ([] : Str))
    | .ok _ =>
      let ps := planSection env sql
      let es := if estimated_plan_only then ([], []) else execSection env sql
      let logs := ps.2 ++ es.1
      let schema := collectSchemaSnapshot env tables
      let stats := collectStatsSnapshot env tables
      let config := collectConfigSnapshot env
      match collectSystemSnapshot env db_path with
      | .ok system => (ps.1, logs, es.2, schema, stats, config, system)
      | .error e =>
        (ps.1, logs ++ [strOf "Collector error: " ++ e], es.2, [], [], [], [])
  match r with
  | (plan_text, logs, result_preview, schema, stats, config, system) =>
    [(strOf "query", sql),
     (strOf "explain", plan_text),
     (strOf "logs", pyStrip (joinNl logs)),
     (strOf "schema", pyStrip schema),
     (strOf "stats", pyStrip stats),
     (strOf "config", pyStrip config),
     (strOf "system", pyStrip system),
     (strOf "result_preview", pyStrip result_preview)]

/-- A leading block with a non-whitespace last character survives
`str.strip()` as a prefix. -/
theorem pyStrip_keeps_head (a b : Str) (ha : ∀ c, a.head? = some c → isPyWs c = false)
    (hlast : ∀ c, a.getLast? = some c → isPyWs c = false) (hne : a ≠ []) :
    a.isPrefixOf (pyStrip (a ++ b)) = true := by
  unfold pyStrip
  have h1 : (a ++ b).dropWhile isPyWs = a ++ b := by
    cases a with
    | nil => exact absurd rfl hne
    | cons c cs =>
      have := ha c rfl
      simp [List.dropWhile, this]
  rw [h1]
  have h2 : ∃ b2, (a ++ b).reverse.dropWhile isPyWs = b2 ++ a.reverse := by
    rw [List.reverse_append]
    rcases hdw : b.reverse.dropWhile isPyWs with _ | ⟨c, cs⟩
    · refine ⟨[], ?_⟩
      rw [List.dropWhile_append, hdw]
      simp only [List.isEmpty_nil, if_true]
      cases ha2 : a.reverse with
      | nil =>
          exact absurd (by simpa using congrArg List.reverse ha2) hne
      | cons d ds =>
        have hd : a.getLast? = some d := by
          rw [← List.head?_reverse, ha2]; rfl
        have := hlast d hd
        simp [ha2, List.dropWhile, this]
    · refine ⟨c :: cs, ?_⟩
      rw [List.dropWhile_append, hdw]
      simp
  obtain ⟨b2, hb2⟩ := h2
  rw [hb2]
  rw [List.reverse_append, List.reverse_reverse]
  exact List.isPrefixOf_iff_prefix.2 (List.prefix_append a b2.reverse)

/-- A prefix occurrence is an occurrence. -/
theorem hasSub_of_isPrefixOf (s pat : Str) (h : pat.isPrefixOf s = true) :
    hasSub s pat = true := by
  unfold hasSub pyFind findSubAux
  simp [h]

/-- Claim C10: for every oracle behaviour, SQL text and flag,
`collect_for_query` returns normally with a dictionary holding exactly the
eight keys query, explain, logs, schema, stats, config, system,
result_preview in that order with string values; connection failures are
recorded in the log text (`Collector error:`) rather than raised, and
query-plan failures are recorded as `Error getting query plan:` log text. -/
theorem C10_collect_for_query_shape (env : SqliteEnv) (db_path sql : Str)
    (estimated_plan_only : Bool) :
    ∃ ex lg sc st cf sy rp,
      collect_for_query env db_path sql estimated_plan_only =
        [(strOf "query", sql), (strOf "explain", ex), (strOf "logs", lg),
         (strOf "schema", sc), (strOf "stats", st), (strOf "config", cf),
         (strOf "system", sy), (strOf "result_preview", rp)] ∧
      (∀ e, env.connectOk = .error e → hasSub lg (strOf "Collector error:") = true) ∧
      (∀ e, env.connectOk = .ok () →
        env.planRows (strOf "EXPLAIN QUERY PLAN " ++ sql) = .error e →
        hasSub lg (strOf "Error getting query plan:") = true) := by
  unfold collect_for_query
  cases hc : env.connectOk with
  | error e =>
    refine ⟨_, _, _, _, _, _, _, rfl, ?_, ?_⟩
    · intro e' _
      apply hasSub_of_isPrefixOf
      show (strOf "Collector error:").isPrefixOf
        (pyStrip (joinNl [strOf "Collector error: " ++ e])) = true
      have : joinNl [strOf "Collector error: " ++ e] =
          strOf "Collector error:" ++ (' ' :: e) := by
        simp [joinNl, strOf, List.append_assoc]
      rw [this]
      exact pyStrip_keeps_head _ _ (by decide) (by decide) (by decide)
    · intro e' h _
      simp at h
  | ok u =>
    cases u
    cases hsys : collectSystemSnapshot env db_path with
    | ok system =>
      refine ⟨_, _, _, _, _, _, _, rfl, ?_, ?_⟩
      · intro e' he
        simp at he
      · intro e' _ hp
        apply hasSub_of_isPrefixOf
        show (strOf "Error getting query plan:").isPrefixOf
          (pyStrip (joinNl ((planSection env sql).2 ++
            (if estimated_plan_only then ([], []) else execSection env sql).1))) = true
        rw [planSection, hp]
        have hjoin : ∃ b, joinNl ((strOf "Error getting query plan: " ++ e') ::
            (if estimated_plan_only then (([] : List Str), ([] : Str)) else execSection env sql).1)
            = strOf "Error getting query plan:" ++ (' ' :: b) := by
          rcases (if estimated_plan_only then (([] : List Str), ([] : Str)) else execSection env sql).1
            with _ | ⟨l, ls⟩
          · exact ⟨e', by simp [joinNl, strOf, List.append_assoc]⟩
          · exact ⟨e' ++ '\n' :: joinNl (l :: ls), by simp [joinNl, strOf, List.append_assoc]⟩
        obtain ⟨b, hb⟩ := hjoin
        simp only [List.nil_append, List.singleton_append]
        rw [hb]
        exact pyStrip_keeps_head _ _ (by decide) (by decide) (by decide)
    | error e2 =>
      refine ⟨_, _, _, _, _, _, _, rfl, ?_, ?_⟩
      · intro e' he
        simp at he
      · intro e' _ hp
        apply hasSub_of_isPrefixOf
        show (strOf "Error getting query plan:").isPrefixOf
          (pyStrip (joinNl (((planSection env sql).2 ++
            (if estimated_plan_only then ([], []) else execSection env sql).1) ++
            [strOf "Collector error: " ++ e2]))) = true
        rw [planSection, hp]
        have hjoin : ∃ b, joinNl (((strOf "Error getting query plan: " ++ e') ::
            (if estimated_plan_only then (([] : List Str), ([] : Str)) else execSection env sql).1) ++
            [strOf "Collector error: " ++ e2])
            = strOf "Error getting query plan:" ++ (' ' :: b) := by
          rcases (if estimated_plan_only then (([] : List Str), ([] : Str)) else execSection env sql).1
            with _ | ⟨l, ls⟩
          · exact ⟨e' ++ '\n' :: joinNl [strOf "Collector error: " ++ e2],
              by simp [joinNl, strOf, List.append_assoc]⟩
          · exact ⟨e' ++ '\n' :: joinNl ((l :: ls) ++ [strOf "Collector error: " ++ e2]),
              by simp [joinNl, strOf, List.append_assoc]⟩
        obtain ⟨b, hb⟩ := hjoin
        simp only [List.nil_append, List.singleton_append]
        rw [hb]
        exact pyStrip_keeps_head _ _ (by decide) (by decide) (by decide)

/-! ## `improve_query` (`gemini_client.py`, lines 115-268)

The field-by-field prior-diagnosis reconstruction (lines 139-164), the
rationale / code-fence parsing and the `_extract_first_select` sanitizer
(lines 214-259). -/

/-- `f"    <bottleneck type=\"{...}\" severity=\"{...}\">{...}</bottleneck>"`
(the `.get(..., default)` calls always find their keys on a typed
Diagnosis, whose entries carry every field). -/
def bottleneckLine (b : Bottleneck) : Str :=
  strOf "    <bottleneck type=\"" ++ b.btype ++ strOf "\" severity=\"" ++ b.severity ++
    strOf "\">" ++ b.description ++ strOf "</bottleneck>"

/-- `f"    <root_cause type=\"{...}\">{...}</root_cause>"`. -/
def rootCauseLine (c : RootCause) : Str :=
  strOf "    <root_cause type=\"" ++ c.ctype ++ strOf "\">" ++ c.description ++
    strOf "</root_cause>"

/-- `f"    <recommendation type=\"{...}\" priority=\"{...}\">{...}</recommendation>"`. -/
def recommendationLine (r : Recommendation) : Str :=
  strOf "    <recommendation type=\"" ++ r.rtype ++ strOf "\" priority=\"" ++ r.priority ++
    strOf "\">" ++ r.description ++ strOf "</recommendation>"

/-- `f"    <comment>{cm}</comment>"`. -/
def commentLine (cm : Str) : Str := strOf "    <comment>" ++ cm ++ strOf "</comment>"

/-- The field-by-field prior-diagnosis reconstruction of `improve_query`
(`diag_lines`, joined with newlines); sections are emitted only when truthy
(present and nonempty). -/
def buildPriorDiagnosisXml (pd : DiagDict) : Str :=
  joinNl (
    [strOf "<diagnosis>"] ++
    (if pd.reasoning = [] then []
     else [strOf "  <reasoning>\n    <![CDATA[\n" ++ pd.reasoning ++
           strOf "\n    ]]>\n  </reasoning>"]) ++
    (match pd.bottlenecks with
     | some (b :: bs) =>
       strOf "  <bottlenecks>" :: ((b :: bs).map bottleneckLine ++ [strOf "  </bottlenecks>"])
     | _ => []) ++
    (match pd.root_causes with
     | some (c :: cs) =>
       strOf "  <root_causes>" :: ((c :: cs).map rootCauseLine ++ [strOf "  </root_causes>"])
     | _ => []) ++
    (match pd.recommendations with
     | some (r :: rs) =>
       strOf "  <recommendations>" ::
         ((r :: rs).map recommendationLine ++ [strOf "  </recommendations>"])
     | _ => []) ++
    (match pd.comments with
     | some (c :: cs) =>
       strOf "  <comments>" :: ((c :: cs).map commentLine ++ [strOf "  </comments>"])
     | _ => []) ++
    [strOf "</diagnosis>"])

/-- `re.sub(r"/\*.*?\*/", " ", txt, flags=re.DOTALL)`: each leftmost
lazily-terminated block comment becomes one space; an unterminated opener
matches nothing (fuel = input length). -/
def rbcAux : Nat → Str → Str
  | 0, s => s
  | fuel + 1, s =>
    match pyFind s (strOf "/*") with
    | none => s
    | some i =>
      match pyFindFrom s (strOf "*/") (i + 2) with
      | none => s
      | some j => s.take i ++ ' ' :: rbcAux fuel (s.drop (j + 2))

/-- Block-comment removal. -/
def removeBlockComments (s : Str) : Str := rbcAux (s.length + 1) s

/-- `re.sub(r"^\s*--.*$", "", txt, flags=re.MULTILINE)`: at each line start,
a whitespace run (which may cross line breaks) followed by `--` deletes
through that line's end; the terminating newline survives.  The `\s*`
backtracking is deterministic: `-` is not whitespace, so only the maximal
run can precede `--`. -/
def rlcAux : Nat → Str → Str
  | 0, s => s
  | fuel + 1, s =>
    if (strOf "--").isPrefixOf (cspan isPyWs s).2 then
      match pyFind (cspan isPyWs s).2 (strOf "\n") with
      | some k =>
        match (cspan isPyWs s).2.drop k with
        | [] => []
        | nl :: rest => nl :: rlcAux fuel rest
      | none => []
    else
      match pyFind s (strOf "\n") with
      | some k => s.take (k + 1) ++ rlcAux fuel (s.drop (k + 1))
      | none => s

/-- Line-comment removal. -/
def removeLineComments (s : Str) : Str := rlcAux (s.length + 1) s

/-- Does `\bselect\b` (case-insensitive) match at this position, given the
preceding character? -/
def wordSelectAt (prev : Option Char) (s : Str) : Bool :=
  (match prev with | some c => !isWordChar c | none => true) &&
  (pyLower (s.take 6) == strOf "select") &&
  (match (s.drop 6).head? with | some c => !isWordChar c | none => true)

/-- Leftmost `\bselect\b` (fuel = positions left to scan). -/
def findWordSelectAux : Nat → Option Char → Nat → Str → Option Nat
  | 0, _, _, _ => none
  | fuel + 1, prev, i, s =>
    if wordSelectAt prev s then some i
    else
      match s with
      | [] => none
      | c :: rest => findWordSelectAux fuel (some c) (i + 1) rest

/-- `re.search(r"\bselect\b", txt, flags=re.IGNORECASE)`, as a position. -/
def findWordSelect (s : Str) : Option Nat := findWordSelectAux (s.length + 1) none 0 s

/-- `re.match(r"^\s*select\b", s, flags=re.IGNORECASE)` as a Bool. -/
def matchesStartSelect (s : Str) : Bool :=
  let r := (cspan isPyWs s).2
  (pyLower (r.take 6) == strOf "select") &&
  (match (r.drop 6).head? with | some c => !isWordChar c | none => true)

/-- Lines 253-257 of `_extract_first_select`: from the keyword position,
cut at the first semicolon if any, and strip. -/
def firstSelectAt (txt2 : Str) (i : Nat) : Str :=
  match pyFind (txt2.drop i) (strOf ";") with
  | some sc => pyStrip ((txt2.drop i).take (sc + 1))
  | none => pyStrip (txt2.drop i)

/-- `_extract_first_select(sql_text)`. -/
def extractFirstSelect (sql_text : Str) : Str :=
  if sql_text = [] then []
  else
    match findWordSelect (removeLineComments (removeBlockComments (pyStrip sql_text))) with
    | none => []
    | some i => firstSelectAt (removeLineComments (removeBlockComments (pyStrip sql_text))) i

/-- Lines 258-259 of `improve_query`: blank a nonempty candidate that does
not match `^\s*select\b` case-insensitively. -/
def selectGate (q : Str) : Str :=
  if q ≠ [] ∧ matchesStartSelect q = false then [] else q

/-- Lines 247-259 of `improve_query`: run `_extract_first_select` on the
extracted code block, fall back to the block itself if that is empty, and
gate the result on the SELECT keyword. -/
def sanitizeCandidate (improved0 : Str) : Str :=
  selectGate
    (if extractFirstSelect improved0 = [] then improved0 else extractFirstSelect improved0)

/-- Lines 216-225 of `improve_query`: the rationale text between the
`-- rationale:` marker and the code fence. -/
def rationaleOf (raw : Str) : Str :=
  match pyFind raw (strOf "-- rationale:") with
  | some i =>
    match pyFindFrom raw (strOf "```") (i + 13) with
    | some rend => pyStrip (pySlice raw (i + 13) rend)
    | none => []
  | none => []

/-- The code block starts after the newline that ends the opening fence
line (position 0 when the fence line never ends). -/
def codeBlockStart (raw : Str) (code_start0 : Nat) : Nat :=
  match pyFindFrom raw (strOf "\n") code_start0 with
  | some k => k + 1
  | none => 0

/-- Lines 227-245 of `improve_query`: the text between the opening
(preferring ` ```sql `) and closing fences, stripped. -/
def codeBlockOf (raw : Str) : Str :=
  match (match pyFind raw (strOf "```sql") with
         | some cs => some cs
         | none => pyFind raw (strOf "```")) with
  | some cs0 =>
    match pyFindFrom raw (strOf "```") (codeBlockStart raw cs0) with
    | some code_end => pyStrip (pySlice raw (codeBlockStart raw cs0) code_end)
    | none => []
  | none => []

/-- Lines 214-259 of `improve_query`: extract the rationale and the fenced
code block from the raw reply, sanitize to the first SELECT statement, and
blank the result unless it starts with the SELECT keyword.  Returns
(improved_query, rationale). -/
def improveParse (raw : Str) : Str × Str :=
  (sanitizeCandidate (codeBlockOf raw), rationaleOf raw)

/-- `"\n\n".join`. -/
def joinNlNl : List Str → Str
  | [] => []
  | [x] => x
  | x :: rest => x ++ strOf "\n\n" ++ joinNlNl rest

/-- The recursive-improvement instruction block (lines 174-191). -/
def recursiveInstruction : Str :=
  strOf "Given the provided <database_info>, <diagnosis> context, and improvement history, propose an even better SQL query that builds upon previous optimizations.\n\nRECURSIVE IMPROVEMENT GUIDELINES:\n- Consider all previous iterations and their performance characteristics\n- Look for additional optimization opportunities not addressed in previous iterations\n- Consider advanced techniques like query restructuring, subquery optimization, or alternative algorithms\n- Ensure the query remains semantically equivalent while improving performance\n- Focus on bottlenecks identified in the diagnosis that may not have been fully addressed\n\nRespond in this exact format only:\n\n<improved>\n-- rationale: detailed explanation of the recursive improvements and why they should be more effective\n```sql\n<your recursively improved SQL here>\n```\n</improved>"

/-- The initial-improvement instruction block (lines 193-208). -/
def initialInstruction : Str :=
  strOf "Given the provided <database_info> and optional <diagnosis> context, propose an improved SQL query that is semantically equivalent but more efficient based on the provided schema, stats, plans, logs, and recommendations.\n\nRESPONSE RULES (STRICT):\n- Return EXACTLY one improved SELECT statement only.\n- Do NOT include DDL (CREATE INDEX, etc.), comments, explanations, or multiple statements.\n- Keep the statement self-contained and runnable.\n\nRespond in this exact format only:\n\n<improved>\n-- rationale: one or two sentences explaining the key changes\n```sql\n<your improved SELECT here>\n```\n</improved>"

/-- The `improve_query` result dict. -/
structure ImprovedDict where
  improved_query : Str
  rationale : Str
  raw_response : Str
deriving DecidableEq

/-- `improve_query(db_data, prior_diagnosis_xml, prior_diagnosis,
improvement_context)` over a transport oracle. -/
def improve_query (send : Str → Except Str Str) (db_data : PyDict)
    (prior_diagnosis_xml : Option Str) (prior_diagnosis : Option DiagDict)
    (improvement_context : Option Str) : ImprovedDict :=
  let xml_input := create_input_xml db_data
  let priorPart : List Str :=
    if (match prior_diagnosis_xml with
        | some px => !(px == []) && hasSub px (strOf "<diagnosis>")
        | none => false) = true then
      [strOf "\n<!-- prior_diagnosis -->\n" ++ pyStrip (prior_diagnosis_xml.getD [])]
    else
      match prior_diagnosis with
      | some pd => [buildPriorDiagnosisXml pd]
      | none => []
  let history_block : Option Str :=
    match improvement_context with
    | some ic => if ic = [] then pyDictGetOpt db_data (strOf "improvement_history") else some ic
    | none => pyDictGetOpt db_data (strOf "improvement_history")
  let historyPart : List Str :=
    match history_block with
    | some hb =>
      if hb = [] then [] else [strOf "\n<!-- improvement_history -->\n" ++ hb]
    | none => []
  let recursiveMode :=
    match pyDictGetOpt db_data (strOf "improvement_history") with
    | some v => !(v == [])
    | none => false
  let instruction := if recursiveMode = true then recursiveInstruction else initialInstruction
  let content := joinNlNl (([xml_input] ++ priorPart ++ historyPart) ++ [instruction])
  match send content with
  | .ok raw =>
    let pr := improveParse raw
    { improved_query := pr.1, rationale := pr.2, raw_response := raw }
  | .error e =>
    { improved_query := [], rationale := strOf "error: " ++ e, raw_response := [] }

/-! ## Iteration tracker and comparison handlers (`streamlit_app.py`)

Session state is the explicit `SessionState` record; the collector and the
LLM transport are oracles; `datetime.now().isoformat()` is the oracle
string `now`.  UI rendering calls (`st.metric`, `st.warning`, charts) touch
no tracked state and are omitted. -/

/-- `str(n)` for naturals. -/
def natStr (n : Nat) : Str := strOf (toString n)

/-- One record of `st.session_state.improvement_history`
(`add_iteration_to_history`): execution times are Python floats, modelled
as rationals; `kind` is the Python key `type`. -/
structure IterationRecord where
  iteration : Nat
  query : Str
  execution_time_ms : Option Rat
  diagnosis : DiagDict
  timestamp : Str
  kind : Str
deriving DecidableEq

/-- One labelled entry of `_get_improvement_versions`. -/
structure VersionRec where
  label : Str
  iteration : Nat
  kind : Str
  execution_time_ms : Option Rat
  query : Str
  diagnosis : DiagDict
deriving DecidableEq

/-- One entry of the `improved_versions` cache (no label field). -/
structure CachedVersion where
  iteration : Nat
  kind : Str
  execution_time_ms : Option Rat
  query : Str
  diagnosis : DiagDict
deriving DecidableEq

/-- The session state touched by the tracked handlers. -/
structure SessionState where
  improvement_history : List IterationRecord
  current_iteration : Nat
  improved_versions : List CachedVersion
  base_query_data : Option PyDict
  improved_sql : Option ImprovedDict
  sqlite_db_path : Option Str
deriving DecidableEq

/-- `add_iteration_to_history(query, execution_time_ms, diagnosis,
iteration_type)`: append the record, mirror it into the cache, bump the
iteration counter. -/
def add_iteration_to_history (query : Str) (execution_time_ms : Option Rat)
    (diagnosis : DiagDict) (iteration_type : Str) (now : Str) (st : SessionState) :
    SessionState :=
  let record : IterationRecord :=
    { iteration := st.current_iteration, query := query,
      execution_time_ms := execution_time_ms, diagnosis := diagnosis,
      timestamp := now, kind := iteration_type }
  { st with
    improvement_history := st.improvement_history ++ [record],
    improved_versions := st.improved_versions ++
      [{ iteration := record.iteration, kind := iteration_type,
         execution_time_ms := execution_time_ms, query := query, diagnosis := diagnosis }],
    current_iteration := st.current_iteration + 1 }

/-- `_get_improvement_versions` labelling fold (`improved_counter`). -/
def getVersionsAux : Nat → List IterationRecord → List VersionRec
  | _, [] => []
  | counter, it :: rest =>
    if it.kind == strOf "original" then
      { label := strOf "Original", iteration := it.iteration, kind := it.kind,
        execution_time_ms := it.execution_time_ms, query := it.query,
        diagnosis := it.diagnosis } :: getVersionsAux counter rest
    else
      let counter2 := counter + 1
      let label :=
        if it.kind == strOf "recursive" then
          strOf "Improved " ++ natStr counter2 ++ strOf " (Recursive)"
        else strOf "Improved " ++ natStr counter2
      { label := label, iteration := it.iteration, kind := it.kind,
        execution_time_ms := it.execution_time_ms, query := it.query,
        diagnosis := it.diagnosis } :: getVersionsAux counter2 rest

/-- `_get_improvement_versions()`. -/
def getImprovementVersions (history : List IterationRecord) : List VersionRec :=
  getVersionsAux 0 history

/-- The key `lambda v: v["execution_time_ms"]` on the filtered (all-`some`)
list. -/
def versionKey (v : VersionRec) : Rat := v.execution_time_ms.getD 0

/-- Python `min` fold: replace the best only on a strictly smaller key, so
the first minimum wins. -/
def minFold (best : VersionRec) : List VersionRec → VersionRec
  | [] => best
  | y :: rest => minFold (if versionKey y < versionKey best then y else best) rest

/-- The best-version selection of the sidebar (`streamlit_app.py` lines
1323-1331): filter to non-null timings, take `min` by execution time. -/
def bestVersionSelection (history : List IterationRecord) : Option VersionRec :=
  match (getImprovementVersions history).filter (fun v => v.execution_time_ms.isSome) with
  | [] => none
  | x :: rest => some (minFold x rest)

/-! ### `_extract_elapsed_ms_from_logs` (`streamlit_app.py`, lines 685-700) -/

/-- The `[0-9.]` class. -/
def isDigitDot (c : Char) : Bool := ('0' ≤ c && c ≤ '9') || c = '.'

/-- Case-insensitive literal at the head, returning the rest. -/
def matchLitCI (lit s : Str) : Option Str :=
  if pyLower (s.take lit.length) == lit then some (s.drop lit.length) else none

/-- `Execution elapsed:\s*([0-9.]+)\s*ms` at one position (the greedy
quantifiers are deterministic here: digits cannot continue into `\s*ms`). -/
def p1At (s : Str) : Option Str :=
  (matchLitCI (strOf "execution elapsed:") s).bind fun r1 =>
    let r2 := (cspan isPyWs r1).2
    let cap := cspan isDigitDot r2
    if cap.1 = [] then none
    else
      let r3 := (cspan isPyWs cap.2).2
      (matchLitCI (strOf "ms") r3).map fun _ => cap.1

/-- `elapsed:?\s*([0-9.]+)\s*ms` at one position. -/
def p2At (s : Str) : Option Str :=
  (matchLitCI (strOf "elapsed") s).bind fun r1 =>
    let r1b := match r1 with
      | ':' :: rest => rest
      | _ => r1
    let r2 := (cspan isPyWs r1b).2
    let cap := cspan isDigitDot r2
    if cap.1 = [] then none
    else
      let r3 := (cspan isPyWs cap.2).2
      (matchLitCI (strOf "ms") r3).map fun _ => cap.1

/-- `([0-9.]+)\s*ms\s*elapsed` at one position. -/
def p3At (s : Str) : Option Str :=
  let cap := cspan isDigitDot s
  if cap.1 = [] then none
  else
    let r1 := (cspan isPyWs cap.2).2
    (matchLitCI (strOf "ms") r1).bind fun r2 =>
      let r3 := (cspan isPyWs r2).2
      (matchLitCI (strOf "elapsed") r3).map fun _ => cap.1

/-- `re.search` driver: leftmost position where the matcher succeeds. -/
def searchAtAux (f : Str → Option Str) : Nat → Str → Option Str
  | 0, _ => none
  | fuel + 1, s =>
    match f s with
    | some cap => some cap
    | none =>
      match s with
      | [] => none
      | _ :: rest => searchAtAux f fuel rest

/-- `re.search(pattern, text)` for one of the three patterns. -/
def reSearch (f : Str → Option Str) (s : Str) : Option Str :=
  searchAtAux f (s.length + 1) s

/-- Numeric value of a digit run. -/
def digitsVal (s : Str) : Nat := s.foldl (fun acc c => acc * 10 + (c.toNat - 48)) 0

/-- `float(cap)` for a `[0-9.]+` capture: at most one dot and at least one
digit, else a `ValueError` (→ `none`, which the wrapping `try` turns into a
`None` result). -/
def pyFloat (s : Str) : Option Rat :=
  match s.splitOn '.' with
  | [a] => if a = [] then none else some (digitsVal a)
  | [a, b] =>
    if a = [] ∧ b = [] then none
    else some ((digitsVal a : Rat) + (digitsVal b : Rat) / ((10 : Rat) ^ b.length))
  | _ => none

/-- `_extract_elapsed_ms_from_logs(log_text)`: first pattern that matches
anywhere wins; a float conversion error yields `None` (the whole body is in
a `try`). -/
def extractElapsedMs (log_text : Str) : Option Rat :=
  match reSearch p1At log_text with
  | some cap => pyFloat cap
  | none =>
    match reSearch p2At log_text with
    | some cap => pyFloat cap
    | none =>
      match reSearch p3At log_text with
      | some cap => pyFloat cap
      | none => none

/-- `improved_query.strip().lower().startswith("select")`. -/
def startsWithSelect (q : Str) : Bool := (strOf "select").isPrefixOf (pyLower (pyStrip q))

/-- The fallback execution dict used when the candidate is not run
(`{"logs": "", "result_preview": ""}`). -/
def skippedExec : PyDict := [(strOf "logs", []), (strOf "result_preview", [])]

/-- The candidate-execution step of `handle_query_comparison`
(`streamlit_app.py`, lines 999-1079): run the collector only for a valid
SELECT, else use the skipped-execution dict. -/
def comparisonExec (collect : Str → Bool → PyDict) (improved : ImprovedDict) : PyDict :=
  if improved.improved_query = [] ∨ startsWithSelect improved.improved_query = false
  then skippedExec
  else collect improved.improved_query false

/-- `handle_query_comparison()`: run the original query, run the candidate
only if it is a valid SELECT, extract its elapsed time, and append to
history only when a timing was obtained (the original's execution,
`collect original_query False`, is an oracle call with no state effect and
is elided). -/
def handle_query_comparison (send : Str → Except Str Str) (collect : Str → Bool → PyDict)
    (now : Str) (st : SessionState) : SessionState :=
  match st.sqlite_db_path, st.improved_sql, st.base_query_data with
  | some db_path, some improved, some base_data =>
    if db_path = [] ∨ base_data = [] then st
    else
      match extractElapsedMs (pyDictGet (comparisonExec collect improved) (strOf "logs") []) with
      | some imp_ms =>
        add_iteration_to_history improved.improved_query (some imp_ms)
          (analyze_performance send (comparisonExec collect improved))
          (strOf "improved") now st
      | none => st
  | _, _, _ => st

/-- Python float repr for the stored (decimal) timing values, used only to
build the iteration-context prompt line. -/
def ratFracDigits : Nat → Rat → Str
  | 0, _ => []
  | fuel + 1, q =>
    if q = 0 then []
    else
      let q10 := q * 10
      let d := q10.floor
      Char.ofNat (48 + d.toNat) :: ratFracDigits fuel (q10 - d)

/-- `str(x)` for a timing value (or `None`). -/
def showTime : Option Rat → Str
  | none => strOf "None"
  | some q =>
    let i := q.floor
    let fracs := ratFracDigits 17 (q - i)
    strOf (toString i) ++ strOf "." ++ (if fracs = [] then strOf "0" else fracs)

/-- The per-iteration context line of `handle_recursive_improvement`. -/
def iterationContextLine (i : IterationRecord) : Str :=
  strOf "Iteration " ++ natStr i.iteration ++ strOf " (" ++ i.kind ++ strOf "): " ++
    showTime i.execution_time_ms ++ strOf "ms - " ++ i.query.take 100 ++ strOf "..."

/-- Python dict assignment `d[k] = v`. -/
def pyDictSet (d : PyDict) (k v : Str) : PyDict :=
  if pyDictContains d k then d.map (fun p => if p.1 == k then (p.1, v) else p)
  else d ++ [(k, v)]

/-- The enhanced bundle built by `handle_recursive_improvement`: the original
data with the latest query substituted and the iteration context attached. -/
def recursiveEnhancedData (base_data : PyDict) (latest : IterationRecord)
    (history : List IterationRecord) : PyDict :=
  pyDictSet (pyDictSet base_data (strOf "query") latest.query)
    (strOf "improvement_history") (joinNl (history.map iterationContextLine))

/-- The candidate produced inside `handle_recursive_improvement`. -/
def recursiveCandidate (send : Str → Except Str Str) (base_data : PyDict)
    (latest : IterationRecord) (history : List IterationRecord) : ImprovedDict :=
  improve_query send (recursiveEnhancedData base_data latest history)
    latest.diagnosis.raw_response (some latest.diagnosis) none

/-- The execute-and-record tail of `handle_recursive_improvement`, after the
candidate has been generated and stored in `improved_sql`. -/
def recursiveRun (send : Str → Except Str Str) (collect : Str → Bool → PyDict)
    (now : Str) (st : SessionState) (improved : ImprovedDict) : SessionState :=
  if improved.improved_query = [] ∨ startsWithSelect improved.improved_query = false
  then { st with improved_sql := some improved }
  else
    match st.sqlite_db_path with
    | some db_path =>
      if db_path = [] then { st with improved_sql := some improved }
      else
        match extractElapsedMs (pyDictGet (collect improved.improved_query false)
            (strOf "logs") []) with
        | some recursive_ms =>
          add_iteration_to_history improved.improved_query (some recursive_ms)
            (analyze_performance send (collect improved.improved_query false))
            (strOf "recursive") now { st with improved_sql := some improved }
        | none => { st with improved_sql := some improved }
    | none => { st with improved_sql := some improved }

/-- `handle_recursive_improvement()` (`streamlit_app.py`, lines 1082-1144). -/
def handle_recursive_improvement (send : Str → Except Str Str)
    (collect : Str → Bool → PyDict) (now : Str) (st : SessionState) : SessionState :=
  match st.improvement_history.getLast? with
  | none => st
  | some latest_iteration =>
    match st.base_query_data with
    | none => st
    | some base_data =>
      if base_data = [] then st
      else
        recursiveRun send collect now st
          (recursiveCandidate send base_data latest_iteration st.improvement_history)

/-- The version labelling preserves the record iterations in order. -/
theorem getVersionsAux_iters (h : List IterationRecord) :
    ∀ cnt, (getVersionsAux cnt h).map VersionRec.iteration = h.map IterationRecord.iteration := by
  induction h with
  | nil => intro cnt; rfl
  | cons it rest ih =>
      intro cnt
      by_cases hk : (it.kind == strOf "original") = true <;>
        simp [getVersionsAux, hk, ih]

/-- Python `min` keeps the first element attaining the minimum key; on an
iteration-sorted list the result is therefore iteration-minimal among key
ties, key-minimal overall, and strictly below any element it replaced. -/
theorem minFold_spec (l : List VersionRec) : ∀ best : VersionRec,
    (best :: l).Pairwise (fun a b => a.iteration < b.iteration) →
    minFold best l ∈ best :: l ∧
    (∀ v ∈ best :: l, versionKey (minFold best l) ≤ versionKey v) ∧
    (∀ v ∈ best :: l, versionKey v = versionKey (minFold best l) →
      (minFold best l).iteration ≤ v.iteration) ∧
    (minFold best l = best ∨ versionKey (minFold best l) < versionKey best) := by
  induction l with
  | nil =>
      intro best _
      refine ⟨by simp [minFold], ?_, ?_, Or.inl rfl⟩
      · intro v hv
        simp at hv
        simp [hv, minFold]
      · intro v hv _
        simp at hv
        simp [hv, minFold]
  | cons y rest ih =>
      intro best hpw
      have hby : best.iteration < y.iteration := by
        have := List.pairwise_cons.1 hpw
        exact this.1 y (by simp)
      have hpw2 : (y :: rest).Pairwise (fun a b => a.iteration < b.iteration) :=
        (List.pairwise_cons.1 hpw).2
      have hbest' : ∀ b2 : VersionRec, b2 = best ∨ b2 = y →
          (b2 :: rest).Pairwise (fun a b => a.iteration < b.iteration) := by
        intro b2 hb2
        refine List.pairwise_cons.2 ⟨?_, (List.pairwise_cons.1 hpw2).2⟩
        intro v hv
        rcases hb2 with h | h
        · rw [h]
          exact lt_trans hby ((List.pairwise_cons.1 hpw2).1 v hv)
        · rw [h]
          exact (List.pairwise_cons.1 hpw2).1 v hv
      by_cases hlt : versionKey y < versionKey best
      · have heq : minFold best (y :: rest) = minFold y rest := by
          simp [minFold, hlt]
        obtain ⟨ihmem, ihle, ihtie, ihrep⟩ := ih y (hbest' y (Or.inr rfl))
        rw [heq]
        refine ⟨?_, ?_, ?_, ?_⟩
        · rcases List.mem_cons.1 ihmem with h | h
          · exact List.mem_cons.2 (Or.inr (by simp [h]))
          · exact List.mem_cons.2 (Or.inr (by simp [List.mem_cons.2 (Or.inr h)]))
        · intro v hv
          rcases List.mem_cons.1 hv with h | h
          · rw [h]
            have h1 : versionKey (minFold y rest) ≤ versionKey y := ihle y (by simp)
            exact le_of_lt (lt_of_le_of_lt h1 hlt)
          · exact ihle v h
        · intro v hv htv
          rcases List.mem_cons.1 hv with h | h
          · exfalso
            have h1 : versionKey (minFold y rest) ≤ versionKey y := ihle y (by simp)
            rw [h] at htv
            have : versionKey best < versionKey best :=
              lt_of_le_of_lt (htv ▸ h1) hlt
            exact lt_irrefl _ this
          · exact ihtie v h htv
        · right
          rcases ihrep with h | h
          · rw [h]; exact hlt
          · exact lt_trans h hlt
      · have heq : minFold best (y :: rest) = minFold best rest := by
          simp [minFold, hlt]
        obtain ⟨ihmem, ihle, ihtie, ihrep⟩ := ih best (hbest' best (Or.inl rfl))
        rw [heq]
        have hkey : versionKey best ≤ versionKey y := le_of_not_lt hlt
        refine ⟨?_, ?_, ?_, ihrep⟩
        · rcases List.mem_cons.1 ihmem with h | h
          · exact List.mem_cons.2 (Or.inl h)
          · exact List.mem_cons.2 (Or.inr (by simp [List.mem_cons.2 (Or.inr h)]))
        · intro v hv
          rcases List.mem_cons.1 hv with h | h
          · rw [h]
            exact ihle best (by simp)
          · rcases List.mem_cons.1 h with h2 | h2
            · rw [h2]
              exact le_trans (ihle best (by simp)) hkey
            · exact ihle v (by simp [h2])
        · intro v hv htv
          rcases List.mem_cons.1 hv with h | h
          · exact ihtie v (h ▸ List.mem_cons.2 (Or.inl rfl)) (h ▸ htv)
          · rcases List.mem_cons.1 h with h2 | h2
            · -- v = y ties the result
              rcases ihrep with hr | hr
              · rw [hr, h2]
                exact le_of_lt hby
              · exfalso
                rw [h2] at htv
                have : versionKey best < versionKey best :=
                  lt_of_le_of_lt (le_trans hkey (le_of_eq htv)) hr
                exact lt_irrefl _ this
            · exact ihtie v (by simp [h2]) htv

/-- Claim C6: for every improvement history (whose iteration numbers are
strictly increasing, as `add_iteration_to_history` maintains), the
best-version selection returns a record with non-null `execution_time_ms`
that is minimal among the non-null records, and on ties the record with the
earliest iteration number; it returns a record whenever any non-null timing
exists. -/
theorem C6_best_version (history : List IterationRecord)
    (hinc : (history.map IterationRecord.iteration).Pairwise (· < ·)) :
    ((∃ v ∈ getImprovementVersions history, v.execution_time_ms.isSome = true) →
      ∃ r, bestVersionSelection history = some r) ∧
    (∀ r, bestVersionSelection history = some r →
      r.execution_time_ms.isSome = true ∧
      (∀ v ∈ getImprovementVersions history, ∀ t, v.execution_time_ms = some t →
        ∃ tr, r.execution_time_ms = some tr ∧ tr ≤ t) ∧
      (∀ v ∈ getImprovementVersions history,
        v.execution_time_ms = r.execution_time_ms → r.iteration ≤ v.iteration)) := by
  have hvers : ((getImprovementVersions history).map VersionRec.iteration).Pairwise (· < ·) := by
    rw [getImprovementVersions, getVersionsAux_iters history 0]
    exact hinc
  have hpwv : (getImprovementVersions history).Pairwise
      (fun a b => a.iteration < b.iteration) := (List.pairwise_map).1 hvers
  have hpwf : ((getImprovementVersions history).filter
      (fun v => v.execution_time_ms.isSome)).Pairwise
      (fun a b => a.iteration < b.iteration) :=
    hpwv.sublist (List.filter_sublist _)
  constructor
  · intro ⟨v, hv, hvs⟩
    have hvf : v ∈ (getImprovementVersions history).filter
        (fun v => v.execution_time_ms.isSome) := List.mem_filter.2 ⟨hv, hvs⟩
    unfold bestVersionSelection
    rcases hf : (getImprovementVersions history).filter
        (fun v => v.execution_time_ms.isSome) with _ | ⟨x, rest⟩
    · rw [hf] at hvf
      simp at hvf
    · rw [hf]
      exact ⟨minFold x rest, rfl⟩
  · intro r hr
    unfold bestVersionSelection at hr
    rcases hf : (getImprovementVersions history).filter
        (fun v => v.execution_time_ms.isSome) with _ | ⟨x, rest⟩ <;> rw [hf] at hr
    · simp at hr
    · have hrm : r = minFold x rest := by
        simpa using hr.symm
      rw [hf] at hpwf
      obtain ⟨hmem, hle, htie, _⟩ := minFold_spec rest x hpwf
      rw [← hrm] at hmem hle htie
      have hrf : r ∈ (getImprovementVersions history).filter
          (fun v => v.execution_time_ms.isSome) := by
        rw [hf]
        exact hmem
      have hrs : r.execution_time_ms.isSome = true := by
        have := List.mem_filter.1 hrf
        simpa using this.2
      obtain ⟨tr, htr⟩ := Option.isSome_iff_exists.1 hrs
      refine ⟨hrs, ?_, ?_⟩
      · intro v hv t htv
        have hvf : v ∈ (getImprovementVersions history).filter
            (fun v => v.execution_time_ms.isSome) :=
          List.mem_filter.2 ⟨hv, by simp [htv]⟩
        rw [hf] at hvf
        have := hle v hvf
        refine ⟨tr, htr, ?_⟩
        have h1 : versionKey r = tr := by simp [versionKey, htr]
        have h2 : versionKey v = t := by simp [versionKey, htv]
        rw [h1, h2] at this
        exact this
      · intro v hv htv
        have hvf : v ∈ (getImprovementVersions history).filter
            (fun v => v.execution_time_ms.isSome) :=
          List.mem_filter.2 ⟨hv, by simp [htv, hrs]⟩
        rw [hf] at hvf
        exact htie v hvf (by simp [versionKey, htv])

/-- An empty diagnosis dictionary for concrete examples. -/
def emptyDiag : DiagDict :=
  { reasoning := [], bottlenecks := none, root_causes := none,
    recommendations := none, comments := none, parse_error := none,
    error := none, raw_input := none, raw_response := none }

/-- A concrete two-round history mirroring the spec's tracker example: an
original record (2847 ms) then an improved record (312 ms). -/
def exampleHistory : List IterationRecord :=
  [{ iteration := 0, query := strOf "SELECT * FROM orders",
     execution_time_ms := some (2847 : Rat), diagnosis := emptyDiag,
     timestamp := strOf "t0", kind := strOf "original" },
   { iteration := 1, query := strOf "SELECT id FROM orders",
     execution_time_ms := some (312 : Rat), diagnosis := emptyDiag,
     timestamp := strOf "t1", kind := strOf "improved" }]

/-- Witness for C6 on the example history: the selection is defined and
yields a record with a non-null timing. -/
theorem C6_witness :
    ∃ r, bestVersionSelection exampleHistory = some r ∧
      r.execution_time_ms.isSome = true ∧ r.iteration = 1 := by
  obtain ⟨r, hr⟩ := (C6_best_version exampleHistory (by decide)).1
    ⟨{ label := strOf "Original", iteration := 0, kind := strOf "original",
       execution_time_ms := some (2847 : Rat), query := strOf "SELECT * FROM orders",
       diagnosis := emptyDiag }, by decide, by decide⟩
  refine ⟨r, hr, ((C6_best_version exampleHistory (by decide)).2 r hr).1, ?_⟩
  have heval : bestVersionSelection exampleHistory =
      some { label := strOf "Improved 1", iteration := 1, kind := strOf "improved",
             execution_time_ms := some (312 : Rat),
             query := strOf "SELECT id FROM orders", diagnosis := emptyDiag } := by
    decide
  have := Option.some.inj (heval.symm.trans hr)
  rw [← this]

/-- Reduction of the comparison handler when all three session inputs are
present. -/
theorem handle_query_comparison_some (send : Str → Except Str Str)
    (collect : Str → Bool → PyDict) (now : Str) (st : SessionState)
    (db : Str) (improved : ImprovedDict) (base : PyDict)
    (hdb : st.sqlite_db_path = some db) (himp : st.improved_sql = some improved)
    (hbase : st.base_query_data = some base) :
    handle_query_comparison send collect now st =
      if db = [] ∨ base = [] then st
      else
        match extractElapsedMs (pyDictGet (comparisonExec collect improved) (strOf "logs") []) with
        | some imp_ms =>
          add_iteration_to_history improved.improved_query (some imp_ms)
            (analyze_performance send (comparisonExec collect improved))
            (strOf "improved") now st
        | none => st := by
  unfold handle_query_comparison
  rw [hdb, himp, hbase]

/-- The comparison handler is the identity when a session input is missing. -/
theorem handle_query_comparison_default (send : Str → Except Str Str)
    (collect : Str → Bool → PyDict) (now : Str) (st : SessionState)
    (h : st.sqlite_db_path = none ∨ st.improved_sql = none ∨ st.base_query_data = none) :
    handle_query_comparison send collect now st = st := by
  unfold handle_query_comparison
  rcases h with h | h | h
  · rw [h]
  · rcases hdb : st.sqlite_db_path with _ | db
    · rfl
    · rw [h]
  · rcases hdb : st.sqlite_db_path with _ | db
    · rfl
    · rcases himp : st.improved_sql with _ | i
      · rfl
      · rw [h]

/-- Reduction of the recursive handler when the history and base data are
present. -/
theorem handle_recursive_improvement_some (send : Str → Except Str Str)
    (collect : Str → Bool → PyDict) (now : Str) (st : SessionState)
    (latest : IterationRecord) (base : PyDict)
    (hlast : st.improvement_history.getLast? = some latest)
    (hbase : st.base_query_data = some base) :
    handle_recursive_improvement send collect now st =
      if base = [] then st
      else recursiveRun send collect now st
        (recursiveCandidate send base latest st.improvement_history) := by
  unfold handle_recursive_improvement
  rw [hlast, hbase]

/-- Claim C7: an execute-and-compare round (the comparison handler and the
recursive-improvement handler) appends to the improvement history only a
record whose timing was actually extracted from the executed candidate's
collector logs; when the candidate is not a valid SELECT or no timing can be
extracted, the history is left unchanged (same length, same records). -/
theorem C7_history_append_only_timed
    (send : Str → Except Str Str) (collect : Str → Bool → PyDict) (now : Str)
    (st : SessionState) :
    ((handle_query_comparison send collect now st).improvement_history
        = st.improvement_history ∨
      ∃ r1, (handle_query_comparison send collect now st).improvement_history
          = st.improvement_history ++ [r1] ∧
        r1.execution_time_ms.isSome = true ∧
        extractElapsedMs (pyDictGet (collect r1.query false) (strOf "logs") [])
          = r1.execution_time_ms) ∧
    (∀ improved, st.improved_sql = some improved →
      (improved.improved_query = [] ∨ startsWithSelect improved.improved_query = false) →
      (handle_query_comparison send collect now st).improvement_history
        = st.improvement_history) ∧
    (∀ improved, st.improved_sql = some improved →
      extractElapsedMs (pyDictGet (collect improved.improved_query false)
        (strOf "logs") []) = none →
      (handle_query_comparison send collect now st).improvement_history
        = st.improvement_history) ∧
    ((handle_recursive_improvement send collect now st).improvement_history
        = st.improvement_history ∨
      ∃ r2, (handle_recursive_improvement send collect now st).improvement_history
          = st.improvement_history ++ [r2] ∧
        r2.execution_time_ms.isSome = true ∧
        extractElapsedMs (pyDictGet (collect r2.query false) (strOf "logs") [])
          = r2.execution_time_ms) ∧
    (∀ latest base_data, st.improvement_history.getLast? = some latest →
      st.base_query_data = some base_data →
      ((recursiveCandidate send base_data latest st.improvement_history).improved_query = [] ∨
        startsWithSelect
          (recursiveCandidate send base_data latest st.improvement_history).improved_query
          = false) →
      (handle_recursive_improvement send collect now st).improvement_history
        = st.improvement_history) ∧
    (∀ latest base_data, st.improvement_history.getLast? = some latest →
      st.base_query_data = some base_data →
      extractElapsedMs (pyDictGet
        (collect (recursiveCandidate send base_data latest st.improvement_history).improved_query
          false) (strOf "logs") []) = none →
      (handle_recursive_improvement send collect now st).improvement_history
        = st.improvement_history) := by
  have hskip : extractElapsedMs (pyDictGet skippedExec (strOf "logs") []) = none := by decide
  refine ⟨?_, ?_, ?_, ?_, ?_, ?_⟩
  · -- comparison handler: unchanged or appended-with-extracted-timing
    rcases hdb : st.sqlite_db_path with _ | db
    · exact Or.inl (by rw [handle_query_comparison_default send collect now st (Or.inl hdb)])
    rcases himp : st.improved_sql with _ | improved
    · exact Or.inl (by
        rw [handle_query_comparison_default send collect now st (Or.inr (Or.inl himp))])
    rcases hbase : st.base_query_data with _ | base
    · exact Or.inl (by
        rw [handle_query_comparison_default send collect now st (Or.inr (Or.inr hbase))])
    rw [handle_query_comparison_some send collect now st db improved base hdb himp hbase]
    by_cases hfals : db = [] ∨ base = []
    · rw [if_pos hfals]
      exact Or.inl rfl
    rw [if_neg hfals]
    rcases hext : extractElapsedMs (pyDictGet (comparisonExec collect improved)
        (strOf "logs") []) with _ | t
    · exact Or.inl rfl
    · by_cases hval : improved.improved_query = [] ∨
          startsWithSelect improved.improved_query = false
      · exfalso
        have hce : comparisonExec collect improved = skippedExec := by
          unfold comparisonExec
          rw [if_pos hval]
        rw [hce, hskip] at hext
        cases hext
      · have hce : comparisonExec collect improved = collect improved.improved_query false := by
          unfold comparisonExec
          rw [if_neg hval]
        rw [hce] at hext
        exact Or.inr ⟨_, rfl, rfl, hext⟩
  · -- comparison handler: invalid candidate leaves history unchanged
    intro improved himp hbad
    rcases hdb : st.sqlite_db_path with _ | db
    · rw [handle_query_comparison_default send collect now st (Or.inl hdb)]
    rcases hbase : st.base_query_data with _ | base
    · rw [handle_query_comparison_default send collect now st (Or.inr (Or.inr hbase))]
    rw [handle_query_comparison_some send collect now st db improved base hdb himp hbase]
    by_cases hfals : db = [] ∨ base = []
    · rw [if_pos hfals]
    · rw [if_neg hfals]
      have hce : comparisonExec collect improved = skippedExec := by
        unfold comparisonExec
        rw [if_pos hbad]
      rw [hce, hskip]
  · -- comparison handler: no extractable timing leaves history unchanged
    intro improved himp hnone
    rcases hdb : st.sqlite_db_path with _ | db
    · rw [handle_query_comparison_default send collect now st (Or.inl hdb)]
    rcases hbase : st.base_query_data with _ | base
    · rw [handle_query_comparison_default send collect now st (Or.inr (Or.inr hbase))]
    rw [handle_query_comparison_some send collect now st db improved base hdb himp hbase]
    by_cases hfals : db = [] ∨ base = []
    · rw [if_pos hfals]
    rw [if_neg hfals]
    by_cases hval : improved.improved_query = [] ∨
        startsWithSelect improved.improved_query = false
    · have hce : comparisonExec collect improved = skippedExec := by
        unfold comparisonExec
        rw [if_pos hval]
      rw [hce, hskip]
    · have hce : comparisonExec collect improved = collect improved.improved_query false := by
        unfold comparisonExec
        rw [if_neg hval]
      rw [hce, hnone]
  · -- recursive handler: unchanged or appended-with-extracted-timing
    rcases hlast : st.improvement_history.getLast? with _ | latest
    · refine Or.inl ?_
      unfold handle_recursive_improvement
      rw [hlast]
    rcases hbase : st.base_query_data with _ | base
    · refine Or.inl ?_
      unfold handle_recursive_improvement
      rw [hlast, hbase]
    rw [handle_recursive_improvement_some send collect now st latest base hlast hbase]
    by_cases hb : base = []
    · rw [if_pos hb]
      exact Or.inl rfl
    rw [if_neg hb]
    unfold recursiveRun
    by_cases hval : (recursiveCandidate send base latest st.improvement_history).improved_query
        = [] ∨ startsWithSelect
          (recursiveCandidate send base latest st.improvement_history).improved_query = false
    · rw [if_pos hval]
      exact Or.inl rfl
    rw [if_neg hval]
    rcases hdbp : st.sqlite_db_path with _ | db
    · exact Or.inl rfl
    simp only []
    by_cases hdbe : db = []
    · rw [if_pos hdbe]
      exact Or.inl rfl
    rw [if_neg hdbe]
    rcases hext : extractElapsedMs (pyDictGet
        (collect (recursiveCandidate send base latest st.improvement_history).improved_query
          false) (strOf "logs") []) with _ | t
    · exact Or.inl rfl
    · exact Or.inr ⟨_, rfl, rfl, hext⟩
  · -- recursive handler: invalid candidate leaves history unchanged
    intro latest base hlast hbase hbad
    rw [handle_recursive_improvement_some send collect now st latest base hlast hbase]
    by_cases hb : base = []
    · rw [if_pos hb]
    rw [if_neg hb]
    unfold recursiveRun
    rw [if_pos hbad]
  · -- recursive handler: no extractable timing leaves history unchanged
    intro latest base hlast hbase hnone
    rw [handle_recursive_improvement_some send collect now st latest base hlast hbase]
    by_cases hb : base = []
    · rw [if_pos hb]
    rw [if_neg hb]
    unfold recursiveRun
    by_cases hval : (recursiveCandidate send base latest st.improvement_history).improved_query
        = [] ∨ startsWithSelect
          (recursiveCandidate send base latest st.improvement_history).improved_query = false
    · rw [if_pos hval]
    rw [if_neg hval]
    rcases hdbp : st.sqlite_db_path with _ | db
    · rfl
    simp only []
    by_cases hdbe : db = []
    · rw [if_pos hdbe]
    rw [if_neg hdbe, hnone]

/-- Witness for C7: a session whose candidate is a non-SELECT statement; the
comparison round leaves the single-record history unchanged. -/
theorem C7_witness :
    (handle_query_comparison (fun _ => .error (strOf "down")) (fun _ _ => []) (strOf "t2")
      { improvement_history := exampleHistory, current_iteration := 2,
        improved_versions := [], base_query_data := some [(strOf "query", strOf "SELECT 1")],
        improved_sql := some { improved_query := strOf "DROP TABLE orders",
                               rationale := [], raw_response := [] },
        sqlite_db_path := some (strOf "db.sqlite") }).improvement_history
      = exampleHistory := by
  have h := (C7_history_append_only_timed (fun _ => .error (strOf "down")) (fun _ _ => [])
    (strOf "t2")
    { improvement_history := exampleHistory, current_iteration := 2,
      improved_versions := [], base_query_data := some [(strOf "query", strOf "SELECT 1")],
      improved_sql := some { improved_query := strOf "DROP TABLE orders",
                             rationale := [], raw_response := [] },
      sqlite_db_path := some (strOf "db.sqlite") }).2.1
    { improved_query := strOf "DROP TABLE orders", rationale := [], raw_response := [] }
    rfl (Or.inr (by decide))
  exact h

/-! ### Substring-occurrence machinery for `pyFind` / `hasSub` -/

/-- A found occurrence is real. -/
theorem pyFind_sound : ∀ (s pat : Str) (i : Nat), pyFind s pat = some i →
    pat.isPrefixOf (s.drop i) = true := by
  have aux : ∀ (s : Str) (pat : Str) (base i : Nat), findSubAux pat s base = some i →
      pat.isPrefixOf (s.drop (i - base)) = true ∧ base ≤ i := by
    intro s
    induction s with
    | nil =>
        intro pat base i h
        rw [findSubAux] at h
        by_cases hp : pat.isPrefixOf [] = true
        · rw [if_pos hp] at h
          cases h
          exact ⟨by simpa using hp, le_refl _⟩
        · rw [if_neg hp] at h
          cases h
    | cons c rest ih =>
        intro pat base i h
        rw [findSubAux] at h
        by_cases hp : pat.isPrefixOf (c :: rest) = true
        · rw [if_pos hp] at h
          cases h
          exact ⟨by simpa using hp, le_refl _⟩
        · rw [if_neg hp] at h
          obtain ⟨h1, h2⟩ := ih pat (base + 1) i h
          refine ⟨?_, le_trans (Nat.le_succ base) h2⟩
          have : i - base = (i - (base + 1)) + 1 := by omega
          rw [this]
          simpa using h1
  intro s pat i h
  have := (aux s pat 0 i h).1
  simpa using this

/-- No occurrence strictly before the found one. -/
theorem pyFind_minimal : ∀ (s pat : Str) (i : Nat), pyFind s pat = some i →
    ∀ j < i, ¬ pat.isPrefixOf (s.drop j) = true := by
  have aux : ∀ (s : Str) (pat : Str) (base i : Nat), findSubAux pat s base = some i →
      ∀ j, base + j < i → ¬ pat.isPrefixOf (s.drop j) = true := by
    intro s
    induction s with
    | nil =>
        intro pat base i h j hj hp
        rw [findSubAux] at h
        by_cases hp0 : pat.isPrefixOf [] = true
        · rw [if_pos hp0] at h
          cases h
          omega
        · rw [if_neg hp0] at h
          cases h
    | cons c rest ih =>
        intro pat base i h j hj hp
        rw [findSubAux] at h
        by_cases hp0 : pat.isPrefixOf (c :: rest) = true
        · rw [if_pos hp0] at h
          cases h
          omega
        · rw [if_neg hp0] at h
          cases j with
          | zero => exact hp0 (by simpa using hp)
          | succ j2 =>
              exact ih pat (base + 1) i h j2 (by omega) (by simpa using hp)
  intro s pat i h j hj
  exact aux s pat 0 i h j (by simpa using hj)

/-- Any real occurrence makes the search succeed (at it or earlier). -/
theorem pyFind_complete : ∀ (s pat : Str) (j : Nat),
    pat.isPrefixOf (s.drop j) = true → hasSub s pat = true := by
  have aux : ∀ (s : Str) (pat : Str) (j base : Nat), pat.isPrefixOf (s.drop j) = true →
      (findSubAux pat s base).isSome = true := by
    intro s
    induction s with
    | nil =>
        intro pat j base h
        simp only [List.drop_nil] at h
        rw [findSubAux, if_pos (by simpa using h)]
        rfl
    | cons c rest ih =>
        intro pat j base h
        rw [findSubAux]
        by_cases hp0 : pat.isPrefixOf (c :: rest) = true
        · rw [if_pos hp0]
          rfl
        · rw [if_neg hp0]
          cases j with
          | zero => exact absurd (by simpa using h) hp0
          | succ j2 => exact ih pat j2 (base + 1) (by simpa using h)
  intro s pat j h
  exact aux s pat j 0 h

/-- `hasSub = false` means no position carries the pattern. -/
theorem hasSub_false_iff (s pat : Str) :
    hasSub s pat = false ↔ ∀ j, ¬ pat.isPrefixOf (s.drop j) = true := by
  constructor
  · intro h j hp
    rw [pyFind_complete s pat j hp] at h
    cases h
  · intro h
    by_cases hs : hasSub s pat = true
    · unfold hasSub at hs
      rcases hf : pyFind s pat with _ | i
      · rw [hf] at hs
        cases hs
      · exact absurd (pyFind_sound s pat i hf) (h i)
    · simpa using hs

/-- The search finds a known occurrence that nothing precedes. -/
theorem pyFind_of_min (s pat : Str) (k : Nat)
    (hocc : pat.isPrefixOf (s.drop k) = true)
    (hmin : ∀ j < k, ¬ pat.isPrefixOf (s.drop j) = true) :
    pyFind s pat = some k := by
  have hsome : (pyFind s pat).isSome = true := pyFind_complete s pat k hocc
  rcases hf : pyFind s pat with _ | i
  · rw [hf] at hsome
    cases hsome
  · have hi := pyFind_sound s pat i hf
    have him := pyFind_minimal s pat i hf
    by_cases hik : i = k
    · rw [hik]
    · rcases Nat.lt_or_ge i k with hlt | hge
      · exact absurd hi (hmin i hlt)
      · exact absurd hocc (him k (by omega))

/-- Splitting a prefix of an append. -/
theorem isPrefixOf_append_cases (p a b : Str) (h : p.isPrefixOf (a ++ b) = true) :
    (p.length ≤ a.length ∧ p.isPrefixOf a = true) ∨
    (a.length ≤ p.length ∧ a.isPrefixOf p = true ∧ (p.drop a.length).isPrefixOf b = true) := by
  rw [List.isPrefixOf_iff_prefix] at h
  obtain ⟨t, ht⟩ := h
  rcases List.append_eq_append_iff.1 ht with ⟨k, hk1, hk2⟩ | ⟨k, hk1, hk2⟩
  · left
    refine ⟨?_, ?_⟩
    · rw [hk1]
      simp
    · rw [List.isPrefixOf_iff_prefix, hk1]
      exact List.prefix_append p k
  · right
    refine ⟨?_, ?_, ?_⟩
    · rw [hk1]
      simp
    · rw [List.isPrefixOf_iff_prefix, hk1]
      exact List.prefix_append a k
    · rw [List.isPrefixOf_iff_prefix, hk1]
      simp only [List.drop_left]
      exact ⟨t, hk2.symm⟩

/-- A prefix of the left part is a prefix of the whole. -/
theorem isPrefixOf_append_left (p a b : Str) (h : p.isPrefixOf a = true) :
    p.isPrefixOf (a ++ b) = true := by
  rw [List.isPrefixOf_iff_prefix] at h ⊢
  exact h.trans (List.prefix_append a b)

/-- Where an occurrence in an append can sit. -/
theorem occursAt_append_cases (x y pat : Str) (j : Nat)
    (h : pat.isPrefixOf ((x ++ y).drop j) = true) :
    (j + pat.length ≤ x.length ∧ pat.isPrefixOf (x.drop j) = true) ∨
    (x.length ≤ j ∧ pat.isPrefixOf (y.drop (j - x.length)) = true) ∨
    (j < x.length ∧ x.length < j + pat.length ∧
      (x.drop j).isPrefixOf pat = true ∧ (pat.drop (x.length - j)).isPrefixOf y = true) := by
  rw [List.drop_append_eq_append_drop] at h
  by_cases hj : x.length ≤ j
  · right
    left
    refine ⟨hj, ?_⟩
    have hx : x.drop j = [] := List.drop_eq_nil_of_le hj
    rw [hx] at h
    simpa using h
  · push_neg at hj
    have hy : j - x.length = 0 := by omega
    rw [hy, List.drop_zero] at h
    rcases isPrefixOf_append_cases pat (x.drop j) y h with ⟨h1, h2⟩ | ⟨h1, h2, h3⟩
    · left
      have hlen : (x.drop j).length = x.length - j := by simp
      rw [hlen] at h1
      exact ⟨by omega, h2⟩
    · have hlen : (x.drop j).length = x.length - j := by simp
      rw [hlen] at h1 h3
      by_cases hfit : x.length < j + pat.length
      · right
        right
        exact ⟨hj, hfit, h2, h3⟩
      · left
        push_neg at hfit
        refine ⟨hfit, ?_⟩
        have hlp : pat.length = (x.drop j).length := by
          rw [hlen]
          omega
        have heq : x.drop j = pat :=
          List.IsPrefix.eq_of_length ( List.isPrefixOf_iff_prefix.1 h2) hlp.symm
        rw [heq]
        exact List.isPrefixOf_iff_prefix.2 (List.prefix_refl pat)

/-- No occurrence in an append, given none in either part and no
boundary-crossing occurrence. -/
theorem noSub_append (x y pat : Str)
    (hx : hasSub x pat = false) (hy : hasSub y pat = false)
    (hcross : ∀ j, j < x.length → x.length < j + pat.length →
      ¬((x.drop j).isPrefixOf pat = true ∧ (pat.drop (x.length - j)).isPrefixOf y = true)) :
    hasSub (x ++ y) pat = false := by
  rw [hasSub_false_iff]
  intro j hp
  rcases occursAt_append_cases x y pat j hp with ⟨_, h2⟩ | ⟨_, h2⟩ | ⟨h1, h2, h3, h4⟩
  · exact absurd h2 ((hasSub_false_iff x pat).1 hx (j))
  · exact absurd h2 ((hasSub_false_iff y pat).1 hy _)
  · exact hcross j h1 h2 ⟨h3, h4⟩

/-- A nonempty suffix of `x` (as `x.drop j`, `j < x.length`) contains `x`'s
last element. -/
theorem getLast_mem_drop (x : Str) (j : Nat) (hj : j < x.length) (c : Char)
    (hc : x.getLast? = some c) : c ∈ x.drop j := by
  have hx : x.drop j ≠ [] := by
    intro h
    have := congrArg List.length h
    simp at this
    omega
  have : (x.drop j).getLast? = x.getLast? := by
    rcases hdrop : x.drop j with _ | ⟨d, ds⟩
    · exact absurd hdrop hx
    · rw [← hdrop]
      have := List.take_append_drop j x
      conv_rhs => rw [← this]
      rw [List.getLast?_append]
      rw [hdrop]
      exact (Option.or_of_isSome (List.getLast?_isSome.2 (by simp))).symm
  rw [hc] at this
  exact mem_of_getLast_eq this

/-- No occurrence crosses out of `x` when `x` ends in a character foreign to
the pattern. -/
theorem noSub_append_lastNotMem (x y pat : Str) (c : Char)
    (hc : x.getLast? = some c) (hmem : c ∉ pat)
    (hx : hasSub x pat = false) (hy : hasSub y pat = false) :
    hasSub (x ++ y) pat = false := by
  refine noSub_append x y pat hx hy ?_
  intro j h1 _ ⟨h3, _⟩
  have hcm : c ∈ x.drop j := getLast_mem_drop x j h1 c hc
  have : c ∈ pat := ( List.isPrefixOf_iff_prefix.1 h3).subset hcm
  exact hmem this

/-- Symmetrically, no occurrence crosses into `y` when `y` starts with a
character foreign to the pattern. -/
theorem noSub_append_headNotMem (x y pat : Str) (c : Char)
    (hc : y.head? = some c) (hmem : c ∉ pat)
    (hx : hasSub x pat = false) (hy : hasSub y pat = false) :
    hasSub (x ++ y) pat = false := by
  refine noSub_append x y pat hx hy ?_
  intro j h1 h2 ⟨_, h4⟩
  have hne : pat.drop (x.length - j) ≠ [] := by
    intro h
    have := congrArg List.length h
    simp at this
    omega
  rcases hd : pat.drop (x.length - j) with _ | ⟨d, ds⟩
  · exact hne hd
  · rw [hd] at h4
    rcases hy2 : y with _ | ⟨e, es⟩
    · rw [hy2] at h4
      simp [List.isPrefixOf] at h4
    · rw [hy2] at h4
      simp only [List.isPrefixOf, Bool.and_eq_true, beq_iff_eq] at h4
      have hde : d = e := h4.1
      have hce : e = c := by
        rw [hy2] at hc
        simpa using hc
      have : d ∈ pat := by
        have : d ∈ pat.drop (x.length - j) := by
          rw [hd]
          simp
        exact (List.drop_subset _ _) this
      rw [hde, hce] at this
      exact hmem this

/-- A one-character string avoids any pattern not led by that character. -/
theorem noSub_singleton (c : Char) (pat : Str) (hp : pat ≠ [])
    (hne : pat.head? ≠ some c) : hasSub [c] pat = false := by
  rw [hasSub_false_iff]
  intro j hpre
  cases j with
  | zero =>
      rcases pat with _ | ⟨p0, ps⟩
      · exact hp rfl
      · simp only [List.drop_zero, List.isPrefixOf, Bool.and_eq_true, beq_iff_eq] at hpre
        exact hne (by simp [hpre.1])
  | succ j2 =>
      rcases pat with _ | ⟨p0, ps⟩
      · exact hp rfl
      · simp [List.isPrefixOf] at hpre

/-- Prefixing a foreign character preserves pattern absence. -/
theorem noSub_cons (c : Char) (b pat : Str) (hp : pat ≠ []) (hmem : c ∉ pat)
    (hb : hasSub b pat = false) : hasSub (c :: b) pat = false := by
  have h1 : hasSub [c] pat = false := by
    refine noSub_singleton c pat hp ?_
    intro h
    rcases pat with _ | ⟨p0, ps⟩
    · exact hp rfl
    · simp at h
      rw [h] at hmem
      simp at hmem
  have := noSub_append_lastNotMem [c] b pat c rfl hmem h1 hb
  simpa using this

/-- Occurrences survive moving into a surrounding context. -/
theorem hasSub_isInfix (t s pat : Str) (h : t <:+: s) (ht : hasSub t pat = true) :
    hasSub s pat = true := by
  obtain ⟨u, v, huv⟩ := h
  unfold hasSub at ht
  rcases hf : pyFind t pat with _ | i
  · rw [hf] at ht
    cases ht
  · have hocc := pyFind_sound t pat i hf
    have hocc2 : pat.isPrefixOf (s.drop (u.length + i)) = true := by
      rw [← huv, List.append_assoc, List.drop_append_eq_append_drop]
      have h1 : u.drop (u.length + i) = [] := List.drop_eq_nil_of_le (by omega)
      have h2 : u.length + i - u.length = i := by omega
      rw [h1, h2, List.nil_append, List.drop_append_eq_append_drop]
      by_cases hit : i ≤ t.length
      · have h3 : i - t.length = 0 := by omega
        rw [h3, List.drop_zero]
        exact isPrefixOf_append_left _ _ _ hocc
      · have h3 : t.drop i = [] := List.drop_eq_nil_of_le (by omega)
        rw [h3] at hocc
        rw [List.drop_eq_nil_of_le (by omega)]
        have hpe : pat = [] := by simpa using hocc
        rw [hpe]
        simp [List.isPrefixOf]
    exact pyFind_complete s pat (u.length + i) hocc2

/-- Pattern absence restricts to any infix. -/
theorem noSub_isInfix (t s pat : Str) (h : t <:+: s) (hs : hasSub s pat = false) :
    hasSub t pat = false := by
  by_cases ht : hasSub t pat = true
  · rw [hasSub_isInfix t s pat h ht] at hs
    cases hs
  · simpa using ht

/-! ## Support for the `_extract_first_select` sanitization analysis -/

/-- Lowering maps infixes to infixes, so an absent pattern stays absent on
lowered infixes. -/
theorem noSub_pyLower_isInfix (t s pat : Str) (h : t <:+: s)
    (hs : hasSub (pyLower s) pat = false) : hasSub (pyLower t) pat = false :=
  noSub_isInfix _ _ _ (h.map Char.toLower) hs

/-- The span remainder is a suffix. -/
theorem cspan_snd_suffix (p : Char → Bool) (s : Str) : (cspan p s).2 <:+ s :=
  ⟨(cspan p s).1, cspan_append_eq p s⟩

/-- `pyStrip` yields an infix of its input. -/
theorem pyStrip_isInfix (s : Str) : pyStrip s <:+: s := by
  have h1 : s.dropWhile isPyWs <:+ s := List.dropWhile_suffix isPyWs
  have h2 : (s.dropWhile isPyWs).reverse.dropWhile isPyWs <:+ (s.dropWhile isPyWs).reverse :=
    List.dropWhile_suffix isPyWs
  have h3 : pyStrip s <+: s.dropWhile isPyWs := by
    rw [← List.reverse_suffix]
    simpa [pyStrip] using h2
  exact h3.isInfix.trans h1.isInfix

/-- Right-stripping stops at the last non-whitespace character. -/
theorem rstrip_append_cons (a : Str) (c : Char) (b : Str) (hc : isPyWs c = false) :
    ((a ++ c :: b).reverse.dropWhile isPyWs).reverse =
      a ++ c :: (b.reverse.dropWhile isPyWs).reverse := by
  rw [show (a ++ c :: b).reverse = b.reverse ++ c :: a.reverse by simp]
  rw [List.dropWhile_append]
  by_cases he : (b.reverse.dropWhile isPyWs).isEmpty = true
  · rw [if_pos he, List.dropWhile_cons, if_neg (by simp [hc])]
    have hb : b.reverse.dropWhile isPyWs = [] := List.isEmpty_iff.1 he
    rw [hb]
    simp
  · rw [if_neg he]
    simp

/-- `pyStrip` on a string with a non-whitespace head and a known
non-whitespace separator keeps everything up to the separator. -/
theorem pyStrip_cons_append_cons (c : Char) (a : Str) (d : Char) (b : Str)
    (hc : isPyWs c = false) (hd : isPyWs d = false) :
    pyStrip (c :: a ++ d :: b) = c :: a ++ d :: (b.reverse.dropWhile isPyWs).reverse := by
  unfold pyStrip
  rw [List.cons_append, List.dropWhile_cons, if_neg (by simp [hc]), ← List.cons_append]
  exact rstrip_append_cons (c :: a) d b hd

/-- A trailing whitespace character never survives `pyStrip`. -/
theorem pyStrip_append_ws (b : Str) (c : Char) (hc : isPyWs c = true) :
    pyStrip (b ++ [c]) = pyStrip b := by
  unfold pyStrip
  rw [List.dropWhile_append]
  by_cases he : (b.dropWhile isPyWs).isEmpty = true
  · rw [if_pos he]
    have hb : b.dropWhile isPyWs = [] := List.isEmpty_iff.1 he
    rw [hb]
    simp [List.dropWhile_cons, hc]
  · rw [if_neg he]
    rw [show (b.dropWhile isPyWs ++ [c]).reverse = c :: (b.dropWhile isPyWs).reverse by simp]
    rw [List.dropWhile_cons, if_pos (by simp [hc])]

/-- A pattern sitting at the front is found at position 0. -/
theorem pyFind_at_zero (s pat : Str) (h : pat.isPrefixOf s = true) :
    pyFind s pat = some 0 :=
  pyFind_of_min s pat 0 (by simpa using h) (fun j hj => absurd hj (Nat.not_lt_zero j))

/-- The first occurrence of a character absent from `a` sits right after `a`. -/
theorem pyFind_singleton_after (a : Str) (c : Char) (b : Str) (h : c ∉ a) :
    pyFind (a ++ c :: b) [c] = some a.length := by
  refine pyFind_of_min _ _ a.length ?_ ?_
  · rw [List.drop_left]
    simp [List.isPrefixOf]
  · intro j hj hp
    rw [List.drop_append_eq_append_drop] at hp
    rcases hdj : a.drop j with _ | ⟨d, ds⟩
    · have := congrArg List.length hdj
      simp at this
      omega
    · rw [hdj] at hp
      simp only [List.cons_append, List.isPrefixOf, Bool.and_eq_true, beq_iff_eq] at hp
      have hd : d ∈ a := List.drop_subset j a (by rw [hdj]; simp)
      rw [← hp.1] at hd
      exact h hd

/-- Block-comment removal without an opener is the identity at any fuel. -/
theorem rbcAux_id (fuel : Nat) (s : Str) (h : hasSub s (strOf "/*") = false) :
    rbcAux fuel s = s := by
  cases fuel with
  | zero => rfl
  | succ fuel =>
      rw [rbcAux]
      rcases hf : pyFind s (strOf "/*") with _ | i
      · rfl
      · unfold hasSub at h
        rw [hf] at h
        simp at h

/-- Reduction of line-comment removal when no comment starts the line and a
newline exists. -/
theorem rlcAux_nodash_some (fuel : Nat) (s : Str) (k : Nat)
    (hd : (strOf "--").isPrefixOf (cspan isPyWs s).2 = false)
    (hn : pyFind s (strOf "\n") = some k) :
    rlcAux (fuel + 1) s = s.take (k + 1) ++ rlcAux fuel (s.drop (k + 1)) := by
  rw [rlcAux, if_neg (by simp [hd]), hn]

/-- Reduction of line-comment removal when no comment starts the line and no
newline exists. -/
theorem rlcAux_nodash_none (fuel : Nat) (s : Str)
    (hd : (strOf "--").isPrefixOf (cspan isPyWs s).2 = false)
    (hn : pyFind s (strOf "\n") = none) :
    rlcAux (fuel + 1) s = s := by
  rw [rlcAux, if_neg (by simp [hd]), hn]

/-- Line-comment removal without any `--` is the identity at any fuel. -/
theorem rlcAux_id (fuel : Nat) : ∀ s : Str, hasSub s (strOf "--") = false →
    rlcAux fuel s = s := by
  induction fuel with
  | zero => intro s _; rfl
  | succ fuel ih =>
      intro s h
      have hd : (strOf "--").isPrefixOf (cspan isPyWs s).2 = false := by
        by_cases hp : (strOf "--").isPrefixOf (cspan isPyWs s).2 = true
        · have h1 : hasSub (cspan isPyWs s).2 (strOf "--") = true :=
            hasSub_of_isPrefixOf _ _ hp
          rw [hasSub_isInfix _ s _ (cspan_snd_suffix isPyWs s).isInfix h1] at h
          cases h
        · exact Bool.eq_false_iff.2 hp
      rcases hn : pyFind s (strOf "\n") with _ | k
      · exact rlcAux_nodash_none fuel s hd hn
      · rw [rlcAux_nodash_some fuel s k hd hn]
        rw [ih (s.drop (k + 1)) (noSub_isInfix _ s _ (List.drop_suffix (k + 1) s).isInfix h)]
        exact List.take_append_drop (k + 1) s

/-- Reduction of block-comment removal at a closed comment. -/
theorem rbcAux_step (fuel : Nat) (s : Str) (i j : Nat)
    (h1 : pyFind s (strOf "/*") = some i)
    (h2 : pyFindFrom s (strOf "*/") (i + 2) = some j) :
    rbcAux (fuel + 1) s = s.take i ++ ' ' :: rbcAux fuel (s.drop (j + 2)) := by
  rw [rbcAux, h1]
  show (match pyFindFrom s (strOf "*/") (i + 2) with
        | none => s
        | some j2 => s.take i ++ ' ' :: rbcAux fuel (s.drop (j2 + 2))) =
    s.take i ++ ' ' :: rbcAux fuel (s.drop (j + 2))
  rw [h2]

/-- Reduction of block-comment removal at an unterminated opener. -/
theorem rbcAux_step_open (fuel : Nat) (s : Str) (i : Nat)
    (h1 : pyFind s (strOf "/*") = some i)
    (h2 : pyFindFrom s (strOf "*/") (i + 2) = none) :
    rbcAux (fuel + 1) s = s := by
  rw [rbcAux, h1]
  show (match pyFindFrom s (strOf "*/") (i + 2) with
        | none => s
        | some j2 => s.take i ++ ' ' :: rbcAux fuel (s.drop (j2 + 2))) = s
  rw [h2]

/-- Reduction of line-comment removal on a comment line followed by a break. -/
theorem rlcAux_dash_cons (fuel : Nat) (s : Str) (k : Nat) (nl : Char) (rest : Str)
    (hd : (strOf "--").isPrefixOf (cspan isPyWs s).2 = true)
    (hn : pyFind (cspan isPyWs s).2 (strOf "\n") = some k)
    (hdrop : (cspan isPyWs s).2.drop k = nl :: rest) :
    rlcAux (fuel + 1) s = nl :: rlcAux fuel rest := by
  rw [rlcAux, if_pos hd, hn]
  show (match (cspan isPyWs s).2.drop k with
        | [] => ([] : Str)
        | c :: r => c :: rlcAux fuel r) = nl :: rlcAux fuel rest
  rw [hdrop]

/-- Degenerate reduction of line-comment removal (break at the very end). -/
theorem rlcAux_dash_nil (fuel : Nat) (s : Str) (k : Nat)
    (hd : (strOf "--").isPrefixOf (cspan isPyWs s).2 = true)
    (hn : pyFind (cspan isPyWs s).2 (strOf "\n") = some k)
    (hdrop : (cspan isPyWs s).2.drop k = []) :
    rlcAux (fuel + 1) s = [] := by
  rw [rlcAux, if_pos hd, hn]
  show (match (cspan isPyWs s).2.drop k with
        | [] => ([] : Str)
        | c :: r => c :: rlcAux fuel r) = []
  rw [hdrop]

/-- Reduction of line-comment removal on a final comment line. -/
theorem rlcAux_dash_none (fuel : Nat) (s : Str)
    (hd : (strOf "--").isPrefixOf (cspan isPyWs s).2 = true)
    (hn : pyFind (cspan isPyWs s).2 (strOf "\n") = none) :
    rlcAux (fuel + 1) s = [] := by
  rw [rlcAux, if_pos hd, hn]

/-- Take one past a position whose character is known. -/
theorem take_succ_of_drop_cons (s : Str) (k : Nat) (c : Char) (t : Str)
    (h : s.drop k = c :: t) : s.take (k + 1) = s.take k ++ [c] := by
  have hk : k < s.length := by
    by_contra hk2
    push_neg at hk2
    rw [List.drop_eq_nil_of_le hk2] at h
    cases h
  have hlen : (s.take k).length = k := by
    rw [List.length_take]
    omega
  conv_lhs => rw [← List.take_append_drop k s]
  rw [List.take_append_eq_append_take, hlen,
    List.take_of_length_le (by rw [hlen]; omega), Nat.add_sub_cancel_left, h]
  simp

/-- Removing block comments cannot create a SELECT keyword occurrence. -/
theorem noSelect_rbcAux (fuel : Nat) : ∀ s : Str,
    hasSub (pyLower s) (strOf "select") = false →
    hasSub (pyLower (rbcAux fuel s)) (strOf "select") = false := by
  induction fuel with
  | zero => intro s h; exact h
  | succ fuel ih =>
      intro s h
      rcases h1 : pyFind s (strOf "/*") with _ | i
      · rw [rbcAux_id (fuel + 1) s (by unfold hasSub; rw [h1]; rfl)]
        exact h
      · rcases h2 : pyFindFrom s (strOf "*/") (i + 2) with _ | j
        · rw [rbcAux_step_open fuel s i h1 h2]
          exact h
        · rw [rbcAux_step fuel s i j h1 h2]
          have hx : hasSub (pyLower (s.take i)) (strOf "select") = false :=
            noSub_pyLower_isInfix _ s _ (List.take_prefix i s).isInfix h
          have hrec : hasSub (pyLower (rbcAux fuel (s.drop (j + 2)))) (strOf "select") = false :=
            ih _ (noSub_pyLower_isInfix _ s _ (List.drop_suffix (j + 2) s).isInfix h)
          have hy : hasSub (' ' :: pyLower (rbcAux fuel (s.drop (j + 2))))
              (strOf "select") = false :=
            noSub_cons ' ' _ _ (by decide) (by decide) hrec
          have hfin := noSub_append_headNotMem (pyLower (s.take i))
            (' ' :: pyLower (rbcAux fuel (s.drop (j + 2)))) (strOf "select") ' '
            rfl (by decide) hx hy
          rw [show pyLower (s.take i ++ ' ' :: rbcAux fuel (s.drop (j + 2))) =
                pyLower (s.take i) ++ ' ' :: pyLower (rbcAux fuel (s.drop (j + 2))) from by
              simp [pyLower, show Char.toLower ' ' = ' ' from by decide]]
          exact hfin

/-- Removing line comments cannot create a SELECT keyword occurrence. -/
theorem noSelect_rlcAux (fuel : Nat) : ∀ s : Str,
    hasSub (pyLower s) (strOf "select") = false →
    hasSub (pyLower (rlcAux fuel s)) (strOf "select") = false := by
  induction fuel with
  | zero => intro s h; exact h
  | succ fuel ih =>
      intro s h
      by_cases hd : (strOf "--").isPrefixOf (cspan isPyWs s).2 = true
      · rcases hn : pyFind (cspan isPyWs s).2 (strOf "\n") with _ | k
        · rw [rlcAux_dash_none fuel s hd hn]
          decide
        · have hocc := pyFind_sound _ _ _ hn
          rcases hdr : (cspan isPyWs s).2.drop k with _ | ⟨nl, rest⟩
          · rw [rlcAux_dash_nil fuel s k hd hn hdr]
            decide
          · have hnl : nl = '\n' := by
              rw [hdr] at hocc
              simp only [show strOf "\n" = ['\n'] from rfl, List.isPrefixOf,
                Bool.and_eq_true, beq_iff_eq] at hocc
              exact hocc.1.symm
            rw [rlcAux_dash_cons fuel s k nl rest hd hn hdr, hnl]
            have hrest : hasSub (pyLower rest) (strOf "select") = false := by
              refine noSub_pyLower_isInfix rest s _ ?_ h
              have hsfx : rest <:+ (cspan isPyWs s).2.drop k := by
                rw [hdr]
                exact List.suffix_cons nl rest
              exact ((hsfx.trans (List.drop_suffix k _)).trans
                (cspan_snd_suffix isPyWs s)).isInfix
            have hstep := ih rest hrest
            have hfin := noSub_cons '\n' (pyLower (rlcAux fuel rest)) (strOf "select")
              (by decide) (by decide) hstep
            rw [show pyLower ('\n' :: rlcAux fuel rest) =
                  '\n' :: pyLower (rlcAux fuel rest) from by
                simp [pyLower, show Char.toLower '\n' = '\n' from by decide]]
            exact hfin
      · have hd2 : (strOf "--").isPrefixOf (cspan isPyWs s).2 = false := Bool.eq_false_iff.2 hd
        rcases hn : pyFind s (strOf "\n") with _ | k
        · rw [rlcAux_nodash_none fuel s hd2 hn]
          exact h
        · rw [rlcAux_nodash_some fuel s k hd2 hn]
          have hocc := pyFind_sound _ _ _ hn
          rcases hdk : s.drop k with _ | ⟨c0, t0⟩
          · rw [hdk] at hocc
            simp [show strOf "\n" = ['\n'] from rfl, List.isPrefixOf] at hocc
          · have hc0 : c0 = '\n' := by
              rw [hdk] at hocc
              simp only [show strOf "\n" = ['\n'] from rfl, List.isPrefixOf,
                Bool.and_eq_true, beq_iff_eq] at hocc
              exact hocc.1.symm
            have htake := take_succ_of_drop_cons s k c0 t0 hdk
            have hlast : (pyLower (s.take (k + 1))).getLast? = some '\n' := by
              rw [htake, hc0]
              rw [show pyLower (s.take k ++ ['\n']) = pyLower (s.take k) ++ ['\n'] from by
                simp [pyLower, show Char.toLower '\n' = '\n' from by decide]]
              exact List.getLast?_concat _
            have hx : hasSub (pyLower (s.take (k + 1))) (strOf "select") = false :=
              noSub_pyLower_isInfix _ s _ (List.take_prefix (k + 1) s).isInfix h
            have hy := ih (s.drop (k + 1))
              (noSub_pyLower_isInfix _ s _ (List.drop_suffix (k + 1) s).isInfix h)
            have hfin := noSub_append_lastNotMem (pyLower (s.take (k + 1)))
              (pyLower (rlcAux fuel (s.drop (k + 1)))) (strOf "select") '\n'
              hlast (by decide) hx hy
            rw [show pyLower (s.take (k + 1) ++ rlcAux fuel (s.drop (k + 1))) =
                  pyLower (s.take (k + 1)) ++ pyLower (rlcAux fuel (s.drop (k + 1))) from by
                simp [pyLower]]
            exact hfin

/-- The word-boundary search cannot succeed on SELECT-free text. -/
theorem findWordSelectAux_none (fuel : Nat) : ∀ (prev : Option Char) (i : Nat) (s : Str),
    hasSub (pyLower s) (strOf "select") = false →
    findWordSelectAux fuel prev i s = none := by
  induction fuel with
  | zero => intro prev i s _; rfl
  | succ fuel ih =>
      intro prev i s h
      have hw : wordSelectAt prev s = false := by
        by_cases hw2 : wordSelectAt prev s = true
        · exfalso
          unfold wordSelectAt at hw2
          simp only [Bool.and_eq_true, beq_iff_eq] at hw2
          have hpl : pyLower (s.take 6) = strOf "select" := hw2.1.2
          have hsel : (strOf "select").isPrefixOf ((pyLower s).drop 0) = true := by
            rw [List.drop_zero, List.isPrefixOf_iff_prefix, List.prefix_iff_eq_take]
            rw [show (strOf "select").length = 6 from rfl, ← hpl]
            exact List.map_take Char.toLower s 6
          rw [pyFind_complete (pyLower s) (strOf "select") 0 hsel] at h
          cases h
        · exact Bool.eq_false_iff.2 hw2
      rcases s with _ | ⟨c, rest⟩
      · rw [findWordSelectAux, if_neg (by simp [hw])]
      · rw [findWordSelectAux, if_neg (by simp [hw])]
        exact ih (some c) (i + 1) rest
          (noSub_pyLower_isInfix rest (c :: rest) _ (List.suffix_cons c rest).isInfix h)

/-- No SELECT keyword is found in SELECT-free text. -/
theorem findWordSelect_none (s : Str)
    (h : hasSub (pyLower s) (strOf "select") = false) :
    findWordSelect s = none :=
  findWordSelectAux_none (s.length + 1) none 0 s h

/-- SELECT-free text does not match the leading-SELECT test. -/
theorem matchesStartSelect_false (s : Str)
    (h : hasSub (pyLower s) (strOf "select") = false) :
    matchesStartSelect s = false := by
  by_cases hm : matchesStartSelect s = true
  · exfalso
    unfold matchesStartSelect at hm
    simp only [Bool.and_eq_true, beq_iff_eq] at hm
    have hr : hasSub (pyLower (cspan isPyWs s).2) (strOf "select") = false :=
      noSub_pyLower_isInfix _ s _ (cspan_snd_suffix isPyWs s).isInfix h
    have hpl : pyLower ((cspan isPyWs s).2.take 6) = strOf "select" := hm.1
    have hsel : (strOf "select").isPrefixOf ((pyLower (cspan isPyWs s).2).drop 0) = true := by
      rw [List.drop_zero, List.isPrefixOf_iff_prefix, List.prefix_iff_eq_take]
      rw [show (strOf "select").length = 6 from rfl, ← hpl]
      exact List.map_take Char.toLower (cspan isPyWs s).2 6
    rw [pyFind_complete _ _ 0 hsel] at hr
    cases hr
  · exact Bool.eq_false_iff.2 hm

/-- SELECT-free candidates are blanked by the sanitization pipeline. -/
theorem sanitizeCandidate_noSelect (b : Str)
    (h : hasSub (pyLower b) (strOf "select") = false) :
    sanitizeCandidate b = [] := by
  by_cases hb : b = []
  · subst hb
    decide
  · have h0 : hasSub (pyLower (pyStrip b)) (strOf "select") = false :=
      noSub_pyLower_isInfix _ b _ (pyStrip_isInfix b) h
    have h1 : hasSub (pyLower (removeBlockComments (pyStrip b))) (strOf "select") = false :=
      noSelect_rbcAux _ _ h0
    have h2 : hasSub (pyLower (removeLineComments (removeBlockComments (pyStrip b))))
        (strOf "select") = false :=
      noSelect_rlcAux _ _ h1
    have hclean : extractFirstSelect b = [] := by
      unfold extractFirstSelect
      rw [if_neg hb, findWordSelect_none _ h2]
    unfold sanitizeCandidate
    rw [hclean, if_pos rfl]
    unfold selectGate
    rw [if_pos ⟨hb, matchesStartSelect_false b h⟩]

/-- The word-boundary test succeeds at a leading SELECT keyword. -/
theorem wordSelectAt_SELECT (t : Str) : wordSelectAt none (strOf "SELECT " ++ t) = true := rfl

/-- The leading-SELECT test succeeds on a SELECT statement. -/
theorem matchesStartSelect_SELECT (t : Str) :
    matchesStartSelect (strOf "SELECT " ++ t) = true := rfl

/-- The keyword search puts a leading SELECT at position 0. -/
theorem findWordSelect_SELECT (t : Str) : findWordSelect (strOf "SELECT " ++ t) = some 0 := by
  unfold findWordSelect
  generalize (strOf "SELECT " ++ t).length = n
  show findWordSelectAux (n + 1) none 0 ('S' :: (strOf "ELECT " ++ t)) = some 0
  rw [findWordSelectAux,
    if_pos (show wordSelectAt none ('S' :: (strOf "ELECT " ++ t)) = true from
      wordSelectAt_SELECT t)]

/-- A comment-free SELECT block with a semicolon sanitizes to its first
statement, cut at that semicolon. -/
theorem sanitizeCandidate_SELECT (r1 s2 : Str) (hsemi : ';' ∉ r1)
    (hbc : hasSub (strOf "SELECT " ++ r1 ++ ';' :: s2) (strOf "/*") = false)
    (hlc : hasSub (strOf "SELECT " ++ r1 ++ ';' :: s2) (strOf "--") = false) :
    sanitizeCandidate (strOf "SELECT " ++ r1 ++ ';' :: s2) =
      strOf "SELECT " ++ r1 ++ [';'] := by
  have hsemiA : ';' ∉ strOf "SELECT " ++ r1 := by
    intro hm
    rcases List.mem_append.1 hm with hm2 | hm2
    · exact absurd hm2 (by decide)
    · exact hsemi hm2
  have hstrip := pyStrip_cons_append_cons 'S' (strOf "ELECT " ++ r1) ';' s2
    (by decide) (by decide)
  rw [show ('S' : Char) :: (strOf "ELECT " ++ r1) ++ ';' :: s2
        = strOf "SELECT " ++ r1 ++ ';' :: s2 from by
      rw [show strOf "SELECT " = 'S' :: strOf "ELECT " from rfl]
      simp] at hstrip
  rw [show ('S' : Char) :: (strOf "ELECT " ++ r1) ++ ';' :: (s2.reverse.dropWhile isPyWs).reverse
        = strOf "SELECT " ++ r1 ++ ';' :: (s2.reverse.dropWhile isPyWs).reverse from by
      rw [show strOf "SELECT " = 'S' :: strOf "ELECT " from rfl]
      simp] at hstrip
  have hbne : strOf "SELECT " ++ r1 ++ ';' :: s2 ≠ [] := by
    rw [show strOf "SELECT " = 'S' :: strOf "ELECT " from rfl]
    simp
  have hfx : hasSub (pyStrip (strOf "SELECT " ++ r1 ++ ';' :: s2)) (strOf "/*") = false :=
    noSub_isInfix _ _ _ (pyStrip_isInfix _) hbc
  have hdx : hasSub (pyStrip (strOf "SELECT " ++ r1 ++ ';' :: s2)) (strOf "--") = false :=
    noSub_isInfix _ _ _ (pyStrip_isInfix _) hlc
  have hrb : removeBlockComments (pyStrip (strOf "SELECT " ++ r1 ++ ';' :: s2))
      = pyStrip (strOf "SELECT " ++ r1 ++ ';' :: s2) := rbcAux_id _ _ hfx
  have hrl : removeLineComments (pyStrip (strOf "SELECT " ++ r1 ++ ';' :: s2))
      = pyStrip (strOf "SELECT " ++ r1 ++ ';' :: s2) := rlcAux_id _ _ hdx
  have hclean : extractFirstSelect (strOf "SELECT " ++ r1 ++ ';' :: s2)
      = strOf "SELECT " ++ r1 ++ [';'] := by
    unfold extractFirstSelect
    rw [if_neg hbne, hrb, hrl, hstrip]
    rw [List.append_assoc (strOf "SELECT ") r1 (';' :: (s2.reverse.dropWhile isPyWs).reverse)]
    rw [findWordSelect_SELECT (r1 ++ ';' :: (s2.reverse.dropWhile isPyWs).reverse)]
    show firstSelectAt
        (strOf "SELECT " ++ (r1 ++ ';' :: (s2.reverse.dropWhile isPyWs).reverse)) 0
      = strOf "SELECT " ++ r1 ++ [';']
    unfold firstSelectAt
    rw [List.drop_zero]
    rw [← List.append_assoc (strOf "SELECT ") r1
      (';' :: (s2.reverse.dropWhile isPyWs).reverse)]
    rw [show strOf ";" = [';'] from rfl,
      pyFind_singleton_after (strOf "SELECT " ++ r1) ';' _ hsemiA]
    show pyStrip (((strOf "SELECT " ++ r1) ++
        ';' :: (s2.reverse.dropWhile isPyWs).reverse).take ((strOf "SELECT " ++ r1).length + 1))
      = strOf "SELECT " ++ r1 ++ [';']
    rw [List.take_append_eq_append_take,
      List.take_of_length_le
        (le_of_lt (Nat.lt_succ_self (strOf "SELECT " ++ r1).length)),
      Nat.add_sub_cancel_left]
    rw [show (';' :: (s2.reverse.dropWhile isPyWs).reverse).take 1 = [';'] from by simp]
    rw [show (strOf "SELECT " ++ r1) ++ [';'] = 'S' :: (strOf "ELECT " ++ r1) ++ ';' :: ([] : Str)
          from by
        rw [show strOf "SELECT " = 'S' :: strOf "ELECT " from rfl]
        simp]
    rw [pyStrip_cons_append_cons 'S' (strOf "ELECT " ++ r1) ';' [] (by decide) (by decide)]
    simp
  have hclne : ¬(strOf "SELECT " ++ r1 ++ [';'] = []) := by
    rw [show strOf "SELECT " = 'S' :: strOf "ELECT " from rfl]
    simp
  unfold sanitizeCandidate
  rw [hclean, if_neg hclne]
  unfold selectGate
  rw [if_neg (by
    intro hcon
    have h2 := hcon.2
    rw [List.append_assoc, matchesStartSelect_SELECT (r1 ++ [';'])] at h2
    cases h2)]

/-- The first closing fence after a fence-free block sits right past it. -/
theorem pyFind_fence (block : Str) (hf : hasSub block (strOf "```") = false) :
    pyFind (block ++ '\n' :: strOf "```") (strOf "```") = some (block.length + 1) := by
  refine pyFind_of_min _ _ _ ?_ ?_
  · have hsplit : block ++ '\n' :: strOf "```" = (block ++ ['\n']) ++ strOf "```" := by simp
    rw [hsplit, show block.length + 1 = (block ++ ['\n']).length from by simp, List.drop_left]
    exact List.isPrefixOf_iff_prefix.2 (List.prefix_refl _)
  · intro j hj hp
    rcases occursAt_append_cases block ('\n' :: strOf "```") (strOf "```") j hp with
      ⟨h1, h2⟩ | ⟨h1, h2⟩ | ⟨h1, h2, h3, h4⟩
    · rw [pyFind_complete block (strOf "```") j h2] at hf
      cases hf
    · have hj2 : j = block.length := by omega
      rw [hj2, Nat.sub_self, List.drop_zero] at h2
      exact absurd h2 (by decide)
    · have hlen : (strOf "```").length = 3 := rfl
      rw [hlen] at h2
      have h5 : block.length - j = 1 ∨ block.length - j = 2 := by omega
      rcases h5 with h5 | h5
      · rw [h5] at h4
        exact absurd h4 (by decide)
      · rw [h5] at h4
        exact absurd h4 (by decide)

/-- On a well-fenced reply the extracted code block is the stripped text
between the fences. -/
theorem codeBlockOf_fenced (block : Str) (hf : hasSub block (strOf "```") = false) :
    codeBlockOf (strOf "```sql\n" ++ (block ++ strOf "\n```")) = pyStrip block := by
  have hpre : pyFind (strOf "```sql\n" ++ (block ++ strOf "\n```")) (strOf "```sql")
      = some 0 := pyFind_at_zero _ _ rfl
  have hnl : pyFindFrom (strOf "```sql\n" ++ (block ++ strOf "\n```")) (strOf "\n") 0
      = some 6 := by
    unfold pyFindFrom
    rw [List.drop_zero]
    rw [show strOf "```sql\n" ++ (block ++ strOf "\n```")
          = strOf "```sql" ++ '\n' :: (block ++ strOf "\n```") from rfl]
    rw [show strOf "\n" = ['\n'] from rfl]
    rw [pyFind_singleton_after (strOf "```sql") '\n' _ (by decide)]
    rfl
  have hstart : codeBlockStart (strOf "```sql\n" ++ (block ++ strOf "\n```")) 0 = 7 := by
    unfold codeBlockStart
    rw [hnl]
  have hP : (strOf "```sql\n" ++ (block ++ ['\n'])).length = block.length + 8 := by
    rw [List.length_append, List.length_append,
      show (strOf "```sql\n").length = 7 from rfl, show (['\n'] : Str).length = 1 from rfl]
    omega
  have hce : pyFindFrom (strOf "```sql\n" ++ (block ++ strOf "\n```")) (strOf "```") 7
      = some (block.length + 8) := by
    unfold pyFindFrom
    rw [show (strOf "```sql\n" ++ (block ++ strOf "\n```")).drop 7
          = block ++ strOf "\n```" from by
      rw [show (7 : Nat) = (strOf "```sql\n").length from rfl]
      exact List.drop_left _ _]
    rw [show block ++ strOf "\n```" = block ++ '\n' :: strOf "```" from rfl]
    rw [pyFind_fence block hf]
    show some (block.length + 1 + 7) = some (block.length + 8)
    rw [Nat.add_assoc]
  have hsl : pySlice (strOf "```sql\n" ++ (block ++ strOf "\n```")) 7 (block.length + 8)
      = block ++ ['\n'] := by
    unfold pySlice
    rw [show strOf "```sql\n" ++ (block ++ strOf "\n```")
          = (strOf "```sql\n" ++ (block ++ ['\n'])) ++ strOf "```" from by
        rw [show strOf "\n```" = ['\n'] ++ strOf "```" from rfl]
        simp]
    rw [List.take_append_eq_append_take, List.take_of_length_le (le_of_eq hP)]
    rw [show block.length + 8 - (strOf "```sql\n" ++ (block ++ ['\n'])).length = 0 from by
      rw [hP]
      omega]
    rw [List.take_zero, List.append_nil]
    rw [show (7 : Nat) = (strOf "```sql\n").length from rfl]
    exact List.drop_left _ _
  unfold codeBlockOf
  rw [hpre]
  show (match pyFindFrom (strOf "```sql\n" ++ (block ++ strOf "\n```")) (strOf "```")
          (codeBlockStart (strOf "```sql\n" ++ (block ++ strOf "\n```")) 0) with
        | some code_end =>
          pyStrip (pySlice (strOf "```sql\n" ++ (block ++ strOf "\n```"))
            (codeBlockStart (strOf "```sql\n" ++ (block ++ strOf "\n```")) 0) code_end)
        | none => []) = pyStrip block
  rw [hstart, hce]
  show pyStrip (pySlice (strOf "```sql\n" ++ (block ++ strOf "\n```")) 7 (block.length + 8))
      = pyStrip block
  rw [hsl, pyStrip_append_ws block '\n' (by decide)]

/-- The improved query of a well-fenced reply is the sanitized block. -/
theorem improveParse_fenced (block : Str) (hf : hasSub block (strOf "```") = false) :
    (improveParse (strOf "```sql\n" ++ (block ++ strOf "\n```"))).1
      = sanitizeCandidate (pyStrip block) := by
  show sanitizeCandidate (codeBlockOf (strOf "```sql\n" ++ (block ++ strOf "\n```")))
      = sanitizeCandidate (pyStrip block)
  rw [codeBlockOf_fenced block hf]

/-- Stripping a SELECT-led, semicolon-bearing block only right-strips the
trailing text. -/
theorem pyStrip_SELECT (r1 s2 : Str) :
    pyStrip (strOf "SELECT " ++ r1 ++ ';' :: s2)
      = strOf "SELECT " ++ r1 ++ ';' :: (s2.reverse.dropWhile isPyWs).reverse := by
  have hstrip := pyStrip_cons_append_cons 'S' (strOf "ELECT " ++ r1) ';' s2
    (by decide) (by decide)
  rw [show ('S' : Char) :: (strOf "ELECT " ++ r1) ++ ';' :: s2
        = strOf "SELECT " ++ r1 ++ ';' :: s2 from by
      rw [show strOf "SELECT " = 'S' :: strOf "ELECT " from rfl]
      simp] at hstrip
  rw [show ('S' : Char) :: (strOf "ELECT " ++ r1) ++ ';' :: (s2.reverse.dropWhile isPyWs).reverse
        = strOf "SELECT " ++ r1 ++ ';' :: (s2.reverse.dropWhile isPyWs).reverse from by
      rw [show strOf "SELECT " = 'S' :: strOf "ELECT " from rfl]
      simp] at hstrip
  exact hstrip

/-- C5 counterexample: on a reply whose code block holds the two
semicolon-separated statements `CREATE INDEX idx ON t(a); SELECT * FROM t;`,
the sanitization of `improve_query` returns the second (SELECT) statement,
not the first statement truncated at the first semicolon as the claim
states. -/
theorem C5_counterexample :
    (improveParse (strOf "```sql\nCREATE INDEX idx ON t(a); SELECT * FROM t;\n```")).1
        = strOf "SELECT * FROM t;" ∧
    ¬((improveParse (strOf "```sql\nCREATE INDEX idx ON t(a); SELECT * FROM t;\n```")).1
        = strOf "CREATE INDEX idx ON t(a);") := by
  constructor
  · decide
  · decide

/-- C5 (amended): for a reply fencing a code block free of backtick fences,
(a) if the block has no case-insensitive SELECT substring (in particular a
bare `CREATE INDEX ...` DDL block), the returned improved query is empty;
(b) if the block is a SELECT statement terminated by its first semicolon and
free of SQL comments, the returned improved query is exactly that first
statement, cut at the semicolon, whatever follows it. -/
theorem C5_extract_first_select_amended (block r1 s2 : Str)
    (hfence : hasSub block (strOf "```") = false) :
    (hasSub (pyLower block) (strOf "select") = false →
      (improveParse (strOf "```sql\n" ++ (block ++ strOf "\n```"))).1 = []) ∧
    (block = strOf "SELECT " ++ r1 ++ ';' :: s2 → ';' ∉ r1 →
      hasSub block (strOf "/*") = false → hasSub block (strOf "--") = false →
      (improveParse (strOf "```sql\n" ++ (block ++ strOf "\n```"))).1
        = strOf "SELECT " ++ r1 ++ [';']) := by
  constructor
  · intro hs
    rw [improveParse_fenced block hfence]
    exact sanitizeCandidate_noSelect _
      (noSub_pyLower_isInfix _ block _ (pyStrip_isInfix block) hs)
  · intro he hsemi hbc hlc
    rw [improveParse_fenced block hfence]
    subst he
    have hinf : strOf "SELECT " ++ r1 ++ ';' :: (s2.reverse.dropWhile isPyWs).reverse
        <:+: strOf "SELECT " ++ r1 ++ ';' :: s2 := by
      rw [← pyStrip_SELECT r1 s2]
      exact pyStrip_isInfix _
    rw [pyStrip_SELECT r1 s2]
    exact sanitizeCandidate_SELECT r1 _ hsemi
      (noSub_isInfix _ _ _ hinf hbc) (noSub_isInfix _ _ _ hinf hlc)

/-- Witness: the amended C5 statement applied to a concrete DDL-only block
and a concrete two-statement block. -/
theorem C5_witness :
    (improveParse (strOf "```sql\n" ++
        (strOf "CREATE INDEX idx ON tbl(a)" ++ strOf "\n```"))).1 = [] ∧
    (improveParse (strOf "```sql\n" ++
        (strOf "SELECT * FROM t; DROP TABLE t" ++ strOf "\n```"))).1
      = strOf "SELECT " ++ strOf "* FROM t" ++ [';'] :=
  ⟨(C5_extract_first_select_amended (strOf "CREATE INDEX idx ON tbl(a)") [] []
      (by decide)).1 (by decide),
   (C5_extract_first_select_amended (strOf "SELECT * FROM t; DROP TABLE t")
      (strOf "* FROM t") (strOf " DROP TABLE t") (by decide)).2 (by decide) (by decide)
      (by decide) (by decide)⟩

/-! ## Running the XML parser over the reconstructed prior diagnosis (C4)

Step lemmas for the fuelled recursive-descent parser: one lemma per parser
step shape, with fuel bounds carried explicitly (one unit per step). -/

/-- A refuting head transported along an equation. -/
theorem headRefutes (p : Char → Bool) (r : Str) (c : Char) (hr : r.head? = some c)
    (h : p c = false) : ∀ d, r.head? = some d → p d = false := by
  intro d hd
  rw [hr] at hd
  cases hd
  exact h


theorem skipWs_nonWs (c : Char) (r : Str) (h : isXmlWs c = false) :
    skipWs (c :: r) = c :: r := by
  unfold skipWs
  rw [cspan]
  simp [h]


theorem parseXContent_close (tag : Str) (attrs : List (Str × Str)) (text : Str)
    (children : List XNode) (seen : Bool) (rest : Str) (f : Nat)
    (htag : ∀ c ∈ tag, isNameChar c = true) :
    parseXContent (f + 1) tag attrs text children seen ('<' :: '/' :: (tag ++ '>' :: rest))
      = .ok (⟨tag, attrs, text, children.reverse⟩, rest) := by
  rw [parseXContent]
  rw [cspan_append isNameChar tag ('>' :: rest) htag (headRefutes _ _ '>' rfl (by decide))]
  show (match skipWs ('>' :: rest) with
        | '>' :: r2 =>
          if tag = tag then
            Except.ok ((⟨tag, attrs, text, children.reverse⟩ : XNode), r2)
          else Except.error (strOf "mismatched tag")
        | _ => Except.error (strOf "malformed closing tag"))
      = Except.ok ((⟨tag, attrs, text, children.reverse⟩ : XNode), rest)
  rw [skipWs_nonWs '>' _ (by decide)]
  simp

theorem parseXContent_text (tag : Str) (attrs : List (Str × Str)) (text : Str)
    (children : List XNode) (seen : Bool) (c0 : Char) (cs r : Str) (f : Nat)
    (ht : ∀ c ∈ c0 :: cs, isTextChar c = true)
    (hr : ∀ c, r.head? = some c → isTextChar c = false) :
    parseXContent (f + 1) tag attrs text children seen ((c0 :: cs) ++ r)
      = parseXContent f tag attrs (if seen then text else text ++ (c0 :: cs)) children seen r := by
  rw [show (c0 :: cs) ++ r = c0 :: (cs ++ r) from rfl]
  rw [parseXContent.eq_def]
  split
  · omega
  · rename_i fuel1 fuel2 heq
    have hfe : fuel2 = f := by omega
    subst hfe
    have hc0 : isTextChar c0 = true := ht c0 (List.mem_cons_self c0 cs)
    split
    · rename_i heq2
      cases heq2
    · rename_i r2 heq2
      injection heq2 with h1 h2
      exact absurd hc0 (by rw [h1]; decide)
    · rename_i r2 heq2
      injection heq2 with h1 h2
      exact absurd hc0 (by rw [h1]; decide)
    · rename_i r2 heq2
      injection heq2 with h1 h2
      exact absurd hc0 (by rw [h1]; decide)
    · rename_i r2 heq2
      injection heq2 with h1 h2
      exact absurd hc0 (by rw [h1]; decide)
    · rename_i c1 cs1 heq2
      injection heq2 with h1 h2
      subst h1
      subst h2
      rw [show c0 :: (cs ++ r) = (c0 :: cs) ++ r from rfl]
      rw [cspan_append isTextChar (c0 :: cs) r ht hr]


theorem parseXAttrs_end (f : Nat) (rest : Str) :
    parseXAttrs (f + 1) ('>' :: rest) = .ok ([], rest, false) := by
  rw [parseXAttrs, skipWs_nonWs '>' _ (by decide)]
  rfl

theorem parseXAttrs_step (k0 : Char) (ks v r : Str) (f : Nat)
    (rAttrs : List (Str × Str)) (rrest : Str) (sc : Bool)
    (hk0 : isNameChar k0 = true) (hk0w : isXmlWs k0 = false)
    (hks : ∀ c ∈ ks, isNameChar c = true)
    (hv : ∀ c ∈ v, isAttrChar c = true)
    (hrec : parseXAttrs f r = .ok (rAttrs, rrest, sc)) :
    parseXAttrs (f + 1) (' ' :: ((k0 :: ks) ++ ('=' :: '"' :: (v ++ ('"' :: r)))))
      = .ok ((k0 :: ks, v) :: rAttrs, rrest, sc) := by
  rw [parseXAttrs]
  rw [show skipWs (' ' :: ((k0 :: ks) ++ ('=' :: '"' :: (v ++ ('"' :: r)))))
        = skipWs ((k0 :: ks) ++ ('=' :: '"' :: (v ++ ('"' :: r)))) from by
    unfold skipWs
    rw [cspan]
    simp [isXmlWs]]
  rw [show ((k0 :: ks) ++ ('=' :: '"' :: (v ++ ('"' :: r))))
        = k0 :: (ks ++ ('=' :: '"' :: (v ++ ('"' :: r)))) from rfl]
  rw [skipWs_nonWs k0 _ hk0w]
  split
  · rename_i r2 heq
    injection heq with h1 h2
    exact absurd hk0 (by rw [h1]; decide)
  · rename_i r2 heq
    injection heq with h1 h2
    exact absurd hk0 (by rw [h1]; decide)
  · rename_i c r2 heq
    injection heq with h1 h2
    subst h1
    subst h2
    rw [if_pos hk0]
    rw [show k0 :: (ks ++ ('=' :: '"' :: (v ++ ('"' :: r))))
          = (k0 :: ks) ++ ('=' :: '"' :: (v ++ ('"' :: r))) from rfl]
    have hall : ∀ c ∈ k0 :: ks, isNameChar c = true := by
      intro c hc
      rcases List.mem_cons.1 hc with h | h
      · rw [h]
        exact hk0
      · exact hks c h
    rw [cspan_append isNameChar (k0 :: ks) ('=' :: '"' :: (v ++ ('"' :: r)))
      hall (headRefutes _ _ '=' rfl (by decide))]
    show (match cspan isAttrChar (v ++ ('"' :: r)) with
          | (av, '"' :: r3) =>
            match parseXAttrs f r3 with
            | Except.ok (restAttrs, r4, sc2) => Except.ok ((k0 :: ks, av) :: restAttrs, r4, sc2)
            | Except.error e => Except.error e
          | _ => Except.error (strOf "malformed attribute value"))
        = Except.ok ((k0 :: ks, v) :: rAttrs, rrest, sc)
    rw [cspan_append isAttrChar v ('"' :: r) hv (headRefutes _ _ '"' rfl (by decide))]
    show (match parseXAttrs f r with
          | Except.ok (restAttrs, r4, sc2) => Except.ok ((k0 :: ks, v) :: restAttrs, r4, sc2)
          | Except.error e => Except.error e)
        = Except.ok ((k0 :: ks, v) :: rAttrs, rrest, sc)
    rw [hrec]
  · rename_i heq
    cases heq

theorem parseXNode_elem (t0 : Char) (tr s2 : Str) (f : Nat)
    (attrs : List (Str × Str)) (r2 : Str) (res : Except Str (XNode × Str))
    (htag : ∀ c ∈ t0 :: tr, isNameChar c = true)
    (hs2 : ∀ c, s2.head? = some c → isNameChar c = false)
    (hattrs : parseXAttrs f s2 = .ok (attrs, r2, false))
    (hcontent : parseXContent f (t0 :: tr) attrs [] [] false r2 = res) :
    parseXNode (f + 1) ('<' :: ((t0 :: tr) ++ s2)) = res := by
  rw [show ('<' :: ((t0 :: tr) ++ s2)) = '<' :: (t0 :: (tr ++ s2)) from rfl]
  rw [parseXNode]
  rw [show (t0 :: (tr ++ s2)) = (t0 :: tr) ++ s2 from rfl]
  rw [cspan_append isNameChar (t0 :: tr) s2 htag hs2]
  show (match parseXAttrs f s2 with
        | Except.error e => Except.error e
        | Except.ok (attrs2, r3, true) =>
          Except.ok ((⟨t0 :: tr, attrs2, [], []⟩ : XNode), r3)
        | Except.ok (attrs2, r3, false) => parseXContent f (t0 :: tr) attrs2 [] [] false r3)
      = res
  rw [hattrs, ← hcontent]


theorem parseXContent_child (tag : Str) (attrs : List (Str × Str)) (text : Str)
    (children : List XNode) (seen : Bool) (c1 : Char) (s1 : Str) (f : Nat)
    (child : XNode) (r2 : Str)
    (h1 : c1 ≠ '/') (h2 : c1 ≠ '!')
    (hchild : parseXNode f ('<' :: c1 :: s1) = .ok (child, r2)) :
    parseXContent (f + 1) tag attrs text children seen ('<' :: c1 :: s1)
      = parseXContent f tag attrs text (child :: children) true r2 := by
  rw [parseXContent.eq_def]
  split
  · omega
  · rename_i fuel1 fuel2 heq
    have hfe : fuel2 = f := by omega
    subst hfe
    split
    · rename_i heq2
      cases heq2
    · rename_i r3 heq2
      injection heq2 with ha hb
      injection hb with hb1 hb2
      exact absurd hb1 h1
    · rename_i r3 heq2
      injection heq2 with ha hb
      injection hb with hb1 hb2
      exact absurd hb1 h2
    · rename_i r3 heq2
      injection heq2 with ha hb
      subst hb
      rw [hchild]
    · rename_i r3 heq2
      injection heq2 with ha hb
      cases ha
    · rename_i c2 cs2 heq2
      injection heq2 with ha hb
      exact absurd ha.symm c2


structure SerChunk where
  lead : Str
  core : Str
  node : XNode
  need : Nat

def chunkOk (ch : SerChunk) : Prop :=
  (ch.lead ≠ [] ∧ ∀ c ∈ ch.lead, isTextChar c = true) ∧
  (∃ c1 s1, ch.core = '<' :: c1 :: s1 ∧ c1 ≠ '/' ∧ c1 ≠ '!') ∧
  (∀ f r, ch.need ≤ f → parseXNode f (ch.core ++ r) = .ok (ch.node, r))

def chunksStr : List SerChunk → Str
  | [] => []
  | ch :: rest => ch.lead ++ (ch.core ++ chunksStr rest)

def chunksText (text : Str) (seen : Bool) : List SerChunk → Str
  | [] => text
  | ch :: _ => if seen = true then text else text ++ ch.lead

theorem parseXContent_chunks (tag : Str) (attrs : List (Str × Str)) :
    ∀ (chunks : List SerChunk) (g : Nat) (text : Str) (children : List XNode) (seen : Bool)
      (tail : Str),
    (∀ ch ∈ chunks, chunkOk ch ∧ ch.need ≤ g) →
    parseXContent (g + 2 * chunks.length) tag attrs text children seen
        (chunksStr chunks ++ tail)
      = parseXContent g tag attrs (chunksText text seen chunks)
          ((chunks.map SerChunk.node).reverse ++ children) (seen || !chunks.isEmpty) tail := by
  intro chunks
  induction chunks with
  | nil =>
      intro g text children seen tail _
      simp [chunksStr, chunksText]
  | cons ch rest ih =>
      intro g text children seen tail hok
      obtain ⟨⟨hlead, hleadc⟩, ⟨c1, s1, hcore, hc1a, hc1b⟩, hparse⟩ := (hok ch (by simp)).1
      have hneed := (hok ch (by simp)).2
      rcases hl : ch.lead with _ | ⟨l0, ls⟩
      · exact absurd hl hlead
      · rw [show g + 2 * (ch :: rest).length = (g + 2 * rest.length + 1) + 1 from by
          simp [List.length_cons]
          omega]
        rw [show chunksStr (ch :: rest) ++ tail
              = (l0 :: ls) ++ (ch.core ++ (chunksStr rest ++ tail)) from by
            rw [chunksStr, hl]
            simp]
        rw [parseXContent_text tag attrs text children seen l0 ls
          (ch.core ++ (chunksStr rest ++ tail)) (g + 2 * rest.length + 1)
          (by rw [← hl]; exact hleadc)
          (by
            intro c hc
            rw [hcore] at hc
            rw [show (('<' :: c1 :: s1) ++ (chunksStr rest ++ tail)).head? = some '<' from rfl]
              at hc
            cases hc
            decide)]
        rw [show ch.core ++ (chunksStr rest ++ tail)
              = '<' :: c1 :: (s1 ++ (chunksStr rest ++ tail)) from by
            rw [hcore]
            simp]
        rw [show g + 2 * rest.length + 1 = (g + 2 * rest.length) + 1 from rfl]
        rw [parseXContent_child tag attrs _ children seen c1 (s1 ++ (chunksStr rest ++ tail))
          (g + 2 * rest.length) ch.node (chunksStr rest ++ tail) hc1a hc1b
          (by
            have hp := hparse (g + 2 * rest.length) (chunksStr rest ++ tail) (by omega)
            rw [hcore] at hp
            rw [show ('<' :: c1 :: s1) ++ (chunksStr rest ++ tail)
                  = '<' :: c1 :: (s1 ++ (chunksStr rest ++ tail)) from by simp] at hp
            exact hp)]
        rw [ih g (if seen = true then text else text ++ l0 :: ls)
          (ch.node :: children) true tail (fun c hc => hok c (by simp [hc]))]
        rw [show ((ch :: rest).map SerChunk.node).reverse ++ children
              = (rest.map SerChunk.node).reverse ++ (ch.node :: children) from by simp]
        rw [show chunksText (if seen = true then text else text ++ l0 :: ls) true rest
              = chunksText text seen (ch :: rest) from by
            rcases rest with _ | ⟨ch2, rest2⟩
            · rw [chunksText, chunksText, hl]
            · rw [chunksText, chunksText, hl]
              simp]
        rw [show (true || !rest.isEmpty) = (seen || !(ch :: rest).isEmpty) from by simp]


theorem splitCData_clean (dat r : Str) (hdat : ']' ∉ dat) :
    splitCData (dat ++ (strOf "]]>" ++ r)) = some (dat, r) := by
  have hfind : pyFind (dat ++ (strOf "]]>" ++ r)) (strOf "]]>") = some dat.length := by
    refine pyFind_of_min _ _ _ ?_ ?_
    · rw [List.drop_left]
      exact List.isPrefixOf_iff_prefix.2 (List.prefix_append _ _)
    · intro j hj hp
      rw [List.drop_append_eq_append_drop] at hp
      rcases hdj : dat.drop j with _ | ⟨d, ds⟩
      · have := congrArg List.length hdj
        simp at this
        omega
      · rw [hdj] at hp
        rw [show strOf "]]>" = ']' :: ']' :: '>' :: [] from rfl] at hp
        simp only [List.cons_append, List.isPrefixOf, Bool.and_eq_true, beq_iff_eq] at hp
        have hd : d ∈ dat := List.drop_subset j dat (by rw [hdj]; simp)
        rw [← hp.1] at hd
        exact hdat hd
  unfold splitCData
  rw [hfind]
  show some ((dat ++ (strOf "]]>" ++ r)).take dat.length,
      (dat ++ (strOf "]]>" ++ r)).drop (dat.length + 3)) = some (dat, r)
  rw [List.take_left, List.drop_append_eq_append_drop]
  rw [List.drop_eq_nil_of_le (by omega), Nat.add_sub_cancel_left]
  rw [show (strOf "]]>" ++ r).drop 3 = r from by
    rw [show (3 : Nat) = (strOf "]]>").length from rfl, List.drop_left]]
  rfl

theorem parseXContent_cdata (tag : Str) (attrs : List (Str × Str)) (text : Str)
    (children : List XNode) (seen : Bool) (dat r : Str) (f : Nat)
    (hdat : ']' ∉ dat) :
    parseXContent (f + 1) tag attrs text children seen
        ('<' :: '!' :: (strOf "[CDATA[" ++ (dat ++ (strOf "]]>" ++ r))))
      = parseXContent f tag attrs (if seen = true then text else text ++ dat)
          children seen r := by
  rw [parseXContent]
  show (if (strOf "[CDATA[").isPrefixOf (strOf "[CDATA[" ++ (dat ++ (strOf "]]>" ++ r))) = true
        then
          match splitCData ((strOf "[CDATA[" ++ (dat ++ (strOf "]]>" ++ r))).drop 7) with
          | some (dat2, r2) =>
            parseXContent f tag attrs (if seen = true then text else text ++ dat2)
              children seen r2
          | none => Except.error (strOf "unterminated CDATA section")
        else Except.error (strOf "unsupported markup"))
      = parseXContent f tag attrs (if seen = true then text else text ++ dat) children seen r
  rw [if_pos (show ((strOf "[CDATA[").isPrefixOf (strOf "[CDATA[" ++ (dat ++ (strOf "]]>" ++ r)))) = true from by
    rw [show strOf "[CDATA[" ++ (dat ++ (strOf "]]>" ++ r))
          = (strOf "[CDATA[" : Str) ++ (dat ++ (strOf "]]>" ++ r)) from rfl]
    exact isPrefixOf_append_left _ _ _ (List.isPrefixOf_iff_prefix.2 (List.prefix_refl _)))]
  rw [show ((strOf "[CDATA[" ++ (dat ++ (strOf "]]>" ++ r))).drop 7)
        = dat ++ (strOf "]]>" ++ r) from by
    rw [show (7 : Nat) = (strOf "[CDATA[").length from rfl, List.drop_left]]
  rw [splitCData_clean dat r hdat]

theorem parseXContent_textclose (tag : Str) (attrs : List (Str × Str)) (desc rest : Str)
    (f : Nat) (htag : ∀ c ∈ tag, isNameChar c = true)
    (hd : ∀ c ∈ desc, isTextChar c = true) :
    parseXContent (f + 2) tag attrs [] [] false (desc ++ ('<' :: '/' :: (tag ++ '>' :: rest)))
      = .ok (⟨tag, attrs, desc, []⟩, rest) := by
  rcases desc with _ | ⟨c0, cs⟩
  · show parseXContent ((f + 1) + 1) tag attrs [] [] false
        ('<' :: '/' :: (tag ++ '>' :: rest)) = _
    exact parseXContent_close tag attrs [] [] false rest (f + 1) htag
  · rw [show (f + 2) = (f + 1) + 1 from rfl]
    rw [parseXContent_text tag attrs [] [] false c0 cs
      ('<' :: '/' :: (tag ++ '>' :: rest)) (f + 1) hd
      (headRefutes _ _ '<' rfl (by decide))]
    show parseXContent (f + 1) tag attrs (c0 :: cs) [] false
        ('<' :: '/' :: (tag ++ '>' :: rest)) = _
    show parseXContent (f + 1) tag attrs (c0 :: cs) [] false
        ('<' :: '/' :: (tag ++ '>' :: rest))
      = Except.ok ((⟨tag, attrs, c0 :: cs, ([] : List XNode).reverse⟩ : XNode), rest)
    exact parseXContent_close tag attrs (c0 :: cs) [] false rest f htag

theorem parseXContent_wsclose (tag : Str) (attrs : List (Str × Str)) (text : Str)
    (children : List XNode) (seen : Bool) (w0 : Char) (ws rest : Str) (f : Nat)
    (hw : ∀ c ∈ w0 :: ws, isTextChar c = true)
    (htag : ∀ c ∈ tag, isNameChar c = true) :
    parseXContent (f + 2) tag attrs text children seen
        ((w0 :: ws) ++ ('<' :: '/' :: (tag ++ '>' :: rest)))
      = .ok (⟨tag, attrs, if seen = true then text else text ++ (w0 :: ws),
          children.reverse⟩, rest) := by
  rw [show (f + 2) = (f + 1) + 1 from rfl]
  rw [parseXContent_text tag attrs text children seen w0 ws
    ('<' :: '/' :: (tag ++ '>' :: rest)) (f + 1) hw
    (headRefutes _ _ '<' rfl (by decide))]
  exact parseXContent_close tag attrs _ children seen rest f htag


def elemCore (tag : Str) (chunks : List SerChunk) (closeLead : Str) : Str :=
  '<' :: (tag ++ ('>' :: (chunksStr chunks ++ (closeLead ++ ('<' :: '/' :: (tag ++ ['>']))))))

def elemText (chunks : List SerChunk) (closeLead : Str) : Str :=
  match chunks with
  | [] => closeLead
  | ch :: _ => ch.lead

theorem parse_elem_chunks (t0 : Char) (tr : Str) (chunks : List SerChunk)
    (w0 : Char) (ws : Str) (N : Nat)
    (htag : ∀ c ∈ t0 :: tr, isNameChar c = true)
    (hw : ∀ c ∈ w0 :: ws, isTextChar c = true)
    (hch : ∀ ch ∈ chunks, chunkOk ch ∧ ch.need ≤ N) :
    ∀ (f : Nat) (rest : Str), 2 * chunks.length + N + 4 ≤ f →
    parseXNode f (elemCore (t0 :: tr) chunks (w0 :: ws) ++ rest)
      = .ok (⟨t0 :: tr, [], elemText chunks (w0 :: ws), chunks.map SerChunk.node⟩, rest) := by
  intro f rest hf
  obtain ⟨F, rfl⟩ : ∃ F, f = F + 1 := ⟨f - 1, by omega⟩
  have hcore : elemCore (t0 :: tr) chunks (w0 :: ws) ++ rest
      = '<' :: ((t0 :: tr) ++ ('>' :: (chunksStr chunks ++
          ((w0 :: ws) ++ ('<' :: '/' :: ((t0 :: tr) ++ '>' :: rest)))))) := by
    unfold elemCore
    simp
  obtain ⟨g, hg⟩ : ∃ g, F = g + 2 * chunks.length ∧ N ≤ g ∧ 2 ≤ g :=
    ⟨F - 2 * chunks.length, by omega, by omega, by omega⟩
  obtain ⟨hgF, hgN, hg2⟩ := hg
  obtain ⟨g2, hg2e⟩ : ∃ g2, g = g2 + 2 := ⟨g - 2, by omega⟩
  rw [hcore]
  obtain ⟨F1, hF1⟩ : ∃ F1, F = F1 + 1 := ⟨F - 1, by omega⟩
  refine parseXNode_elem t0 tr
    ('>' :: (chunksStr chunks ++ ((w0 :: ws) ++ ('<' :: '/' :: ((t0 :: tr) ++ '>' :: rest)))))
    F []
    (chunksStr chunks ++ ((w0 :: ws) ++ ('<' :: '/' :: ((t0 :: tr) ++ '>' :: rest))))
    _
    htag (headRefutes _ _ '>' rfl (by decide)) ?_ ?_
  · rw [hF1]
    exact parseXAttrs_end F1 _
  · rw [hgF]
    rw [parseXContent_chunks (t0 :: tr) [] chunks g [] [] false
      ((w0 :: ws) ++ ('<' :: '/' :: ((t0 :: tr) ++ '>' :: rest)))
      (fun ch hc => ⟨(hch ch hc).1, le_trans (hch ch hc).2 hgN⟩)]
    rw [hg2e]
    rw [parseXContent_wsclose (t0 :: tr) [] (chunksText [] false chunks)
      ((chunks.map SerChunk.node).reverse ++ []) (false || !chunks.isEmpty) w0 ws rest g2
      hw htag]
    rcases chunks with _ | ⟨c0, crest⟩
    · simp [elemText, chunksText]
    · simp [elemText, chunksText]

theorem parse_bottleneck_chunk (ty sv de : Str)
    (hty : ∀ c ∈ ty, isAttrChar c = true) (hsv : ∀ c ∈ sv, isAttrChar c = true)
    (hde : ∀ c ∈ de, isTextChar c = true) :
    ∀ (f : Nat) (rest : Str), 6 ≤ f →
    parseXNode f (('<' :: ((strOf "bottleneck") ++ (' ' :: ((strOf "type") ++ ('=' :: ('"' :: ((ty) ++ ('"' :: (' ' :: ((strOf "severity") ++ ('=' :: ('"' :: ((sv) ++ ('"' :: ('>' :: ((de) ++ (strOf "</bottleneck>"))))))))))))))))) ++ rest)
      = .ok (⟨strOf "bottleneck", [(strOf "type", ty), (strOf "severity", sv)], de, []⟩,
          rest) := by
  intro f rest hf
  obtain ⟨g, rfl⟩ : ∃ g, f = g + 6 := ⟨f - 6, by omega⟩
  have hsh : ('<' :: ((strOf "bottleneck") ++ (' ' :: ((strOf "type") ++ ('=' :: ('"' :: ((ty) ++ ('"' :: (' ' :: ((strOf "severity") ++ ('=' :: ('"' :: ((sv) ++ ('"' :: ('>' :: ((de) ++ (strOf "</bottleneck>"))))))))))))))))) ++ rest
      = '<' :: ((strOf "bottleneck") ++ (' ' :: ((strOf "type") ++ ('=' :: ('"' :: ((ty) ++ ('"' :: (' ' :: ((strOf "severity") ++ ('=' :: ('"' :: ((sv) ++ ('"' :: ('>' :: ((de) ++ ((strOf "</bottleneck>") ++ (rest))))))))))))))))) := by
    simp
  rw [hsh]
  refine parseXNode_elem 'b' (strOf "ottleneck")
    (' ' :: ((strOf "type") ++ ('=' :: ('"' :: ((ty) ++ ('"' :: (' ' :: ((strOf "severity") ++ ('=' :: ('"' :: ((sv) ++ ('"' :: ('>' :: ((de) ++ ((strOf "</bottleneck>") ++ (rest))))))))))))))))
    (g + 5)
    [(strOf "type", ty), (strOf "severity", sv)]
    ((de) ++ ((strOf "</bottleneck>") ++ (rest)))
    _ (by decide) (headRefutes _ _ ' ' rfl (by decide)) ?_ ?_
  · exact parseXAttrs_step 't' (strOf "ype") ty
      (' ' :: ((strOf "severity") ++ ('=' :: ('"' :: ((sv) ++ ('"' :: ('>' :: ((de) ++ ((strOf "</bottleneck>") ++ (rest))))))))))
      (g + 4) [(strOf "severity", sv)] ((de) ++ ((strOf "</bottleneck>") ++ (rest))) false
      (by decide) (by decide) (by decide) hty
      (parseXAttrs_step 's' (strOf "everity") sv
        ('>' :: ((de) ++ ((strOf "</bottleneck>") ++ (rest))))
        (g + 3) [] ((de) ++ ((strOf "</bottleneck>") ++ (rest))) false
        (by decide) (by decide) (by decide) hsv
        (parseXAttrs_end (g + 2) ((de) ++ ((strOf "</bottleneck>") ++ (rest)))))
  · show parseXContent ((g + 3) + 2) ('b' :: strOf "ottleneck")
        [(strOf "type", ty), (strOf "severity", sv)] [] [] false
        ((de) ++ ('<' :: '/' :: (('b' :: strOf "ottleneck") ++ '>' :: rest)))
      = Except.ok ((⟨'b' :: strOf "ottleneck",
          [(strOf "type", ty), (strOf "severity", sv)], de, []⟩ : XNode), rest)
    exact parseXContent_textclose ('b' :: strOf "ottleneck")
      [(strOf "type", ty), (strOf "severity", sv)] de rest (g + 3) (by decide) hde


theorem parse_rootcause_chunk (ty de : Str)
    (hty : ∀ c ∈ ty, isAttrChar c = true)
    (hde : ∀ c ∈ de, isTextChar c = true) :
    ∀ (f : Nat) (rest : Str), 5 ≤ f →
    parseXNode f (('<' :: ((strOf "root_cause") ++ (' ' :: ((strOf "type") ++ ('=' :: ('"' :: ((ty) ++ ('"' :: ('>' :: ((de) ++ (strOf "</root_cause>"))))))))))) ++ rest)
      = .ok (⟨strOf "root_cause", [(strOf "type", ty)], de, []⟩, rest) := by
  intro f rest hf
  obtain ⟨g, rfl⟩ : ∃ g, f = g + 5 := ⟨f - 5, by omega⟩
  have hsh : ('<' :: ((strOf "root_cause") ++ (' ' :: ((strOf "type") ++ ('=' :: ('"' :: ((ty) ++ ('"' :: ('>' :: ((de) ++ (strOf "</root_cause>"))))))))))) ++ rest
      = '<' :: ((strOf "root_cause") ++ (' ' :: ((strOf "type") ++ ('=' :: ('"' :: ((ty) ++ ('"' :: ('>' :: ((de) ++ ((strOf "</root_cause>") ++ (rest))))))))))) := by
    simp
  rw [hsh]
  refine parseXNode_elem 'r' (strOf "oot_cause")
    (' ' :: ((strOf "type") ++ ('=' :: ('"' :: ((ty) ++ ('"' :: ('>' :: ((de) ++ ((strOf "</root_cause>") ++ (rest))))))))))
    (g + 4)
    [(strOf "type", ty)]
    ((de) ++ ((strOf "</root_cause>") ++ (rest)))
    _ (by decide) (headRefutes _ _ ' ' rfl (by decide)) ?_ ?_
  · exact (parseXAttrs_step 't' (strOf "ype") ty
        ('>' :: ((de) ++ ((strOf "</root_cause>") ++ (rest))))
        (g + 3) [] ((de) ++ ((strOf "</root_cause>") ++ (rest))) false
        (by decide) (by decide) (by decide) hty
        (parseXAttrs_end (g + 2) ((de) ++ ((strOf "</root_cause>") ++ (rest)))))
  · show parseXContent ((g + 2) + 2) ('r' :: strOf "oot_cause")
        [(strOf "type", ty)] [] [] false
        ((de) ++ ('<' :: '/' :: (('r' :: strOf "oot_cause") ++ '>' :: rest)))
      = Except.ok ((⟨'r' :: strOf "oot_cause",
          [(strOf "type", ty)], de, []⟩ : XNode), rest)
    exact parseXContent_textclose ('r' :: strOf "oot_cause")
      [(strOf "type", ty)] de rest (g + 2) (by decide) hde

theorem parse_recommendation_chunk (ty pr de : Str)
    (hty : ∀ c ∈ ty, isAttrChar c = true)
    (hpr : ∀ c ∈ pr, isAttrChar c = true)
    (hde : ∀ c ∈ de, isTextChar c = true) :
    ∀ (f : Nat) (rest : Str), 6 ≤ f →
    parseXNode f (('<' :: ((strOf "recommendation") ++ (' ' :: ((strOf "type") ++ ('=' :: ('"' :: ((ty) ++ ('"' :: (' ' :: ((strOf "priority") ++ ('=' :: ('"' :: ((pr) ++ ('"' :: ('>' :: ((de) ++ (strOf "</recommendation>"))))))))))))))))) ++ rest)
      = .ok (⟨strOf "recommendation", [(strOf "type", ty), (strOf "priority", pr)], de, []⟩, rest) := by
  intro f rest hf
  obtain ⟨g, rfl⟩ : ∃ g, f = g + 6 := ⟨f - 6, by omega⟩
  have hsh : ('<' :: ((strOf "recommendation") ++ (' ' :: ((strOf "type") ++ ('=' :: ('"' :: ((ty) ++ ('"' :: (' ' :: ((strOf "priority") ++ ('=' :: ('"' :: ((pr) ++ ('"' :: ('>' :: ((de) ++ (strOf "</recommendation>"))))))))))))))))) ++ rest
      = '<' :: ((strOf "recommendation") ++ (' ' :: ((strOf "type") ++ ('=' :: ('"' :: ((ty) ++ ('"' :: (' ' :: ((strOf "priority") ++ ('=' :: ('"' :: ((pr) ++ ('"' :: ('>' :: ((de) ++ ((strOf "</recommendation>") ++ (rest))))))))))))))))) := by
    simp
  rw [hsh]
  refine parseXNode_elem 'r' (strOf "ecommendation")
    (' ' :: ((strOf "type") ++ ('=' :: ('"' :: ((ty) ++ ('"' :: (' ' :: ((strOf "priority") ++ ('=' :: ('"' :: ((pr) ++ ('"' :: ('>' :: ((de) ++ ((strOf "</recommendation>") ++ (rest))))))))))))))))
    (g + 5)
    [(strOf "type", ty), (strOf "priority", pr)]
    ((de) ++ ((strOf "</recommendation>") ++ (rest)))
    _ (by decide) (headRefutes _ _ ' ' rfl (by decide)) ?_ ?_
  · exact (parseXAttrs_step 't' (strOf "ype") ty
        (' ' :: ((strOf "priority") ++ ('=' :: ('"' :: ((pr) ++ ('"' :: ('>' :: ((de) ++ ((strOf "</recommendation>") ++ (rest))))))))))
        (g + 4) [(strOf "priority", pr)] ((de) ++ ((strOf "</recommendation>") ++ (rest))) false
        (by decide) (by decide) (by decide) hty
        (parseXAttrs_step 'p' (strOf "riority") pr
        ('>' :: ((de) ++ ((strOf "</recommendation>") ++ (rest))))
        (g + 3) [] ((de) ++ ((strOf "</recommendation>") ++ (rest))) false
        (by decide) (by decide) (by decide) hpr
        (parseXAttrs_end (g + 2) ((de) ++ ((strOf "</recommendation>") ++ (rest))))))
  · show parseXContent ((g + 3) + 2) ('r' :: strOf "ecommendation")
        [(strOf "type", ty), (strOf "priority", pr)] [] [] false
        ((de) ++ ('<' :: '/' :: (('r' :: strOf "ecommendation") ++ '>' :: rest)))
      = Except.ok ((⟨'r' :: strOf "ecommendation",
          [(strOf "type", ty), (strOf "priority", pr)], de, []⟩ : XNode), rest)
    exact parseXContent_textclose ('r' :: strOf "ecommendation")
      [(strOf "type", ty), (strOf "priority", pr)] de rest (g + 3) (by decide) hde


theorem parse_comment_core (cm rest : Str) (hc : ∀ c ∈ cm, isTextChar c = true) (f : Nat) :
    parseXNode (f + 4) ('<' :: (strOf "comment" ++ ('>' :: (cm ++ (strOf "</comment>" ++ rest)))))
      = .ok (⟨strOf "comment", [], cm, []⟩, rest) := by
  rw [parseXNode]
  rw [cspan_append isNameChar (strOf "comment") ('>' :: (cm ++ (strOf "</comment>" ++ rest)))
    (by decide) (headRefutes _ _ '>' rfl (by decide))]
  show (match parseXAttrs (f + 3) ('>' :: (cm ++ (strOf "</comment>" ++ rest))) with
        | Except.error e => Except.error e
        | Except.ok (attrs, r2, true) =>
          Except.ok (⟨strOf "comment", attrs, [], []⟩, r2)
        | Except.ok (attrs, r2, false) =>
          parseXContent (f + 3) (strOf "comment") attrs [] [] false r2)
      = Except.ok (⟨strOf "comment", [], cm, []⟩, rest)
  rw [show parseXAttrs (f + 3) ('>' :: (cm ++ (strOf "</comment>" ++ rest)))
        = Except.ok ([], cm ++ (strOf "</comment>" ++ rest), false) from by
    rw [parseXAttrs, skipWs_nonWs '>' _ (by decide)]
    rfl]
  show parseXContent (f + 3) (strOf "comment") [] [] [] false
        (cm ++ (strOf "</comment>" ++ rest))
      = Except.ok (⟨strOf "comment", [], cm, []⟩, rest)
  rcases cm with _ | ⟨c0, cs⟩
  · show parseXContent ((f + 2) + 1) (strOf "comment") [] [] [] false
        ('<' :: '/' :: (strOf "comment" ++ '>' :: rest))
      = Except.ok (⟨strOf "comment", [], [], []⟩, rest)
    exact parseXContent_close (strOf "comment") [] [] [] false rest (f + 2) (by decide)
  · show parseXContent ((f + 2) + 1) (strOf "comment") [] [] [] false
        ((c0 :: cs) ++ (strOf "</comment>" ++ rest))
      = Except.ok (⟨strOf "comment", [], c0 :: cs, []⟩, rest)
    rw [parseXContent_text (strOf "comment") [] [] [] false c0 cs
      (strOf "</comment>" ++ rest) (f + 2) hc (headRefutes _ _ '<' rfl (by decide))]
    show parseXContent ((f + 1) + 1) (strOf "comment") [] (c0 :: cs) [] false
        ('<' :: '/' :: (strOf "comment" ++ '>' :: rest))
      = Except.ok (⟨strOf "comment", [], c0 :: cs, []⟩, rest)
    exact parseXContent_close (strOf "comment") [] (c0 :: cs) [] false rest (f + 1) (by decide)

theorem parse_comment_chunk (cm : Str) (hc : ∀ c ∈ cm, isTextChar c = true) :
    ∀ (f : Nat) (rest : Str), 4 ≤ f →
    parseXNode f (('<' :: (strOf "comment" ++ ('>' :: ((cm) ++ (strOf "</comment>"))))) ++ rest)
      = .ok (⟨strOf "comment", [], cm, []⟩, rest) := by
  intro f rest hf
  obtain ⟨g, rfl⟩ : ∃ g, f = g + 4 := ⟨f - 4, by omega⟩
  have hsh : ('<' :: (strOf "comment" ++ ('>' :: ((cm) ++ (strOf "</comment>"))))) ++ rest
      = '<' :: (strOf "comment" ++ ('>' :: (cm ++ (strOf "</comment>" ++ rest)))) := by
    simp
  rw [hsh]
  exact parse_comment_core cm rest hc g

theorem parse_reasoning_chunk (rsn : Str) (hr : ']' ∉ rsn) :
    ∀ (f : Nat) (rest : Str), 5 ≤ f →
    parseXNode f
      (('<' :: (strOf "reasoning" ++ ('>' :: (('\n' :: (strOf "    " ++
        ('<' :: '!' :: (strOf "[CDATA[" ++ (('\n' :: (rsn ++ ('\n' :: strOf "    "))) ++
          (strOf "]]>" ++ ('\n' :: (strOf "  " ++ strOf "</reasoning>"))))))))))))
        ++ rest)
      = .ok (⟨strOf "reasoning", [],
          (('\n' :: strOf "    ") ++ ('\n' :: (rsn ++ ('\n' :: strOf "    ")))) ++
            ('\n' :: strOf "  "), []⟩, rest) := by
  intro f rest hf
  obtain ⟨g, rfl⟩ : ∃ g, f = g + 5 := ⟨f - 5, by omega⟩
  have hdat : ']' ∉ '\n' :: (rsn ++ ('\n' :: strOf "    ")) := by
    intro hm
    rcases List.mem_cons.1 hm with h | h
    · cases h
    · rcases List.mem_append.1 h with h2 | h2
      · exact hr h2
      · rcases List.mem_cons.1 h2 with h3 | h3
        · cases h3
        · exact absurd h3 (by decide)
  have hsh : ('<' :: (strOf "reasoning" ++ ('>' :: (('\n' :: (strOf "    " ++
        ('<' :: '!' :: (strOf "[CDATA[" ++ (('\n' :: (rsn ++ ('\n' :: strOf "    "))) ++
          (strOf "]]>" ++ ('\n' :: (strOf "  " ++ strOf "</reasoning>")))))))))))) ++ rest
      = '<' :: ((strOf "reasoning") ++ ('>' :: (('\n' :: strOf "    ") ++
          ('<' :: '!' :: (strOf "[CDATA[" ++ (('\n' :: (rsn ++ ('\n' :: strOf "    "))) ++
            (strOf "]]>" ++ (('\n' :: strOf "  ") ++
              ('<' :: '/' :: ((strOf "reasoning") ++ '>' :: rest)))))))))) := by
    rw [show (strOf "</reasoning>" : Str) = '<' :: '/' :: (strOf "reasoning" ++ ['>']) from rfl]
    simp
  rw [hsh]
  refine parseXNode_elem 'r' (strOf "easoning")
    ('>' :: (('\n' :: strOf "    ") ++
      ('<' :: '!' :: (strOf "[CDATA[" ++ (('\n' :: (rsn ++ ('\n' :: strOf "    "))) ++
        (strOf "]]>" ++ (('\n' :: strOf "  ") ++
          ('<' :: '/' :: ((strOf "reasoning") ++ '>' :: rest)))))))))
    (g + 4) []
    (('\n' :: strOf "    ") ++
      ('<' :: '!' :: (strOf "[CDATA[" ++ (('\n' :: (rsn ++ ('\n' :: strOf "    "))) ++
        (strOf "]]>" ++ (('\n' :: strOf "  ") ++
          ('<' :: '/' :: ((strOf "reasoning") ++ '>' :: rest))))))))
    _ (by decide) (headRefutes _ _ '>' rfl (by decide)) ?_ ?_
  · exact parseXAttrs_end (g + 3) _
  · rw [show g + 4 = (g + 3) + 1 from rfl]
    rw [parseXContent_text ('r' :: strOf "easoning") [] [] [] false '\n' (strOf "    ")
      ('<' :: '!' :: (strOf "[CDATA[" ++ (('\n' :: (rsn ++ ('\n' :: strOf "    "))) ++
        (strOf "]]>" ++ (('\n' :: strOf "  ") ++
          ('<' :: '/' :: ((strOf "reasoning") ++ '>' :: rest)))))))
      (g + 2 + 1) (by decide) (headRefutes _ _ '<' rfl (by decide))]
    rw [show g + 2 + 1 = (g + 2) + 1 from rfl]
    rw [parseXContent_cdata ('r' :: strOf "easoning") [] _ [] false
      ('\n' :: (rsn ++ ('\n' :: strOf "    ")))
      (('\n' :: strOf "  ") ++ ('<' :: '/' :: ((strOf "reasoning") ++ '>' :: rest)))
      (g + 2) hdat]
    exact parseXContent_wsclose (strOf "reasoning") [] _ [] false '\n' (strOf "  ")
      rest g (by decide) (by decide)


/-- Serialized form of one bottleneck line body (after the indent). -/
def bnCore (b : Bottleneck) : Str :=
  '<' :: ((strOf "bottleneck") ++ (' ' :: ((strOf "type") ++ ('=' :: ('"' :: ((b.btype) ++ ('"' :: (' ' :: ((strOf "severity") ++ ('=' :: ('"' :: ((b.severity) ++ ('"' :: ('>' :: ((b.description) ++ (strOf "</bottleneck>"))))))))))))))))

/-- The parsed element for one bottleneck. -/
def bnNode (b : Bottleneck) : XNode :=
  ⟨strOf "bottleneck", [(strOf "type", b.btype), (strOf "severity", b.severity)], b.description, []⟩

/-- The bottleneck line as a chunk of its section. -/
def bnChunk (b : Bottleneck) : SerChunk :=
  ⟨'\n' :: strOf "    ", bnCore b, bnNode b, 6⟩

theorem bnChunk_ok (b : Bottleneck)
    (h1 : ∀ c ∈ b.btype, isAttrChar c = true) (h2 : ∀ c ∈ b.severity, isAttrChar c = true) (h3 : ∀ c ∈ b.description, isTextChar c = true) :
    chunkOk (bnChunk b) := by
  refine ⟨(show ('\n' :: strOf "    " : Str) ≠ [] ∧ ∀ c ∈ ('\n' :: strOf "    " : Str), isTextChar c = true by decide), ⟨'b', ((bnChunk b).core.tail.tail), rfl, by decide, by decide⟩, ?_⟩
  intro f r hf
  exact parse_bottleneck_chunk b.btype b.severity b.description h1 h2 h3 f r hf


/-- Serialized form of one root_cause line body (after the indent). -/
def rcCore (b : RootCause) : Str :=
  '<' :: ((strOf "root_cause") ++ (' ' :: ((strOf "type") ++ ('=' :: ('"' :: ((b.ctype) ++ ('"' :: ('>' :: ((b.description) ++ (strOf "</root_cause>"))))))))))

/-- The parsed element for one root_cause. -/
def rcNode (b : RootCause) : XNode :=
  ⟨strOf "root_cause", [(strOf "type", b.ctype)], b.description, []⟩

/-- The root_cause line as a chunk of its section. -/
def rcChunk (b : RootCause) : SerChunk :=
  ⟨'\n' :: strOf "    ", rcCore b, rcNode b, 5⟩

theorem rcChunk_ok (b : RootCause)
    (h1 : ∀ c ∈ b.ctype, isAttrChar c = true) (h3 : ∀ c ∈ b.description, isTextChar c = true) :
    chunkOk (rcChunk b) := by
  refine ⟨(show ('\n' :: strOf "    " : Str) ≠ [] ∧ ∀ c ∈ ('\n' :: strOf "    " : Str), isTextChar c = true by decide), ⟨'r', ((rcChunk b).core.tail.tail), rfl, by decide, by decide⟩, ?_⟩
  intro f r hf
  exact parse_rootcause_chunk b.ctype b.description h1 h3 f r hf


/-- Serialized form of one recommendation line body (after the indent). -/
def recCore (b : Recommendation) : Str :=
  '<' :: ((strOf "recommendation") ++ (' ' :: ((strOf "type") ++ ('=' :: ('"' :: ((b.rtype) ++ ('"' :: (' ' :: ((strOf "priority") ++ ('=' :: ('"' :: ((b.priority) ++ ('"' :: ('>' :: ((b.description) ++ (strOf "</recommendation>"))))))))))))))))

/-- The parsed element for one recommendation. -/
def recNode (b : Recommendation) : XNode :=
  ⟨strOf "recommendation", [(strOf "type", b.rtype), (strOf "priority", b.priority)], b.description, []⟩

/-- The recommendation line as a chunk of its section. -/
def recChunk (b : Recommendation) : SerChunk :=
  ⟨'\n' :: strOf "    ", recCore b, recNode b, 6⟩

theorem recChunk_ok (b : Recommendation)
    (h1 : ∀ c ∈ b.rtype, isAttrChar c = true) (h2 : ∀ c ∈ b.priority, isAttrChar c = true) (h3 : ∀ c ∈ b.description, isTextChar c = true) :
    chunkOk (recChunk b) := by
  refine ⟨(show ('\n' :: strOf "    " : Str) ≠ [] ∧ ∀ c ∈ ('\n' :: strOf "    " : Str), isTextChar c = true by decide), ⟨'r', ((recChunk b).core.tail.tail), rfl, by decide, by decide⟩, ?_⟩
  intro f r hf
  exact parse_recommendation_chunk b.rtype b.priority b.description h1 h2 h3 f r hf


/-- Serialized form of one comment line body. -/
def cmCore (cm : Str) : Str :=
  '<' :: ((strOf "comment") ++ ('>' :: ((cm) ++ (strOf "</comment>"))))

/-- The parsed element for one comment. -/
def cmNode (cm : Str) : XNode := ⟨strOf "comment", [], cm, []⟩

/-- The comment line as a chunk of its section. -/
def cmChunk (cm : Str) : SerChunk := ⟨'\n' :: strOf "    ", cmCore cm, cmNode cm, 4⟩

theorem cmChunk_ok (cm : Str) (h3 : ∀ c ∈ cm, isTextChar c = true) :
    chunkOk (cmChunk cm) := by
  refine ⟨(show ('\n' :: strOf "    " : Str) ≠ [] ∧ ∀ c ∈ ('\n' :: strOf "    " : Str), isTextChar c = true by decide), ⟨'c', ((cmChunk cm).core.tail.tail), rfl, by decide, by decide⟩, ?_⟩
  intro f r hf
  exact parse_comment_chunk cm h3 f r hf


/-- Serialized reasoning element (CDATA-wrapped). -/
def rsCore (rsn : Str) : Str :=
  '<' :: (strOf "reasoning" ++ ('>' :: (('\n' :: (strOf "    " ++
    ('<' :: '!' :: (strOf "[CDATA[" ++ (('\n' :: (rsn ++ ('\n' :: strOf "    "))) ++
      (strOf "]]>" ++ ('\n' :: (strOf "  " ++ strOf "</reasoning>")))))))))))

/-- The parsed reasoning element. -/
def rsNode (rsn : Str) : XNode :=
  ⟨strOf "reasoning", [],
    (('\n' :: strOf "    ") ++ ('\n' :: (rsn ++ ('\n' :: strOf "    ")))) ++
      ('\n' :: strOf "  "), []⟩

/-- The reasoning section as a chunk of the document. -/
def rsChunk (rsn : Str) : SerChunk := ⟨'\n' :: strOf "  ", rsCore rsn, rsNode rsn, 5⟩

theorem rsChunk_ok (rsn : Str) (hr : ']' ∉ rsn) : chunkOk (rsChunk rsn) := by
  refine ⟨(show ('\n' :: strOf "  " : Str) ≠ [] ∧ ∀ c ∈ ('\n' :: strOf "  " : Str), isTextChar c = true by decide), ⟨'r', ((rsChunk rsn).core.tail.tail), rfl, by decide, by decide⟩, ?_⟩
  intro f r hf
  exact parse_reasoning_chunk rsn hr f r hf


/-- The bottlenecks section as a chunk of the document. -/
def bnSectionChunk (bs : List Bottleneck) : SerChunk :=
  ⟨'\n' :: strOf "  ",
   elemCore (strOf "bottlenecks") (bs.map bnChunk) ('\n' :: strOf "  "),
   ⟨strOf "bottlenecks", [], elemText (bs.map bnChunk) ('\n' :: strOf "  "),
     (bs.map bnChunk).map SerChunk.node⟩,
   2 * bs.length + 10⟩

theorem bnSectionChunk_ok (bs : List Bottleneck)
    (hbs : ∀ b ∈ bs, (∀ c ∈ b.btype, isAttrChar c = true) ∧ (∀ c ∈ b.severity, isAttrChar c = true) ∧ (∀ c ∈ b.description, isTextChar c = true)) :
    chunkOk (bnSectionChunk bs) := by
  refine ⟨(show ('\n' :: strOf "  " : Str) ≠ [] ∧ ∀ c ∈ ('\n' :: strOf "  " : Str), isTextChar c = true by decide), ⟨'b', ((bnSectionChunk bs).core.tail.tail), rfl, by decide, by decide⟩, ?_⟩
  intro f r hf
  refine parse_elem_chunks 'b' (strOf "ottlenecks") (bs.map bnChunk) '\n' (strOf "  ") 6
    (by decide) (by decide) ?_ f r ?_
  · intro ch hch
    obtain ⟨b, hb, rfl⟩ := List.mem_map.1 hch
    exact ⟨bnChunk_ok b (hbs b hb).1 (hbs b hb).2.1 (hbs b hb).2.2, by simp [bnChunk]; try omega⟩
  · rw [List.length_map]
    simp [bnSectionChunk] at hf
    omega


/-- The root_causes section as a chunk of the document. -/
def rcSectionChunk (bs : List RootCause) : SerChunk :=
  ⟨'\n' :: strOf "  ",
   elemCore (strOf "root_causes") (bs.map rcChunk) ('\n' :: strOf "  "),
   ⟨strOf "root_causes", [], elemText (bs.map rcChunk) ('\n' :: strOf "  "),
     (bs.map rcChunk).map SerChunk.node⟩,
   2 * bs.length + 10⟩

theorem rcSectionChunk_ok (bs : List RootCause)
    (hbs : ∀ b ∈ bs, (∀ c ∈ b.ctype, isAttrChar c = true) ∧ (∀ c ∈ b.description, isTextChar c = true)) :
    chunkOk (rcSectionChunk bs) := by
  refine ⟨(show ('\n' :: strOf "  " : Str) ≠ [] ∧ ∀ c ∈ ('\n' :: strOf "  " : Str), isTextChar c = true by decide), ⟨'r', ((rcSectionChunk bs).core.tail.tail), rfl, by decide, by decide⟩, ?_⟩
  intro f r hf
  refine parse_elem_chunks 'r' (strOf "oot_causes") (bs.map rcChunk) '\n' (strOf "  ") 6
    (by decide) (by decide) ?_ f r ?_
  · intro ch hch
    obtain ⟨b, hb, rfl⟩ := List.mem_map.1 hch
    exact ⟨rcChunk_ok b (hbs b hb).1 (hbs b hb).2, by simp [rcChunk]; try omega⟩
  · rw [List.length_map]
    simp [rcSectionChunk] at hf
    omega


/-- The recommendations section as a chunk of the document. -/
def recSectionChunk (bs : List Recommendation) : SerChunk :=
  ⟨'\n' :: strOf "  ",
   elemCore (strOf "recommendations") (bs.map recChunk) ('\n' :: strOf "  "),
   ⟨strOf "recommendations", [], elemText (bs.map recChunk) ('\n' :: strOf "  "),
     (bs.map recChunk).map SerChunk.node⟩,
   2 * bs.length + 10⟩

theorem recSectionChunk_ok (bs : List Recommendation)
    (hbs : ∀ b ∈ bs, (∀ c ∈ b.rtype, isAttrChar c = true) ∧ (∀ c ∈ b.priority, isAttrChar c = true) ∧ (∀ c ∈ b.description, isTextChar c = true)) :
    chunkOk (recSectionChunk bs) := by
  refine ⟨(show ('\n' :: strOf "  " : Str) ≠ [] ∧ ∀ c ∈ ('\n' :: strOf "  " : Str), isTextChar c = true by decide), ⟨'r', ((recSectionChunk bs).core.tail.tail), rfl, by decide, by decide⟩, ?_⟩
  intro f r hf
  refine parse_elem_chunks 'r' (strOf "ecommendations") (bs.map recChunk) '\n' (strOf "  ") 6
    (by decide) (by decide) ?_ f r ?_
  · intro ch hch
    obtain ⟨b, hb, rfl⟩ := List.mem_map.1 hch
    exact ⟨recChunk_ok b (hbs b hb).1 (hbs b hb).2.1 (hbs b hb).2.2, by simp [recChunk]; try omega⟩
  · rw [List.length_map]
    simp [recSectionChunk] at hf
    omega


/-- The comments section as a chunk of the document. -/
def cmSectionChunk (bs : List Str) : SerChunk :=
  ⟨'\n' :: strOf "  ",
   elemCore (strOf "comments") (bs.map cmChunk) ('\n' :: strOf "  "),
   ⟨strOf "comments", [], elemText (bs.map cmChunk) ('\n' :: strOf "  "),
     (bs.map cmChunk).map SerChunk.node⟩,
   2 * bs.length + 10⟩

theorem cmSectionChunk_ok (bs : List Str)
    (hbs : ∀ b ∈ bs, ∀ c ∈ b, isTextChar c = true) :
    chunkOk (cmSectionChunk bs) := by
  refine ⟨(show ('\n' :: strOf "  " : Str) ≠ [] ∧ ∀ c ∈ ('\n' :: strOf "  " : Str), isTextChar c = true by decide), ⟨'c', ((cmSectionChunk bs).core.tail.tail), rfl, by decide, by decide⟩, ?_⟩
  intro f r hf
  refine parse_elem_chunks 'c' (strOf "omments") (bs.map cmChunk) '\n' (strOf "  ") 6
    (by decide) (by decide) ?_ f r ?_
  · intro ch hch
    obtain ⟨b, hb, rfl⟩ := List.mem_map.1 hch
    exact ⟨cmChunk_ok b (hbs b hb), by simp [cmChunk]; try omega⟩
  · rw [List.length_map]
    simp [cmSectionChunk] at hf
    omega


theorem joinNl_cons_of_ne (x : Str) (l : List Str) (hl : l ≠ []) :
    joinNl (x :: l) = x ++ ('\n' :: joinNl l) := by
  rcases l with _ | ⟨y, ys⟩
  · exact absurd rfl hl
  · rfl

theorem joinNl_append (a b : List Str) (ha : a ≠ []) (hb : b ≠ []) :
    joinNl (a ++ b) = joinNl a ++ ('\n' :: joinNl b) := by
  induction a with
  | nil => exact absurd rfl ha
  | cons x a2 ih =>
    rcases a2 with _ | ⟨z, zs⟩
    · rw [List.cons_append, List.nil_append, joinNl_cons_of_ne x b hb]
      rfl
    · rw [List.cons_append, joinNl_cons_of_ne x ((z :: zs) ++ b) (by simp),
        ih (by simp), joinNl_cons_of_ne x (z :: zs) (by simp), List.append_assoc]
      simp

/-- Glue: newline-joined block lines followed by a closing line serialize
exactly as the concatenated chunks followed by the closing line. -/
theorem chunksStr_of_blocks :
    ∀ (blocks : List (List Str × SerChunk)) (closing : Str),
    (∀ p ∈ blocks, p.1 ≠ [] ∧ '\n' :: joinNl p.1 = p.2.lead ++ p.2.core) →
    '\n' :: joinNl ((blocks.map Prod.fst).flatten ++ [closing])
      = chunksStr (blocks.map Prod.snd) ++ ('\n' :: closing) := by
  intro blocks
  induction blocks with
  | nil => intro closing _; rfl
  | cons p rest ih =>
    intro closing hb
    obtain ⟨h1, h2⟩ := hb p (by simp)
    have hrest : ∀ q ∈ rest, q.1 ≠ [] ∧ '\n' :: joinNl q.1 = q.2.lead ++ q.2.core := by
      intro q hq; exact hb q (by simp [hq])
    rw [List.map_cons, List.flatten_cons, List.append_assoc,
      joinNl_append p.1 ((rest.map Prod.fst).flatten ++ [closing]) h1
        (by intro h; exact absurd (List.append_eq_nil.1 h).2 (by simp))]
    have : ('\n' :: (joinNl p.1 ++ ('\n' :: joinNl ((rest.map Prod.fst).flatten ++ [closing])))) =
        ('\n' :: joinNl p.1) ++ ('\n' :: joinNl ((rest.map Prod.fst).flatten ++ [closing])) := rfl
    rw [this, h2, ih closing hrest, List.map_cons]
    show (p.2.lead ++ p.2.core) ++ (chunksStr (rest.map Prod.snd) ++ ('\n' :: closing)) =
      p.2.lead ++ (p.2.core ++ chunksStr (rest.map Prod.snd)) ++ ('\n' :: closing)
    simp [List.append_assoc]

theorem flatten_map_singleton {α β : Type} (f : α → List β) (l : List α) :
    (l.map (fun x => [f x])).flatten = l.map f := by
  induction l with
  | nil => rfl
  | cons x xs ih => simp [ih]

theorem bridge_bn (b : Bottleneck) :
    '\n' :: bottleneckLine b = ('\n' :: strOf "    ") ++ bnCore b := by
  simp only [bottleneckLine, bnCore, List.append_assoc, List.cons_append]
  rfl

theorem bridge_rc (c : RootCause) :
    '\n' :: rootCauseLine c = ('\n' :: strOf "    ") ++ rcCore c := by
  simp only [rootCauseLine, rcCore, List.append_assoc, List.cons_append]
  rfl

theorem bridge_rec (r : Recommendation) :
    '\n' :: recommendationLine r = ('\n' :: strOf "    ") ++ recCore r := by
  simp only [recommendationLine, recCore, List.append_assoc, List.cons_append]
  rfl

theorem bridge_cm (cm : Str) :
    '\n' :: commentLine cm = ('\n' :: strOf "    ") ++ cmCore cm := by
  simp only [commentLine, cmCore, List.append_assoc, List.cons_append]
  rfl

theorem bridge_rs (rsn : Str) :
    '\n' :: (strOf "  <reasoning>\n    <![CDATA[\n" ++ rsn ++ strOf "\n    ]]>\n  </reasoning>")
      = ('\n' :: strOf "  ") ++ rsCore rsn := by
  simp only [rsCore, List.append_assoc, List.cons_append]
  rfl


theorem bridge_bnSec (bs : List Bottleneck) :
    '\n' :: joinNl (strOf "  <bottlenecks>" :: (bs.map bottleneckLine ++ [strOf "  </bottlenecks>"]))
      = ('\n' :: strOf "  ") ++ (bnSectionChunk bs).core := by
  have hin : '\n' :: joinNl (bs.map bottleneckLine ++ [strOf "  </bottlenecks>"])
      = chunksStr (bs.map bnChunk) ++ ('\n' :: strOf "  </bottlenecks>") := by
    have hb : ∀ p ∈ bs.map (fun b => ([bottleneckLine b], bnChunk b)),
        p.1 ≠ [] ∧ '\n' :: joinNl p.1 = p.2.lead ++ p.2.core := by
      intro p hp
      obtain ⟨b, hbmem, rfl⟩ := List.mem_map.1 hp
      exact ⟨by simp, bridge_bn b⟩
    have h := chunksStr_of_blocks (bs.map (fun b => ([bottleneckLine b], bnChunk b)))
      (strOf "  </bottlenecks>") hb
    simp only [List.map_map, Function.comp_def, flatten_map_singleton] at h
    exact h
  rw [joinNl_cons_of_ne _ _ (by simp), hin]
  rfl


theorem bridge_rcSec (bs : List RootCause) :
    '\n' :: joinNl (strOf "  <root_causes>" :: (bs.map rootCauseLine ++ [strOf "  </root_causes>"]))
      = ('\n' :: strOf "  ") ++ (rcSectionChunk bs).core := by
  have hin : '\n' :: joinNl (bs.map rootCauseLine ++ [strOf "  </root_causes>"])
      = chunksStr (bs.map rcChunk) ++ ('\n' :: strOf "  </root_causes>") := by
    have hb : ∀ p ∈ bs.map (fun b => ([rootCauseLine b], rcChunk b)),
        p.1 ≠ [] ∧ '\n' :: joinNl p.1 = p.2.lead ++ p.2.core := by
      intro p hp
      obtain ⟨b, hbmem, rfl⟩ := List.mem_map.1 hp
      exact ⟨by simp, bridge_rc b⟩
    have h := chunksStr_of_blocks (bs.map (fun b => ([rootCauseLine b], rcChunk b)))
      (strOf "  </root_causes>") hb
    simp only [List.map_map, Function.comp_def, flatten_map_singleton] at h
    exact h
  rw [joinNl_cons_of_ne _ _ (by simp), hin]
  rfl


theorem bridge_recSec (bs : List Recommendation) :
    '\n' :: joinNl (strOf "  <recommendations>" :: (bs.map recommendationLine ++ [strOf "  </recommendations>"]))
      = ('\n' :: strOf "  ") ++ (recSectionChunk bs).core := by
  have hin : '\n' :: joinNl (bs.map recommendationLine ++ [strOf "  </recommendations>"])
      = chunksStr (bs.map recChunk) ++ ('\n' :: strOf "  </recommendations>") := by
    have hb : ∀ p ∈ bs.map (fun b => ([recommendationLine b], recChunk b)),
        p.1 ≠ [] ∧ '\n' :: joinNl p.1 = p.2.lead ++ p.2.core := by
      intro p hp
      obtain ⟨b, hbmem, rfl⟩ := List.mem_map.1 hp
      exact ⟨by simp, bridge_rec b⟩
    have h := chunksStr_of_blocks (bs.map (fun b => ([recommendationLine b], recChunk b)))
      (strOf "  </recommendations>") hb
    simp only [List.map_map, Function.comp_def, flatten_map_singleton] at h
    exact h
  rw [joinNl_cons_of_ne _ _ (by simp), hin]
  rfl


theorem bridge_cmSec (bs : List Str) :
    '\n' :: joinNl (strOf "  <comments>" :: (bs.map commentLine ++ [strOf "  </comments>"]))
      = ('\n' :: strOf "  ") ++ (cmSectionChunk bs).core := by
  have hin : '\n' :: joinNl (bs.map commentLine ++ [strOf "  </comments>"])
      = chunksStr (bs.map cmChunk) ++ ('\n' :: strOf "  </comments>") := by
    have hb : ∀ p ∈ bs.map (fun b => ([commentLine b], cmChunk b)),
        p.1 ≠ [] ∧ '\n' :: joinNl p.1 = p.2.lead ++ p.2.core := by
      intro p hp
      obtain ⟨b, hbmem, rfl⟩ := List.mem_map.1 hp
      exact ⟨by simp, bridge_cm b⟩
    have h := chunksStr_of_blocks (bs.map (fun b => ([commentLine b], cmChunk b)))
      (strOf "  </comments>") hb
    simp only [List.map_map, Function.comp_def, flatten_map_singleton] at h
    exact h
  rw [joinNl_cons_of_ne _ _ (by simp), hin]
  rfl


/-- The reasoning block of the serialized prior diagnosis. -/
def blocksRs (pd : DiagDict) : List (List Str × SerChunk) :=
  if pd.reasoning = [] then []
  else [([strOf "  <reasoning>\n    <![CDATA[\n" ++ pd.reasoning ++ strOf "\n    ]]>\n  </reasoning>"],
         rsChunk pd.reasoning)]

/-- The bottlenecks block of the serialized prior diagnosis. -/
def blocksBn (pd : DiagDict) : List (List Str × SerChunk) :=
  match pd.bottlenecks with
  | some (b :: bs) =>
    [(strOf "  <bottlenecks>" :: ((b :: bs).map bottleneckLine ++ [strOf "  </bottlenecks>"]),
      bnSectionChunk (b :: bs))]
  | _ => []

/-- The root_causes block of the serialized prior diagnosis. -/
def blocksRc (pd : DiagDict) : List (List Str × SerChunk) :=
  match pd.root_causes with
  | some (c :: cs) =>
    [(strOf "  <root_causes>" :: ((c :: cs).map rootCauseLine ++ [strOf "  </root_causes>"]),
      rcSectionChunk (c :: cs))]
  | _ => []

/-- The recommendations block of the serialized prior diagnosis. -/
def blocksRec (pd : DiagDict) : List (List Str × SerChunk) :=
  match pd.recommendations with
  | some (r :: rs) =>
    [(strOf "  <recommendations>" :: ((r :: rs).map recommendationLine ++ [strOf "  </recommendations>"]),
      recSectionChunk (r :: rs))]
  | _ => []

/-- The comments block of the serialized prior diagnosis. -/
def blocksCm (pd : DiagDict) : List (List Str × SerChunk) :=
  match pd.comments with
  | some (c :: cs) =>
    [(strOf "  <comments>" :: ((c :: cs).map commentLine ++ [strOf "  </comments>"]),
      cmSectionChunk (c :: cs))]
  | _ => []

/-- The prior-diagnosis serialization, viewed as blocks of joined lines
paired with the parser chunks they serialize. -/
def rootBlocks (pd : DiagDict) : List (List Str × SerChunk) :=
  blocksRs pd ++ (blocksBn pd ++ (blocksRc pd ++ (blocksRec pd ++ blocksCm pd)))

theorem rootBlocks_bridge (pd : DiagDict) :
    ∀ p ∈ rootBlocks pd, p.1 ≠ [] ∧ '\n' :: joinNl p.1 = p.2.lead ++ p.2.core := by
  intro p hp
  simp only [rootBlocks, blocksRs, blocksBn, blocksRc, blocksRec, blocksCm, List.mem_append] at hp
  rcases hp with (hp | hp | hp | hp | hp)
  · by_cases hr : pd.reasoning = []
    · rw [if_pos hr] at hp; simp at hp
    · rw [if_neg hr] at hp
      obtain rfl := List.mem_singleton.1 hp
      exact ⟨by simp, bridge_rs pd.reasoning⟩
  · rcases hb : pd.bottlenecks with _ | (_ | ⟨b, bs⟩) <;> rw [hb] at hp <;> simp at hp
    obtain rfl := hp
    exact ⟨by simp, bridge_bnSec (b :: bs)⟩
  · rcases hb : pd.root_causes with _ | (_ | ⟨c, cs⟩) <;> rw [hb] at hp <;> simp at hp
    obtain rfl := hp
    exact ⟨by simp, bridge_rcSec (c :: cs)⟩
  · rcases hb : pd.recommendations with _ | (_ | ⟨r, rs⟩) <;> rw [hb] at hp <;> simp at hp
    obtain rfl := hp
    exact ⟨by simp, bridge_recSec (r :: rs)⟩
  · rcases hb : pd.comments with _ | (_ | ⟨c, cs⟩) <;> rw [hb] at hp <;> simp at hp
    obtain rfl := hp
    exact ⟨by simp, bridge_cmSec (c :: cs)⟩

theorem buildPrior_lines (pd : DiagDict) :
    buildPriorDiagnosisXml pd =
      joinNl (strOf "<diagnosis>" ::
        (((rootBlocks pd).map Prod.fst).flatten ++ [strOf "</diagnosis>"])) := by
  obtain ⟨rsn, bot, roc, rco, com, pe, er, ri, rr⟩ := pd
  by_cases hr : rsn = [] <;>
    rcases bot with _ | (_ | ⟨b, bs⟩) <;>
    rcases roc with _ | (_ | ⟨c, cs⟩) <;>
    rcases rco with _ | (_ | ⟨r, rs⟩) <;>
    rcases com with _ | (_ | ⟨m, ms⟩) <;>
    simp [buildPriorDiagnosisXml, rootBlocks, blocksRs, blocksBn, blocksRc, blocksRec, blocksCm, hr, List.append_assoc]

/-- The serialized prior diagnosis is the canonical element form of its
chunk list, ready for the chunk-based parsing lemma. -/
theorem buildPrior_eq (pd : DiagDict) :
    buildPriorDiagnosisXml pd
      = elemCore (strOf "diagnosis") ((rootBlocks pd).map Prod.snd) ('\n' :: ([] : Str)) := by
  rw [buildPrior_lines pd,
    joinNl_cons_of_ne _ _ (by intro h; exact absurd (List.append_eq_nil.1 h).2 (by simp)),
    chunksStr_of_blocks (rootBlocks pd) (strOf "</diagnosis>") (rootBlocks_bridge pd)]
  rfl


/-- Attribute values that survive serialization into a double-quoted
attribute and reparse unchanged. -/
def attrOk (v : Str) : Prop := ∀ c ∈ v, isAttrChar c = true

/-- Text content that survives serialization into element text and
reparse unchanged. -/
def textOk (v : Str) : Prop := ∀ c ∈ v, isTextChar c = true

/-- Safety conditions on a prior diagnosis under which its f-string
serialization is well-formed XML. -/
def pdSafe (pd : DiagDict) : Prop :=
  ']' ∉ pd.reasoning ∧
  (∀ b ∈ pd.bottlenecks.getD [], attrOk b.btype ∧ attrOk b.severity ∧ textOk b.description) ∧
  (∀ c ∈ pd.root_causes.getD [], attrOk c.ctype ∧ textOk c.description) ∧
  (∀ r ∈ pd.recommendations.getD [], attrOk r.rtype ∧ attrOk r.priority ∧ textOk r.description) ∧
  (∀ cm ∈ pd.comments.getD [], textOk cm)

theorem rootChunks_ok (pd : DiagDict) (hs : pdSafe pd) :
    ∀ ch ∈ (rootBlocks pd).map Prod.snd, chunkOk ch := by
  obtain ⟨hrs, hbt, hrc, hre, hcm⟩ := hs
  intro ch hch
  obtain ⟨p, hp, rfl⟩ := List.mem_map.1 hch
  simp only [rootBlocks, blocksRs, blocksBn, blocksRc, blocksRec, blocksCm, List.mem_append] at hp
  rcases hp with (hp | hp | hp | hp | hp)
  · by_cases hr : pd.reasoning = []
    · rw [if_pos hr] at hp; simp at hp
    · rw [if_neg hr] at hp
      obtain rfl := List.mem_singleton.1 hp
      exact rsChunk_ok pd.reasoning hrs
  · rcases hb : pd.bottlenecks with _ | (_ | ⟨b, bs⟩) <;> rw [hb] at hp <;> simp at hp
    obtain rfl := hp
    refine bnSectionChunk_ok (b :: bs) ?_
    intro x hx
    exact hbt x (by rw [hb]; simpa using hx)
  · rcases hb : pd.root_causes with _ | (_ | ⟨c, cs⟩) <;> rw [hb] at hp <;> simp at hp
    obtain rfl := hp
    refine rcSectionChunk_ok (c :: cs) ?_
    intro x hx
    exact hrc x (by rw [hb]; simpa using hx)
  · rcases hb : pd.recommendations with _ | (_ | ⟨r, rs⟩) <;> rw [hb] at hp <;> simp at hp
    obtain rfl := hp
    refine recSectionChunk_ok (r :: rs) ?_
    intro x hx
    exact hre x (by rw [hb]; simpa using hx)
  · rcases hb : pd.comments with _ | (_ | ⟨c, cs⟩) <;> rw [hb] at hp <;> simp at hp
    obtain rfl := hp
    refine cmSectionChunk_ok (c :: cs) ?_
    intro x hx
    exact hcm x (by rw [hb]; simpa using hx)

theorem rootChunks_lead (pd : DiagDict) :
    ∀ ch ∈ (rootBlocks pd).map Prod.snd, 3 ≤ ch.lead.length := by
  intro ch hch
  obtain ⟨p, hp, rfl⟩ := List.mem_map.1 hch
  simp only [rootBlocks, blocksRs, blocksBn, blocksRc, blocksRec, blocksCm, List.mem_append] at hp
  rcases hp with (hp | hp | hp | hp | hp)
  · by_cases hr : pd.reasoning = []
    · rw [if_pos hr] at hp; simp at hp
    · rw [if_neg hr] at hp; obtain rfl := List.mem_singleton.1 hp
      exact (show 3 ≤ ('\n' :: strOf "  " : Str).length by decide)
  · rcases hb : pd.bottlenecks with _ | (_ | ⟨b, bs⟩) <;> rw [hb] at hp <;> simp at hp
    obtain rfl := hp
    exact (show 3 ≤ ('\n' :: strOf "  " : Str).length by decide)
  · rcases hb : pd.root_causes with _ | (_ | ⟨c, cs⟩) <;> rw [hb] at hp <;> simp at hp
    obtain rfl := hp
    exact (show 3 ≤ ('\n' :: strOf "  " : Str).length by decide)
  · rcases hb : pd.recommendations with _ | (_ | ⟨r, rs⟩) <;> rw [hb] at hp <;> simp at hp
    obtain rfl := hp
    exact (show 3 ≤ ('\n' :: strOf "  " : Str).length by decide)
  · rcases hb : pd.comments with _ | (_ | ⟨c, cs⟩) <;> rw [hb] at hp <;> simp at hp
    obtain rfl := hp
    exact (show 3 ≤ ('\n' :: strOf "  " : Str).length by decide)

theorem chunksStr_len3 : ∀ (chunks : List SerChunk),
    (∀ ch ∈ chunks, 3 ≤ ch.lead.length) →
    3 * chunks.length ≤ (chunksStr chunks).length := by
  intro chunks
  induction chunks with
  | nil => intro _; simp [chunksStr]
  | cons ch rest ih =>
    intro h
    have h1 := h ch (by simp)
    have h2 := ih (fun q hq => h q (by simp [hq]))
    simp [chunksStr, List.length_append]
    omega

theorem chunksStr_bound : ∀ (chunks : List SerChunk),
    (∀ ch ∈ chunks, 3 ≤ ch.lead.length) →
    ∀ ch ∈ chunks, ch.core.length + 3 * chunks.length ≤ (chunksStr chunks).length := by
  intro chunks
  induction chunks with
  | nil => intro _ ch hch; simp at hch
  | cons c0 rest ih =>
    intro h ch hch
    have hl0 := h c0 (by simp)
    have h3r := chunksStr_len3 rest (fun q hq => h q (by simp [hq]))
    rcases List.mem_cons.1 hch with rfl | hm
    · simp [chunksStr, List.length_append]
      omega
    · have hi := ih (fun q hq => h q (by simp [hq])) ch hm
      simp [chunksStr, List.length_append]
      simp at hi
      omega

theorem rootChunks_need (pd : DiagDict) :
    ∀ ch ∈ (rootBlocks pd).map Prod.snd, ch.need ≤ ch.core.length := by
  intro ch hch
  obtain ⟨p, hp, rfl⟩ := List.mem_map.1 hch
  simp only [rootBlocks, blocksRs, blocksBn, blocksRc, blocksRec, blocksCm, List.mem_append] at hp
  rcases hp with (hp | hp | hp | hp | hp)
  · by_cases hr : pd.reasoning = []
    · rw [if_pos hr] at hp; simp at hp
    · rw [if_neg hr] at hp; obtain rfl := List.mem_singleton.1 hp
      show (5 : Nat) ≤ (rsCore pd.reasoning).length
      simp [rsCore]
      omega
  · rcases hb : pd.bottlenecks with _ | (_ | ⟨b, bs⟩) <;> rw [hb] at hp <;> simp at hp
    obtain rfl := hp
    show 2 * (b :: bs).length + 10
      ≤ (elemCore (strOf "bottlenecks") ((b :: bs).map bnChunk) ('\n' :: strOf "  ")).length
    have hcs := chunksStr_len3 ((b :: bs).map bnChunk) (by
      intro q hq
      obtain ⟨x, hx, rfl⟩ := List.mem_map.1 hq
      exact (show 3 ≤ ('\n' :: strOf "    " : Str).length by decide))
    have ht : (strOf "bottlenecks" : Str).length = 11 := rfl
    have hw2 : (strOf "  " : Str).length = 2 := rfl
    simp [elemCore, List.length_append] at hcs ⊢
    omega
  · rcases hb : pd.root_causes with _ | (_ | ⟨c, cs⟩) <;> rw [hb] at hp <;> simp at hp
    obtain rfl := hp
    show 2 * (c :: cs).length + 10
      ≤ (elemCore (strOf "root_causes") ((c :: cs).map rcChunk) ('\n' :: strOf "  ")).length
    have hcs := chunksStr_len3 ((c :: cs).map rcChunk) (by
      intro q hq
      obtain ⟨x, hx, rfl⟩ := List.mem_map.1 hq
      exact (show 3 ≤ ('\n' :: strOf "    " : Str).length by decide))
    have ht : (strOf "root_causes" : Str).length = 11 := rfl
    have hw2 : (strOf "  " : Str).length = 2 := rfl
    simp [elemCore, List.length_append] at hcs ⊢
    omega
  · rcases hb : pd.recommendations with _ | (_ | ⟨r, rs⟩) <;> rw [hb] at hp <;> simp at hp
    obtain rfl := hp
    show 2 * (r :: rs).length + 10
      ≤ (elemCore (strOf "recommendations") ((r :: rs).map recChunk) ('\n' :: strOf "  ")).length
    have hcs := chunksStr_len3 ((r :: rs).map recChunk) (by
      intro q hq
      obtain ⟨x, hx, rfl⟩ := List.mem_map.1 hq
      exact (show 3 ≤ ('\n' :: strOf "    " : Str).length by decide))
    have ht : (strOf "recommendations" : Str).length = 15 := rfl
    have hw2 : (strOf "  " : Str).length = 2 := rfl
    simp [elemCore, List.length_append] at hcs ⊢
    omega
  · rcases hb : pd.comments with _ | (_ | ⟨c, cs⟩) <;> rw [hb] at hp <;> simp at hp
    obtain rfl := hp
    show 2 * (c :: cs).length + 10
      ≤ (elemCore (strOf "comments") ((c :: cs).map cmChunk) ('\n' :: strOf "  ")).length
    have hcs := chunksStr_len3 ((c :: cs).map cmChunk) (by
      intro q hq
      obtain ⟨x, hx, rfl⟩ := List.mem_map.1 hq
      exact (show 3 ≤ ('\n' :: strOf "    " : Str).length by decide))
    have ht : (strOf "comments" : Str).length = 8 := rfl
    have hw2 : (strOf "  " : Str).length = 2 := rfl
    simp [elemCore, List.length_append] at hcs ⊢
    omega

/-- The element tree that parsing the serialized prior diagnosis yields. -/
def rootNodeOf (pd : DiagDict) : XNode :=
  ⟨strOf "diagnosis", [],
    elemText ((rootBlocks pd).map Prod.snd) ('\n' :: ([] : Str)),
    ((rootBlocks pd).map Prod.snd).map SerChunk.node⟩

/-- Parsing the serialized prior diagnosis succeeds and yields the chunk
nodes as the children of a `diagnosis` root. -/
theorem fromstring_buildPrior (pd : DiagDict) (hs : pdSafe pd) :
    fromstring (buildPriorDiagnosisXml pd) = .ok (rootNodeOf pd) := by
  have hok := rootChunks_ok pd hs
  have hlead := rootChunks_lead pd
  have hneed := rootChunks_need pd
  have hcs3 := chunksStr_len3 _ hlead
  have hbound := chunksStr_bound _ hlead
  have hlen : (elemCore (strOf "diagnosis") ((rootBlocks pd).map Prod.snd)
        ('\n' :: ([] : Str))).length
      = 24 + (chunksStr ((rootBlocks pd).map Prod.snd)).length := by
    have h9 : (strOf "diagnosis" : Str).length = 9 := rfl
    simp [elemCore, List.length_append]
    omega
  have hparse : parseXNode
      ((elemCore (strOf "diagnosis") ((rootBlocks pd).map Prod.snd) ('\n' :: ([] : Str))).length + 1)
      (elemCore (strOf "diagnosis") ((rootBlocks pd).map Prod.snd) ('\n' :: ([] : Str)) ++ [])
      = .ok (rootNodeOf pd, []) := by
    refine parse_elem_chunks 'd' (strOf "iagnosis") ((rootBlocks pd).map Prod.snd) '\n' []
      ((elemCore (strOf "diagnosis") ((rootBlocks pd).map Prod.snd) ('\n' :: ([] : Str))).length + 1
        - (2 * ((rootBlocks pd).map Prod.snd).length + 4))
      (by decide) (by decide) ?_ _ [] ?_
    · intro ch hch
      refine ⟨hok ch hch, ?_⟩
      have h1 := hneed ch hch
      have h2 := hbound ch hch
      omega
    · omega
  rw [List.append_nil] at hparse
  rw [buildPrior_eq pd]
  have hskip : skipWs (elemCore (strOf "diagnosis") ((rootBlocks pd).map Prod.snd)
        ('\n' :: ([] : Str)))
      = elemCore (strOf "diagnosis") ((rootBlocks pd).map Prod.snd) ('\n' :: ([] : Str)) :=
    skipWs_nonWs '<' _ (by decide)
  unfold fromstring
  rw [hskip, hparse]
  rfl


/-- Attribute-safe content never contains an angle bracket. -/
theorem attrOk_not_lt {v : Str} (h : attrOk v) : '<' ∉ v :=
  fun hm => absurd (h '<' hm) (by decide)

/-- Text-safe content never contains an angle bracket. -/
theorem textOk_not_lt {v : Str} (h : textOk v) : '<' ∉ v :=
  fun hm => absurd (h '<' hm) (by decide)

/-- No occurrence can start inside `x` when the pattern's first character
never occurs in `x`. -/
theorem noSub_append_patHead (x y pat : Str) (c : Char)
    (hc : pat.head? = some c) (hmem : c ∉ x)
    (hy : hasSub y pat = false) :
    hasSub (x ++ y) pat = false := by
  rw [hasSub_false_iff]
  intro j hp
  by_cases hj : x.length ≤ j
  · rw [List.drop_append_eq_append_drop, List.drop_eq_nil_of_le hj, List.nil_append] at hp
    exact (hasSub_false_iff y pat).1 hy _ hp
  · push_neg at hj
    rcases pat with _ | ⟨p0, ps⟩
    · simp at hc
    · have hp0 : p0 = c := by simpa using hc
      subst hp0
      have hxd : x.drop j ≠ [] := by
        intro h
        have := congrArg List.length h
        simp at this
        omega
      rcases hx2 : x.drop j with _ | ⟨d, ds⟩
      · exact hxd hx2
      · have hdj : (x ++ y).drop j = d :: (ds ++ y) := by
          rw [List.drop_append_eq_append_drop, hx2]
          have h0 : j - x.length = 0 := by omega
          rw [h0, List.drop_zero]
          rfl
        rw [hdj] at hp
        simp only [List.isPrefixOf, Bool.and_eq_true, beq_iff_eq] at hp
        obtain ⟨hpd, _⟩ := hp
        have hdm : d ∈ x := List.mem_of_mem_drop (by rw [hx2]; exact List.mem_cons_self d ds)
        exact hmem (by rw [hpd]; exact hdm)

/-- Concatenated chunks are free of the closing-tag stub when every core is
and every lead is an indentation run. -/
theorem chunksStr_noSub : ∀ (chunks : List SerChunk),
    (∀ ch ∈ chunks, hasSub ch.core (strOf "</d") = false ∧
      '<' ∉ ch.lead ∧ ch.lead.head? = some '\n') →
    hasSub (chunksStr chunks) (strOf "</d") = false := by
  intro chunks
  induction chunks with
  | nil => intro _; decide
  | cons ch rest ih =>
    intro h
    obtain ⟨hc1, hc2, hc3⟩ := h ch (by simp)
    have hrest := ih (fun q hq => h q (by simp [hq]))
    show hasSub (ch.lead ++ (ch.core ++ chunksStr rest)) (strOf "</d") = false
    refine noSub_append_patHead _ _ _ '<' (by decide) hc2 ?_
    rcases rest with _ | ⟨ch2, rest2⟩
    · simpa [chunksStr] using hc1
    · obtain ⟨_, _, hh2⟩ := h ch2 (by simp)
      have hhead : (chunksStr (ch2 :: rest2)).head? = some '\n' := by
        show (ch2.lead ++ (ch2.core ++ chunksStr rest2)).head? = some '\n'
        rcases hl : ch2.lead with _ | ⟨l0, ls⟩
        · rw [hl] at hh2; simp at hh2
        · rw [hl] at hh2
          simp at hh2
          simp [hh2]
      exact noSub_append_headNotMem _ _ _ '\n' hhead (by decide) hc1 hrest

theorem rsCore_noSub (rsn : Str) (h : '<' ∉ rsn) :
    hasSub (rsCore rsn) (strOf "</d") = false := by
  have he : rsCore rsn = strOf "<reasoning>\n    <![CDATA[\n" ++
      (rsn ++ strOf "\n    ]]>\n  </reasoning>") := by
    simp only [rsCore, List.append_assoc, List.cons_append]
    rfl
  rw [he]
  refine noSub_append_lastNotMem _ _ _ '\n' (by decide) (by decide) (by decide) ?_
  exact noSub_append_patHead _ _ _ '<' (by decide) h (by decide)

theorem bnCore_noSub (b : Bottleneck) (h1 : '<' ∉ b.btype) (h2 : '<' ∉ b.severity) (h3 : '<' ∉ b.description) :
    hasSub (bnCore b) (strOf "</d") = false := by
  have he : bnCore b = strOf "<bottleneck type=\"" ++ (b.btype ++ (strOf "\" severity=\"" ++ (b.severity ++ (strOf "\">" ++ (b.description ++ strOf "</bottleneck>"))))) := rfl
  rw [he]
  refine noSub_append_lastNotMem _ _ _ '"' (by decide) (by decide) (by decide) ?_
  refine noSub_append_patHead _ _ _ '<' (by decide) h1 ?_
  refine noSub_append_lastNotMem _ _ _ '"' (by decide) (by decide) (by decide) ?_
  refine noSub_append_patHead _ _ _ '<' (by decide) h2 ?_
  refine noSub_append_lastNotMem _ _ _ '>' (by decide) (by decide) (by decide) ?_
  exact noSub_append_patHead _ _ _ '<' (by decide) h3 (by decide)

theorem rcCore_noSub (b : RootCause) (h1 : '<' ∉ b.ctype) (h3 : '<' ∉ b.description) :
    hasSub (rcCore b) (strOf "</d") = false := by
  have he : rcCore b = strOf "<root_cause type=\"" ++ (b.ctype ++ (strOf "\">" ++ (b.description ++ strOf "</root_cause>"))) := rfl
  rw [he]
  refine noSub_append_lastNotMem _ _ _ '"' (by decide) (by decide) (by decide) ?_
  refine noSub_append_patHead _ _ _ '<' (by decide) h1 ?_
  refine noSub_append_lastNotMem _ _ _ '>' (by decide) (by decide) (by decide) ?_
  exact noSub_append_patHead _ _ _ '<' (by decide) h3 (by decide)

theorem recCore_noSub (b : Recommendation) (h1 : '<' ∉ b.rtype) (h2 : '<' ∉ b.priority) (h3 : '<' ∉ b.description) :
    hasSub (recCore b) (strOf "</d") = false := by
  have he : recCore b = strOf "<recommendation type=\"" ++ (b.rtype ++ (strOf "\" priority=\"" ++ (b.priority ++ (strOf "\">" ++ (b.description ++ strOf "</recommendation>"))))) := rfl
  rw [he]
  refine noSub_append_lastNotMem _ _ _ '"' (by decide) (by decide) (by decide) ?_
  refine noSub_append_patHead _ _ _ '<' (by decide) h1 ?_
  refine noSub_append_lastNotMem _ _ _ '"' (by decide) (by decide) (by decide) ?_
  refine noSub_append_patHead _ _ _ '<' (by decide) h2 ?_
  refine noSub_append_lastNotMem _ _ _ '>' (by decide) (by decide) (by decide) ?_
  exact noSub_append_patHead _ _ _ '<' (by decide) h3 (by decide)


theorem cmCore_noSub (cm : Str) (h3 : '<' ∉ cm) :
    hasSub (cmCore cm) (strOf "</d") = false := by
  have he : cmCore cm = strOf "<comment>" ++ (cm ++ strOf "</comment>") := rfl
  rw [he]
  refine noSub_append_lastNotMem _ _ _ '>' (by decide) (by decide) (by decide) ?_
  exact noSub_append_patHead _ _ _ '<' (by decide) h3 (by decide)

theorem elemCore_sec_noSub (tag : Str) (chunks : List SerChunk)
    (htag : hasSub ('<' :: (tag ++ [('>' : Char)])) (strOf "</d") = false)
    (hclose : hasSub ('<' :: '/' :: (tag ++ [('>' : Char)])) (strOf "</d") = false)
    (hch : ∀ ch ∈ chunks, hasSub ch.core (strOf "</d") = false ∧
      '<' ∉ ch.lead ∧ ch.lead.head? = some '\n') :
    hasSub (elemCore tag chunks ('\n' :: strOf "  ")) (strOf "</d") = false := by
  have he : elemCore tag chunks ('\n' :: strOf "  ")
      = ('<' :: (tag ++ [('>' : Char)])) ++ (chunksStr chunks ++
          (('\n' :: strOf "  ") ++ ('<' :: '/' :: (tag ++ [('>' : Char)])))) := by
    simp [elemCore, List.append_assoc]
  rw [he]
  have hlast : ('<' :: (tag ++ [('>' : Char)])).getLast? = some '>' := by
    rw [show ('<' :: (tag ++ [('>' : Char)])) = ('<' :: tag) ++ ['>'] from by simp,
      List.getLast?_concat]
  refine noSub_append_lastNotMem _ _ _ '>' hlast (by decide) htag ?_
  refine noSub_append_headNotMem _ _ _ '\n' rfl (by decide) (chunksStr_noSub chunks hch) ?_
  exact noSub_append_patHead _ _ _ '<' (by decide) (by decide) hclose

theorem rootChunks_noSub_facts (pd : DiagDict) (hs : pdSafe pd) (hlt : '<' ∉ pd.reasoning) :
    ∀ ch ∈ (rootBlocks pd).map Prod.snd,
      hasSub ch.core (strOf "</d") = false ∧ '<' ∉ ch.lead ∧ ch.lead.head? = some '\n' := by
  obtain ⟨hrs, hbt, hrc, hre, hcm⟩ := hs
  intro ch hch
  obtain ⟨p, hp, rfl⟩ := List.mem_map.1 hch
  simp only [rootBlocks, blocksRs, blocksBn, blocksRc, blocksRec, blocksCm, List.mem_append] at hp
  rcases hp with (hp | hp | hp | hp | hp)
  · by_cases hr : pd.reasoning = []
    · rw [if_pos hr] at hp; simp at hp
    · rw [if_neg hr] at hp; obtain rfl := List.mem_singleton.1 hp
      exact ⟨rsCore_noSub pd.reasoning hlt,
        (show '<' ∉ ('\n' :: strOf "  " : Str) by decide), rfl⟩
  · rcases hb : pd.bottlenecks with _ | (_ | ⟨b, bs⟩) <;> rw [hb] at hp <;> simp at hp
    obtain rfl := hp
    refine ⟨?_, (show '<' ∉ ('\n' :: strOf "  " : Str) by decide), rfl⟩
    show hasSub (elemCore (strOf "bottlenecks") ((b :: bs).map bnChunk) ('\n' :: strOf "  "))
      (strOf "</d") = false
    refine elemCore_sec_noSub _ _ (by decide) (by decide) ?_
    intro q hq
    obtain ⟨x, hx, rfl⟩ := List.mem_map.1 hq
    have hx2 := hbt x (by rw [hb]; simpa using hx)
    exact ⟨bnCore_noSub x (attrOk_not_lt hx2.1) (attrOk_not_lt hx2.2.1) (textOk_not_lt hx2.2.2),
      (show '<' ∉ ('\n' :: strOf "    " : Str) by decide), rfl⟩
  · rcases hb : pd.root_causes with _ | (_ | ⟨c, cs⟩) <;> rw [hb] at hp <;> simp at hp
    obtain rfl := hp
    refine ⟨?_, (show '<' ∉ ('\n' :: strOf "  " : Str) by decide), rfl⟩
    show hasSub (elemCore (strOf "root_causes") ((c :: cs).map rcChunk) ('\n' :: strOf "  "))
      (strOf "</d") = false
    refine elemCore_sec_noSub _ _ (by decide) (by decide) ?_
    intro q hq
    obtain ⟨x, hx, rfl⟩ := List.mem_map.1 hq
    have hx2 := hrc x (by rw [hb]; simpa using hx)
    exact ⟨rcCore_noSub x (attrOk_not_lt hx2.1) (textOk_not_lt hx2.2),
      (show '<' ∉ ('\n' :: strOf "    " : Str) by decide), rfl⟩
  · rcases hb : pd.recommendations with _ | (_ | ⟨r, rs⟩) <;> rw [hb] at hp <;> simp at hp
    obtain rfl := hp
    refine ⟨?_, (show '<' ∉ ('\n' :: strOf "  " : Str) by decide), rfl⟩
    show hasSub (elemCore (strOf "recommendations") ((r :: rs).map recChunk) ('\n' :: strOf "  "))
      (strOf "</d") = false
    refine elemCore_sec_noSub _ _ (by decide) (by decide) ?_
    intro q hq
    obtain ⟨x, hx, rfl⟩ := List.mem_map.1 hq
    have hx2 := hre x (by rw [hb]; simpa using hx)
    exact ⟨recCore_noSub x (attrOk_not_lt hx2.1) (attrOk_not_lt hx2.2.1) (textOk_not_lt hx2.2.2),
      (show '<' ∉ ('\n' :: strOf "    " : Str) by decide), rfl⟩
  · rcases hb : pd.comments with _ | (_ | ⟨c, cs⟩) <;> rw [hb] at hp <;> simp at hp
    obtain rfl := hp
    refine ⟨?_, (show '<' ∉ ('\n' :: strOf "  " : Str) by decide), rfl⟩
    show hasSub (elemCore (strOf "comments") ((c :: cs).map cmChunk) ('\n' :: strOf "  "))
      (strOf "</d") = false
    refine elemCore_sec_noSub _ _ (by decide) (by decide) ?_
    intro q hq
    obtain ⟨x, hx, rfl⟩ := List.mem_map.1 hq
    have hx2 := hcm x (by rw [hb]; simpa using hx)
    exact ⟨cmCore_noSub x (textOk_not_lt hx2),
      (show '<' ∉ ('\n' :: strOf "    " : Str) by decide), rfl⟩

/-- The serialized document up to (excluding) the closing diagnosis tag. -/
def docP (pd : DiagDict) : Str :=
  strOf "<diagnosis>" ++ (chunksStr ((rootBlocks pd).map Prod.snd) ++ ['\n'])

theorem doc_split (pd : DiagDict) :
    buildPriorDiagnosisXml pd = docP pd ++ strOf "</diagnosis>" := by
  rw [buildPrior_eq pd]
  simp only [docP, elemCore, List.append_assoc, List.cons_append, List.nil_append]
  rfl

theorem docP_getLast (pd : DiagDict) : (docP pd).getLast? = some '\n' := by
  rw [docP, List.getLast?_append, List.getLast?_append]
  rfl

theorem docP_noSub (pd : DiagDict) (hs : pdSafe pd) (hlt : '<' ∉ pd.reasoning) :
    hasSub (docP pd) (strOf "</d") = false := by
  rw [docP]
  refine noSub_append_lastNotMem _ _ _ '>' (by decide) (by decide) (by decide) ?_
  exact noSub_append_headNotMem _ _ _ '\n' rfl (by decide)
    (chunksStr_noSub _ (rootChunks_noSub_facts pd hs hlt)) (by decide)

theorem pyFind_open_doc (pd : DiagDict) :
    pyFind (buildPriorDiagnosisXml pd) (strOf "<diagnosis>") = some 0 := by
  rw [buildPrior_eq pd]
  apply pyFind_at_zero
  rw [List.isPrefixOf_iff_prefix]
  exact ⟨chunksStr ((rootBlocks pd).map Prod.snd) ++
    (['\n'] ++ ('<' :: '/' :: (strOf "diagnosis" ++ [('>' : Char)]))), rfl⟩

theorem pyFind_close_at_end (P : Str) (hlast : P.getLast? = some '\n')
    (hP : hasSub P (strOf "</d") = false) :
    pyFind (P ++ strOf "</diagnosis>") (strOf "</diagnosis>") = some P.length := by
  apply pyFind_of_min
  · rw [List.drop_left]
    decide
  · intro j hj hp
    have hpre : (strOf "</d").isPrefixOf ((P ++ strOf "</diagnosis>").drop j) = true := by
      have hmono : strOf "</d" <+: strOf "</diagnosis>" := ⟨strOf "iagnosis>", rfl⟩
      rw [List.isPrefixOf_iff_prefix] at hp ⊢
      exact hmono.trans hp
    rcases occursAt_append_cases P (strOf "</diagnosis>") (strOf "</d") j hpre with
      ⟨_, h2⟩ | ⟨h1, _⟩ | ⟨h1, _, h3, _⟩
    · exact absurd h2 ((hasSub_false_iff P _).1 hP j)
    · omega
    · have hcm : '\n' ∈ P.drop j := getLast_mem_drop P j h1 '\n' hlast
      have hin : '\n' ∈ strOf "</d" := (List.isPrefixOf_iff_prefix.1 h3).subset hcm
      exact absurd hin (by decide)

theorem pyFind_close_doc (pd : DiagDict) (hs : pdSafe pd) (hlt : '<' ∉ pd.reasoning) :
    pyFind (buildPriorDiagnosisXml pd) (strOf "</diagnosis>") = some (docP pd).length := by
  rw [doc_split pd]
  exact pyFind_close_at_end (docP pd) (docP_getLast pd) (docP_noSub pd hs hlt)

theorem doc_length (pd : DiagDict) :
    (buildPriorDiagnosisXml pd).length = (docP pd).length + 12 := by
  rw [doc_split pd, List.length_append]
  rfl

theorem slice_whole (pd : DiagDict) :
    pySlice (buildPriorDiagnosisXml pd) 0 ((docP pd).length + 12)
      = buildPriorDiagnosisXml pd := by
  have hlen := doc_length pd
  simp only [pySlice, List.drop_zero]
  exact List.take_of_length_le (by omega)


/-- Dropping a leading whitespace character before stripping changes nothing. -/
theorem pyStrip_cons_ws (c : Char) (t : Str) (hc : isPyWs c = true) :
    pyStrip (c :: t) = pyStrip t := by
  unfold pyStrip
  rw [List.dropWhile_cons, if_pos (by simp [hc])]

/-- Stripping whitespace wrapped around a strip-invariant string recovers it. -/
theorem pyStrip_ws_sandwich (ws1 s ws2 : Str)
    (h1 : ∀ c ∈ ws1, isPyWs c = true) (h2 : ∀ c ∈ ws2, isPyWs c = true)
    (hs : pyStrip s = s) :
    pyStrip (ws1 ++ (s ++ ws2)) = s := by
  have hmid : ∀ w2 : Str, (∀ c ∈ w2, isPyWs c = true) →
      pyStrip (ws1 ++ (s ++ w2)) = pyStrip (ws1 ++ s) := by
    intro w2
    induction w2 using List.reverseRecOn with
    | nil => intro _; rw [List.append_nil]
    | append_singleton t c ih =>
      intro hw
      have hfix : ws1 ++ (s ++ (t ++ [c])) = (ws1 ++ (s ++ t)) ++ [c] := by
        simp [List.append_assoc]
      rw [hfix, pyStrip_append_ws _ c (hw c (by simp))]
      exact ih (fun d hd => hw d (by simp [hd]))
  rw [hmid ws2 h2]
  clear hmid h2
  revert h1
  induction ws1 with
  | nil => intro _; rw [List.nil_append]; exact hs
  | cons w ws ih =>
    intro h1
    rw [List.cons_append, pyStrip_cons_ws w _ (h1 w (by simp))]
    exact ih (fun d hd => h1 d (by simp [hd]))

/-- Element text equal to its own strip decodes to itself. -/
theorem textOrEmpty_of_strip (el : XNode) (h : pyStrip el.text = el.text) :
    textOrEmpty el = el.text := by
  unfold textOrEmpty
  by_cases he : el.text = []
  · rw [if_pos he, he]
  · rw [if_neg he, h]

theorem map_id_of_mem {α : Type} (l : List α) (f : α → α) (h : ∀ x ∈ l, f x = x) :
    l.map f = l := by
  induction l with
  | nil => rfl
  | cons x xs ih => simp_all

/-- The parsed child nodes contributed by one serialization block. -/
def nodesOf (blocks : List (List Str × SerChunk)) : List XNode :=
  (blocks.map Prod.snd).map SerChunk.node

theorem children_eq (pd : DiagDict) :
    (rootNodeOf pd).children
      = nodesOf (blocksRs pd) ++ (nodesOf (blocksBn pd) ++ (nodesOf (blocksRc pd)
          ++ (nodesOf (blocksRec pd) ++ nodesOf (blocksCm pd)))) := by
  show ((rootBlocks pd).map Prod.snd).map SerChunk.node = _
  simp [rootBlocks, nodesOf, List.map_append]


theorem find?_nodes_rs_none (pd : DiagDict) (k : Str)
    (hk : ((strOf "reasoning" : Str) == k) = false) :
    (nodesOf (blocksRs pd)).find? (fun c => c.tag == k) = none := by
  rw [List.find?_eq_none]
  intro x hx
  simp only [nodesOf, blocksRs] at hx
  by_cases hr : pd.reasoning = []
  · rw [if_pos hr] at hx; simp at hx
  · rw [if_neg hr] at hx
    simp at hx
    subst hx
    intro hcon
    have hcon2 : ((strOf "reasoning" : Str) == k) = true := hcon
    rw [hk] at hcon2
    cases hcon2


theorem find?_nodes_bn_none (pd : DiagDict) (k : Str)
    (hk : ((strOf "bottlenecks" : Str) == k) = false) :
    (nodesOf (blocksBn pd)).find? (fun c => c.tag == k) = none := by
  rw [List.find?_eq_none]
  intro x hx
  simp only [nodesOf, blocksBn] at hx
  rcases hb : pd.bottlenecks with _ | (_ | ⟨b, bs⟩) <;> rw [hb] at hx <;> simp at hx
  subst hx
  intro hcon
  have hcon2 : ((strOf "bottlenecks" : Str) == k) = true := hcon
  rw [hk] at hcon2
  cases hcon2


theorem find?_nodes_rc_none (pd : DiagDict) (k : Str)
    (hk : ((strOf "root_causes" : Str) == k) = false) :
    (nodesOf (blocksRc pd)).find? (fun c => c.tag == k) = none := by
  rw [List.find?_eq_none]
  intro x hx
  simp only [nodesOf, blocksRc] at hx
  rcases hb : pd.root_causes with _ | (_ | ⟨c, cs⟩) <;> rw [hb] at hx <;> simp at hx
  subst hx
  intro hcon
  have hcon2 : ((strOf "root_causes" : Str) == k) = true := hcon
  rw [hk] at hcon2
  cases hcon2


theorem find?_nodes_rec_none (pd : DiagDict) (k : Str)
    (hk : ((strOf "recommendations" : Str) == k) = false) :
    (nodesOf (blocksRec pd)).find? (fun c => c.tag == k) = none := by
  rw [List.find?_eq_none]
  intro x hx
  simp only [nodesOf, blocksRec] at hx
  rcases hb : pd.recommendations with _ | (_ | ⟨r, rs⟩) <;> rw [hb] at hx <;> simp at hx
  subst hx
  intro hcon
  have hcon2 : ((strOf "recommendations" : Str) == k) = true := hcon
  rw [hk] at hcon2
  cases hcon2


theorem find?_nodes_cm_none (pd : DiagDict) (k : Str)
    (hk : ((strOf "comments" : Str) == k) = false) :
    (nodesOf (blocksCm pd)).find? (fun c => c.tag == k) = none := by
  rw [List.find?_eq_none]
  intro x hx
  simp only [nodesOf, blocksCm] at hx
  rcases hb : pd.comments with _ | (_ | ⟨c, cs⟩) <;> rw [hb] at hx <;> simp at hx
  subst hx
  intro hcon
  have hcon2 : ((strOf "comments" : Str) == k) = true := hcon
  rw [hk] at hcon2
  cases hcon2


theorem xfind_rs (pd : DiagDict) :
    xfind (rootNodeOf pd) (strOf "reasoning") = (nodesOf (blocksRs pd)).head? := by
  show (rootNodeOf pd).children.find? (fun c => c.tag == strOf "reasoning") = _
  rw [children_eq pd]
  simp only [List.find?_append]
  rw [find?_nodes_bn_none pd _ (by decide)]
  rw [find?_nodes_rc_none pd _ (by decide)]
  rw [find?_nodes_rec_none pd _ (by decide)]
  rw [find?_nodes_cm_none pd _ (by decide)]
  simp only [Option.or_none, Option.none_or]
  by_cases hr : pd.reasoning = []
  · simp [nodesOf, blocksRs, hr]
  · simp [nodesOf, blocksRs, hr, List.find?, rsChunk, rsNode,
      (show ((strOf "reasoning" : Str) == strOf "reasoning") = true by decide)]


theorem xfind_bn (pd : DiagDict) :
    xfind (rootNodeOf pd) (strOf "bottlenecks") = (nodesOf (blocksBn pd)).head? := by
  show (rootNodeOf pd).children.find? (fun c => c.tag == strOf "bottlenecks") = _
  rw [children_eq pd]
  simp only [List.find?_append]
  rw [find?_nodes_rs_none pd _ (by decide)]
  rw [find?_nodes_rc_none pd _ (by decide)]
  rw [find?_nodes_rec_none pd _ (by decide)]
  rw [find?_nodes_cm_none pd _ (by decide)]
  simp only [Option.or_none, Option.none_or]
  rcases hb : pd.bottlenecks with _ | (_ | ⟨b, bs⟩) <;>
    simp [nodesOf, blocksBn, hb, List.find?, bnSectionChunk,
      (show ((strOf "bottlenecks" : Str) == strOf "bottlenecks") = true by decide)]


theorem xfind_rc (pd : DiagDict) :
    xfind (rootNodeOf pd) (strOf "root_causes") = (nodesOf (blocksRc pd)).head? := by
  show (rootNodeOf pd).children.find? (fun c => c.tag == strOf "root_causes") = _
  rw [children_eq pd]
  simp only [List.find?_append]
  rw [find?_nodes_rs_none pd _ (by decide)]
  rw [find?_nodes_bn_none pd _ (by decide)]
  rw [find?_nodes_rec_none pd _ (by decide)]
  rw [find?_nodes_cm_none pd _ (by decide)]
  simp only [Option.or_none, Option.none_or]
  rcases hb : pd.root_causes with _ | (_ | ⟨c, cs⟩) <;>
    simp [nodesOf, blocksRc, hb, List.find?, rcSectionChunk,
      (show ((strOf "root_causes" : Str) == strOf "root_causes") = true by decide)]


theorem xfind_rec (pd : DiagDict) :
    xfind (rootNodeOf pd) (strOf "recommendations") = (nodesOf (blocksRec pd)).head? := by
  show (rootNodeOf pd).children.find? (fun c => c.tag == strOf "recommendations") = _
  rw [children_eq pd]
  simp only [List.find?_append]
  rw [find?_nodes_rs_none pd _ (by decide)]
  rw [find?_nodes_bn_none pd _ (by decide)]
  rw [find?_nodes_rc_none pd _ (by decide)]
  rw [find?_nodes_cm_none pd _ (by decide)]
  simp only [Option.or_none, Option.none_or]
  rcases hb : pd.recommendations with _ | (_ | ⟨r, rs⟩) <;>
    simp [nodesOf, blocksRec, hb, List.find?, recSectionChunk,
      (show ((strOf "recommendations" : Str) == strOf "recommendations") = true by decide)]


theorem xfind_cm (pd : DiagDict) :
    xfind (rootNodeOf pd) (strOf "comments") = (nodesOf (blocksCm pd)).head? := by
  show (rootNodeOf pd).children.find? (fun c => c.tag == strOf "comments") = _
  rw [children_eq pd]
  simp only [List.find?_append]
  rw [find?_nodes_rs_none pd _ (by decide)]
  rw [find?_nodes_bn_none pd _ (by decide)]
  rw [find?_nodes_rc_none pd _ (by decide)]
  rw [find?_nodes_rec_none pd _ (by decide)]
  simp only [Option.or_none, Option.none_or]
  rcases hb : pd.comments with _ | (_ | ⟨c, cs⟩) <;>
    simp [nodesOf, blocksCm, hb, List.find?, cmSectionChunk,
      (show ((strOf "comments" : Str) == strOf "comments") = true by decide)]


/-- The reasoning extraction of `parse_diagnosis_xml` on a parsed root. -/
def decodeReasoning (root : XNode) : Str :=
  match xfind root (strOf "reasoning") with
  | some el => textOrEmpty el
  | none => []

/-- The bottleneck extraction of `parse_diagnosis_xml` on a parsed root. -/
def decodeBn (root : XNode) : List Bottleneck :=
  match xfind root (strOf "bottlenecks") with
  | some be => (xfindall be (strOf "bottleneck")).map (fun el =>
      { btype := xget el (strOf "type") (strOf "Unknown"),
        severity := xget el (strOf "severity") (strOf "Medium"),
        description := textOrEmpty el })
  | none => []

/-- The root-cause extraction of `parse_diagnosis_xml` on a parsed root. -/
def decodeRc (root : XNode) : List RootCause :=
  match xfind root (strOf "root_causes") with
  | some ce => (xfindall ce (strOf "root_cause")).map (fun el =>
      { ctype := xget el (strOf "type") (strOf "Unknown"),
        description := textOrEmpty el })
  | none => []

/-- The recommendation extraction of `parse_diagnosis_xml` on a parsed root. -/
def decodeRec (root : XNode) : List Recommendation :=
  match xfind root (strOf "recommendations") with
  | some re2 => (xfindall re2 (strOf "recommendation")).map (fun el =>
      { rtype := xget el (strOf "type") (strOf "Unknown"),
        priority := xget el (strOf "priority") (strOf "Medium"),
        description := textOrEmpty el })
  | none => []

/-- The comment extraction of `parse_diagnosis_xml` on a parsed root. -/
def decodeCm (root : XNode) : List Str :=
  match xfind root (strOf "comments") with
  | some ce => ((xfindall ce (strOf "comment")).map textOrEmpty).filter (fun t => t ≠ [])
  | none => []

/-- On the serialized prior diagnosis, the try-body succeeds and decodes the
parsed root field by field. -/
theorem parseDiagnosisTry_doc (pd : DiagDict) (hs : pdSafe pd) (hlt : '<' ∉ pd.reasoning) :
    parseDiagnosisTry (buildPriorDiagnosisXml pd)
      = .ok ⟨decodeReasoning (rootNodeOf pd), decodeBn (rootNodeOf pd),
          decodeRc (rootNodeOf pd), decodeRec (rootNodeOf pd), decodeCm (rootNodeOf pd)⟩ := by
  unfold parseDiagnosisTry
  rw [pyFind_open_doc pd, pyFind_close_doc pd hs hlt]
  dsimp only
  rw [slice_whole pd, fromstring_buildPrior pd hs]
  rfl

theorem decodeReasoning_eq (pd : DiagDict) (hst : pyStrip pd.reasoning = pd.reasoning) :
    decodeReasoning (rootNodeOf pd) = pd.reasoning := by
  unfold decodeReasoning
  rw [xfind_rs pd]
  by_cases hr : pd.reasoning = []
  · simp [nodesOf, blocksRs, hr]
  · simp only [nodesOf, blocksRs, if_neg hr, List.map_cons, List.map_nil, List.head?_cons]
    show textOrEmpty (rsNode pd.reasoning) = pd.reasoning
    have hne : (rsNode pd.reasoning).text ≠ [] := by
      intro h
      have := congrArg List.length h
      simp [rsNode] at this
    unfold textOrEmpty
    rw [if_neg hne]
    have he : (rsNode pd.reasoning).text
        = (('\n' :: strOf "    ") ++ ['\n']) ++
          (pd.reasoning ++ (('\n' :: strOf "    ") ++ ('\n' :: strOf "  "))) := by
      show ((('\n' :: strOf "    ") ++ ('\n' :: (pd.reasoning ++ ('\n' :: strOf "    ")))) ++
        ('\n' :: strOf "  ")) = _
      simp only [List.append_assoc, List.cons_append]
      try rfl
    rw [he]
    exact pyStrip_ws_sandwich _ _ _ (by decide) (by decide) hst


theorem decodeBn_eq (pd : DiagDict)
    (hd : ∀ b ∈ pd.bottlenecks.getD [], pyStrip b.description = b.description) :
    decodeBn (rootNodeOf pd) = pd.bottlenecks.getD [] := by
  unfold decodeBn
  rw [xfind_bn pd]
  rcases hb : pd.bottlenecks with _ | (_ | ⟨b, bs⟩)
  · simp [nodesOf, blocksBn, hb]
  · simp [nodesOf, blocksBn, hb]
  · simp only [nodesOf, blocksBn, hb, List.map_cons, List.map_nil, List.head?_cons,
      Option.getD_some]
    have hgoal : (xfindall ((bnSectionChunk (b :: bs)).node) (strOf "bottleneck")).map
        (fun el => ({ btype := xget el (strOf "type") (strOf "Unknown"), severity := xget el (strOf "severity") (strOf "Medium"), description := textOrEmpty el } : Bottleneck)) = b :: bs := by
      unfold xfindall
      rw [show ((bnSectionChunk (b :: bs)).node).children
        = ((b :: bs).map bnChunk).map SerChunk.node from rfl, List.map_map]
      have hfilter : (((b :: bs).map (SerChunk.node ∘ bnChunk)).filter
          (fun c2 => c2.tag == strOf "bottleneck")) = (b :: bs).map (SerChunk.node ∘ bnChunk) := by
        rw [List.filter_eq_self]
        intro a ha
        obtain ⟨x, hx, rfl⟩ := List.mem_map.1 ha
        exact (show ((strOf "bottleneck" : Str) == strOf "bottleneck") = true by decide)
      rw [hfilter, List.map_map]
      apply map_id_of_mem
      intro x hx
      have hstrip := hd x (by rw [hb]; simpa using hx)
      obtain ⟨t, sv, d⟩ := x
      have e1 : xget (bnNode ⟨t, sv, d⟩) (strOf "type") (strOf "Unknown") = t := rfl
      have e2 : xget (bnNode ⟨t, sv, d⟩) (strOf "severity") (strOf "Medium") = sv := rfl
      have e3 : textOrEmpty (bnNode ⟨t, sv, d⟩) = d := textOrEmpty_of_strip _ hstrip
      show ({ btype := xget (bnNode ⟨t, sv, d⟩) (strOf "type") (strOf "Unknown"), severity := xget (bnNode ⟨t, sv, d⟩) (strOf "severity") (strOf "Medium"), description := textOrEmpty (bnNode ⟨t, sv, d⟩) } : Bottleneck) = ⟨t, sv, d⟩
      rw [e1, e2, e3]
    exact hgoal


theorem decodeRc_eq (pd : DiagDict)
    (hd : ∀ c2 ∈ pd.root_causes.getD [], pyStrip c2.description = c2.description) :
    decodeRc (rootNodeOf pd) = pd.root_causes.getD [] := by
  unfold decodeRc
  rw [xfind_rc pd]
  rcases hb : pd.root_causes with _ | (_ | ⟨c, cs⟩)
  · simp [nodesOf, blocksRc, hb]
  · simp [nodesOf, blocksRc, hb]
  · simp only [nodesOf, blocksRc, hb, List.map_cons, List.map_nil, List.head?_cons,
      Option.getD_some]
    have hgoal : (xfindall ((rcSectionChunk (c :: cs)).node) (strOf "root_cause")).map
        (fun el => ({ ctype := xget el (strOf "type") (strOf "Unknown"), description := textOrEmpty el } : RootCause)) = c :: cs := by
      unfold xfindall
      rw [show ((rcSectionChunk (c :: cs)).node).children
        = ((c :: cs).map rcChunk).map SerChunk.node from rfl, List.map_map]
      have hfilter : (((c :: cs).map (SerChunk.node ∘ rcChunk)).filter
          (fun c2 => c2.tag == strOf "root_cause")) = (c :: cs).map (SerChunk.node ∘ rcChunk) := by
        rw [List.filter_eq_self]
        intro a ha
        obtain ⟨x, hx, rfl⟩ := List.mem_map.1 ha
        exact (show ((strOf "root_cause" : Str) == strOf "root_cause") = true by decide)
      rw [hfilter, List.map_map]
      apply map_id_of_mem
      intro x hx
      have hstrip := hd x (by rw [hb]; simpa using hx)
      obtain ⟨t, d⟩ := x
      have e1 : xget (rcNode ⟨t, d⟩) (strOf "type") (strOf "Unknown") = t := rfl
      have e3 : textOrEmpty (rcNode ⟨t, d⟩) = d := textOrEmpty_of_strip _ hstrip
      show ({ ctype := xget (rcNode ⟨t, d⟩) (strOf "type") (strOf "Unknown"), description := textOrEmpty (rcNode ⟨t, d⟩) } : RootCause) = ⟨t, d⟩
      rw [e1, e3]
    exact hgoal


theorem decodeRec_eq (pd : DiagDict)
    (hd : ∀ r2 ∈ pd.recommendations.getD [], pyStrip r2.description = r2.description) :
    decodeRec (rootNodeOf pd) = pd.recommendations.getD [] := by
  unfold decodeRec
  rw [xfind_rec pd]
  rcases hb : pd.recommendations with _ | (_ | ⟨r, rs⟩)
  · simp [nodesOf, blocksRec, hb]
  · simp [nodesOf, blocksRec, hb]
  · simp only [nodesOf, blocksRec, hb, List.map_cons, List.map_nil, List.head?_cons,
      Option.getD_some]
    have hgoal : (xfindall ((recSectionChunk (r :: rs)).node) (strOf "recommendation")).map
        (fun el => ({ rtype := xget el (strOf "type") (strOf "Unknown"), priority := xget el (strOf "priority") (strOf "Medium"), description := textOrEmpty el } : Recommendation)) = r :: rs := by
      unfold xfindall
      rw [show ((recSectionChunk (r :: rs)).node).children
        = ((r :: rs).map recChunk).map SerChunk.node from rfl, List.map_map]
      have hfilter : (((r :: rs).map (SerChunk.node ∘ recChunk)).filter
          (fun c2 => c2.tag == strOf "recommendation")) = (r :: rs).map (SerChunk.node ∘ recChunk) := by
        rw [List.filter_eq_self]
        intro a ha
        obtain ⟨x, hx, rfl⟩ := List.mem_map.1 ha
        exact (show ((strOf "recommendation" : Str) == strOf "recommendation") = true by decide)
      rw [hfilter, List.map_map]
      apply map_id_of_mem
      intro x hx
      have hstrip := hd x (by rw [hb]; simpa using hx)
      obtain ⟨t, pr, d⟩ := x
      have e1 : xget (recNode ⟨t, pr, d⟩) (strOf "type") (strOf "Unknown") = t := rfl
      have e2 : xget (recNode ⟨t, pr, d⟩) (strOf "priority") (strOf "Medium") = pr := rfl
      have e3 : textOrEmpty (recNode ⟨t, pr, d⟩) = d := textOrEmpty_of_strip _ hstrip
      show ({ rtype := xget (recNode ⟨t, pr, d⟩) (strOf "type") (strOf "Unknown"), priority := xget (recNode ⟨t, pr, d⟩) (strOf "priority") (strOf "Medium"), description := textOrEmpty (recNode ⟨t, pr, d⟩) } : Recommendation) = ⟨t, pr, d⟩
      rw [e1, e2, e3]
    exact hgoal


theorem decodeCm_eq (pd : DiagDict)
    (hd : ∀ cm ∈ pd.comments.getD [], cm ≠ [] ∧ pyStrip cm = cm) :
    decodeCm (rootNodeOf pd) = pd.comments.getD [] := by
  unfold decodeCm
  rw [xfind_cm pd]
  rcases hb : pd.comments with _ | (_ | ⟨c, cs⟩)
  · simp [nodesOf, blocksCm, hb]
  · simp [nodesOf, blocksCm, hb]
  · simp only [nodesOf, blocksCm, hb, List.map_cons, List.map_nil, List.head?_cons,
      Option.getD_some]
    have hgoal : (((xfindall ((cmSectionChunk (c :: cs)).node) (strOf "comment")).map
        textOrEmpty).filter (fun t => t ≠ [])) = c :: cs := by
      unfold xfindall
      rw [show ((cmSectionChunk (c :: cs)).node).children
        = ((c :: cs).map cmChunk).map SerChunk.node from rfl, List.map_map]
      have hfilter : (((c :: cs).map (SerChunk.node ∘ cmChunk)).filter
          (fun c2 => c2.tag == strOf "comment")) = (c :: cs).map (SerChunk.node ∘ cmChunk) := by
        rw [List.filter_eq_self]
        intro a ha
        obtain ⟨x, hx, rfl⟩ := List.mem_map.1 ha
        exact (show ((strOf "comment" : Str) == strOf "comment") = true by decide)
      rw [hfilter, List.map_map]
      have hmap : ((c :: cs).map (textOrEmpty ∘ (SerChunk.node ∘ cmChunk))) = c :: cs := by
        apply map_id_of_mem
        intro x hx
        have hstrip := (hd x (by rw [hb]; simpa using hx)).2
        exact textOrEmpty_of_strip _ hstrip
      rw [hmap, List.filter_eq_self]
      intro a ha
      have hne := (hd a (by rw [hb]; simpa using ha)).1
      exact decide_eq_true hne
    exact hgoal

/-- Safety conditions under which the prior-diagnosis serialization of
`improve_query` round-trips through `parse_diagnosis_xml`: attribute values
avoid quote, angle bracket and ampersand, descriptions avoid angle bracket
and ampersand and are strip-invariant, comments are additionally nonempty,
and the reasoning avoids the CDATA closer and angle brackets and is
strip-invariant. -/
def pdRound (pd : DiagDict) : Prop :=
  pdSafe pd ∧ '<' ∉ pd.reasoning ∧ pyStrip pd.reasoning = pd.reasoning ∧
  (∀ b ∈ pd.bottlenecks.getD [], pyStrip b.description = b.description) ∧
  (∀ c ∈ pd.root_causes.getD [], pyStrip c.description = c.description) ∧
  (∀ r ∈ pd.recommendations.getD [], pyStrip r.description = r.description) ∧
  (∀ cm ∈ pd.comments.getD [], cm ≠ [] ∧ pyStrip cm = cm)


/-- Claim C4, counterexample: the round-trip is not exact for every Diagnosis
value. A diagnosis whose comments sequence contains the empty string encodes
to `<comment></comment>`, which decodes to an element with empty text; the
decoder's truthiness filter (`if c.text and c.text.strip()`) then drops it,
so the decoded comments differ from the original ones. -/
theorem C4_counterexample :
    (parse_diagnosis_xml (buildPriorDiagnosisXml
      ⟨[], none, none, none, some [[]], none, none, none, none⟩)).comments
      ≠ some [[]] := by decide

/-- Claim C4 (amended): for every Diagnosis value whose attribute values
contain no quote, angle bracket or ampersand, whose descriptions contain no
angle bracket or ampersand and equal their own strip, whose comments are
additionally nonempty, and whose reasoning is strip-invariant and free of
angle brackets and of `]`, encoding it with `improve_query`'s field-by-field
prior-diagnosis reconstruction and decoding the block with
`parse_diagnosis_xml` yields the same bottlenecks, root_causes,
recommendations and comments, in the same order and with the same type,
severity and priority attributes (and the reasoning text verbatim). -/
theorem C4_prior_diagnosis_roundtrip (pd : DiagDict) (h : pdRound pd) :
    parse_diagnosis_xml (buildPriorDiagnosisXml pd)
      = { reasoning := pd.reasoning,
          bottlenecks := some (pd.bottlenecks.getD []),
          root_causes := some (pd.root_causes.getD []),
          recommendations := some (pd.recommendations.getD []),
          comments := some (pd.comments.getD []),
          parse_error := none, error := none, raw_input := none,
          raw_response := none } := by
  obtain ⟨hs, hlt, hst, hbd, hcd, hrd, hcm⟩ := h
  unfold parse_diagnosis_xml
  rw [parseDiagnosisTry_doc pd hs hlt]
  show ({ reasoning := decodeReasoning (rootNodeOf pd), bottlenecks := some (decodeBn (rootNodeOf pd)), root_causes := some (decodeRc (rootNodeOf pd)), recommendations := some (decodeRec (rootNodeOf pd)), comments := some (decodeCm (rootNodeOf pd)), parse_error := none, error := none, raw_input := none, raw_response := none } : DiagDict) = _
  rw [decodeReasoning_eq pd hst, decodeBn_eq pd hbd, decodeRc_eq pd hcd,
    decodeRec_eq pd hrd, decodeCm_eq pd hcm]

/-- Claim C4 witness: the amended round-trip at a concrete safe diagnosis. -/
theorem C4_witness :
    parse_diagnosis_xml (buildPriorDiagnosisXml
      ⟨strOf "cause", some [⟨strOf "CPU", strOf "High", strOf "seq scan"⟩],
       some [⟨strOf "missing_index", strOf "no index on t.a"⟩],
       some [⟨strOf "index", strOf "High", strOf "create index"⟩],
       some [strOf "ok"], none, none, none, none⟩)
      = { reasoning := strOf "cause",
          bottlenecks := some [⟨strOf "CPU", strOf "High", strOf "seq scan"⟩],
          root_causes := some [⟨strOf "missing_index", strOf "no index on t.a"⟩],
          recommendations := some [⟨strOf "index", strOf "High", strOf "create index"⟩],
          comments := some [strOf "ok"],
          parse_error := none, error := none, raw_input := none,
          raw_response := none } :=
  C4_prior_diagnosis_roundtrip _ (by unfold pdRound pdSafe attrOk textOk; decide)

end DbDiag
